import Mathlib

/-! # Jumbo file system

A shallow embedding of `src/jumbo_file_system.c`: a small hierarchical file
system on top of a block device.  Every `jfs_*` function of the source is a
Lean function over an explicit file-system state; loops are recursive
functions with the loop counter as the recursion argument.

Conventions of the embedding

* a block buffer (`char buf[BLOCK_SIZE]`) is a function from byte offsets to
  byte values; offsets at or beyond `BLOCK_SIZE` are never read;
* multi-byte loads and stores are little-endian (the host layout the source
  relies on when it casts a `char*` to `unsigned int*` or `block_num_t*`);
* `unsigned int` arithmetic is arithmetic modulo `2 ^ 32`;
* a C string argument is the list of its bytes; the terminating NUL is
  implicit (`cstr`), and a NUL inside the list ends the string early, as it
  would in C;
* `malloc` is taken to succeed.
-/

namespace JFS

/-! ## Constants of the missing header -/

/-- Modelled from the spec: the configuration constants `BLOCK_SIZE`,
`MAX_NAME_LENGTH` and `MAX_FILE_SIZE` come from `jumbo_file_system.h`, which
is not part of the sources; they are parameters of every definition. -/
structure Config where
  BLOCK_SIZE : Nat
  MAX_NAME_LENGTH : Nat
  MAX_FILE_SIZE : Nat

/-- Modelled from the spec: `sizeof(block_num_t)`; the header with the typedef
is missing, the source hard-codes `+ 2` in `entry_size` and the spec gives a
two-byte trailer. -/
def sizeof_block_num_t : Nat := 2

/-- Modelled from the spec: the return codes of the missing header (the error
kinds of the spec's error-handling section), and `E_MINUS_ONE` for the literal
`-1` the source returns on a failed block read or write. -/
inductive Err where
  | E_SUCCESS
  | E_MINUS_ONE
  | E_EXISTS
  | E_NOT_EXISTS
  | E_NOT_DIR
  | E_IS_DIR
  | E_NOT_EMPTY
  | E_MAX_NAME_LENGTH
  | E_MAX_DIR_ENTRIES
  | E_MAX_FILE_SIZE
  | E_DISK_FULL
  deriving DecidableEq, Repr

open Err

/-- The source's `int entry_size = 1 + 1 + MAX_NAME_LENGTH + 2;`. -/
def entry_size (cfg : Config) : Nat := 1 + 1 + cfg.MAX_NAME_LENGTH + 2

/-- The source's `int max_entries = BLOCK_SIZE / entry_size;`. -/
def max_entries (cfg : Config) : Nat := cfg.BLOCK_SIZE / entry_size cfg

/-! ## Byte buffers -/

/-- A block-sized byte buffer, indexed by byte offset. -/
abbrev Block := Nat → Nat

/-- A C string argument: its bytes, without the terminating NUL. -/
abbrev Name := List Nat

/-- Reduction to `unsigned int`. -/
def u32 (x : Nat) : Nat := x % 2 ^ 32

/-- A buffer after `memset(buf, 0, BLOCK_SIZE)`. -/
def zero_block : Block := fun _ => 0

/-- The assignment `buf[off] = v`. -/
def setb (buf : Block) (off v : Nat) : Block :=
  fun i => if i = off then v else buf i

/-- The call `memset(buf + off, v, n)`. -/
def memset (buf : Block) (off v n : Nat) : Block :=
  fun i => if off ≤ i ∧ i < off + n then v else buf i

/-- Load of a `block_num_t` at `buf + off` (little-endian, two bytes). -/
def load16 (buf : Block) (off : Nat) : Nat :=
  buf off % 256 + 256 * (buf (off + 1) % 256)

/-- Store of a `block_num_t` at `buf + off` (little-endian, two bytes). -/
def store16 (buf : Block) (off v : Nat) : Block :=
  fun i => if i = off then v % 256
    else if i = off + 1 then v / 256 % 256
    else buf i

/-- Load of an `unsigned int` at `buf + off` (little-endian, four bytes). -/
def load32 (buf : Block) (off : Nat) : Nat :=
  buf off % 256 + 256 * (buf (off + 1) % 256)
    + 65536 * (buf (off + 2) % 256) + 16777216 * (buf (off + 3) % 256)

/-- Store of an `unsigned int` at `buf + off` (little-endian, four bytes). -/
def store32 (buf : Block) (off v : Nat) : Block :=
  fun i => if i = off then v % 256
    else if i = off + 1 then v / 256 % 256
    else if i = off + 2 then v / 65536 % 256
    else if i = off + 3 then v / 16777216 % 256
    else buf i

/-- The byte at index `i` of a C string: past the listed bytes the
terminating NUL is read. -/
def cstr (name : Name) : Nat → Nat := fun i => name.getD i 0

/-- C `strlen`: the number of bytes before the first NUL. -/
def strlen : Name → Nat
  | [] => 0
  | c :: cs => if c = 0 then 0 else strlen cs + 1

/-- C `strncmp(s1, s2, n) == 0`: the two strings agree up to the first NUL or
up to `n` bytes, whichever comes first. -/
def strncmp_eq0 (s1 s2 : Nat → Nat) : Nat → Bool
  | 0 => true
  | n + 1 =>
    if s1 0 ≠ s2 0 then false
    else if s1 0 = 0 then true
    else strncmp_eq0 (fun k => s1 (k + 1)) (fun k => s2 (k + 1)) n

/-- C `strncpy(buf + off, src, n)`: the bytes of `src` up to its NUL, then NUL
padding up to `n` bytes in all. -/
def strncpy (buf : Block) (off : Nat) (src : Name) (n : Nat) : Block :=
  fun i =>
    if off ≤ i ∧ i < off + n then
      (if i - off < strlen src then cstr src (i - off) else 0)
    else buf i

/-- The call `memcpy(buf + off, src + soff, n)` from a caller buffer. -/
def memcpy_in (buf : Block) (off : Nat) (src : List Nat) (soff n : Nat) : Block :=
  fun i => if off ≤ i ∧ i < off + n then src.getD (soff + (i - off)) 0 else buf i

/-- The bytes `memcpy(dst, buf, n)` copies out of a block buffer. -/
def memcpy_out (buf : Block) (n : Nat) : List Nat := (List.range n).map buf

/-- The name a `strncpy(dst, src, MAX_NAME_LENGTH); dst[MAX_NAME_LENGTH] = 0`
leaves in `dst`, as a C string. -/
def name_of (src : Nat → Nat) (n : Nat) : Name :=
  ((List.range n).map src).takeWhile (fun c => c ≠ 0)

/-! ## Block store -/

/-- The file-system state: the device and the source's `static block_num_t
current_dir`.

Modelled from the spec: the block store (`read_block`, `write_block`,
`allocate_block`, `release_block` of the basic file system) is an external
collaborator whose code is not part of the sources.  The device holds the
blocks `0 .. nblocks - 1`; `free` is the pool `allocate_block` draws from. -/
structure FS where
  disk : Nat → Block
  nblocks : Nat
  free : List Nat
  current_dir : Nat

/-- Modelled from the spec: `readBlock(num) -> bytes|err`; fails exactly on a
block number the device does not hold. -/
def read_block (s : FS) (n : Nat) : Option Block :=
  if n < s.nblocks then some (s.disk n) else none

/-- Modelled from the spec: `writeBlock(num, bytes) -> ok|err`; fails exactly
on a block number the device does not hold. -/
def write_block (s : FS) (n : Nat) (buf : Block) : Option FS :=
  if n < s.nblocks then
    some { s with disk := fun m => if m = n then buf else s.disk m }
  else none

/-- Modelled from the spec: `allocateBlock() -> num` (`0` signals
exhaustion); hands out the first block of the free pool. -/
def allocate_block (s : FS) : Nat × FS :=
  match s.free with
  | [] => (0, s)
  | b :: rest => (b, { s with free := rest })

/-- Modelled from the spec: `releaseBlock(num) -> void`; returns the block to
the free pool. -/
def release_block (s : FS) (n : Nat) : FS :=
  { s with free := n :: s.free }

/-! ## Directory scans -/

/-- The lookup loop shared by `jfs_chdir`, `jfs_rmdir`, `jfs_remove`,
`jfs_stat`, `jfs_write` and `jfs_read`:
`for (i = 0; i < max_entries; i++) if (block_data[offset] && strncmp(...) == 0)`;
the result is the first index whose body is entered.  The first counter is
`max_entries - i`. -/
def find_entry (cfg : Config) (block_data : Block) (name : Name) : Nat → Nat → Option Nat
  | 0, _ => none
  | k + 1, i =>
    if block_data (i * entry_size cfg) ≠ 0 ∧
        strncmp_eq0 (fun j => block_data (i * entry_size cfg + 2 + j)) (cstr name)
          cfg.MAX_NAME_LENGTH = true then
      some i
    else find_entry cfg block_data name k (i + 1)

/-- The scan loop of `jfs_creat`: `E_EXISTS` at the first used slot carrying
the name, otherwise the lowest unused slot (`none` for `found_empty == -1`). -/
def creat_scan (cfg : Config) (block_data : Block) (file_name : Name) :
    Nat → Nat → Option Nat → Except Err (Option Nat)
  | 0, _, found_empty => .ok found_empty
  | k + 1, i, found_empty =>
    if block_data (i * entry_size cfg) ≠ 0 ∧
        strncmp_eq0 (fun j => block_data (i * entry_size cfg + 2 + j)) (cstr file_name)
          cfg.MAX_NAME_LENGTH = true then
      .error E_EXISTS
    else
      creat_scan cfg block_data file_name k (i + 1)
        (if block_data (i * entry_size cfg) = 0 ∧ found_empty = none then some i
         else found_empty)

/-- The scan loop of `jfs_mkdir`; it tests the used flag with `== 1` and
`== 0`. -/
def mkdir_scan (cfg : Config) (block_data : Block) (directory_name : Name) :
    Nat → Nat → Option Nat → Except Err (Option Nat)
  | 0, _, found_empty => .ok found_empty
  | k + 1, i, found_empty =>
    if block_data (i * entry_size cfg) = 1 ∧
        strncmp_eq0 (fun j => block_data (i * entry_size cfg + 2 + j)) (cstr directory_name)
          cfg.MAX_NAME_LENGTH = true then
      .error E_EXISTS
    else
      mkdir_scan cfg block_data directory_name k (i + 1)
        (if block_data (i * entry_size cfg) = 0 ∧ found_empty = none then some i
         else found_empty)

/-- The second loop of `jfs_mkdir`, clearing every entry of the new block. -/
def clear_entries (cfg : Config) (new_block_data : Block) : Nat → Nat → Block
  | 0, _ => new_block_data
  | k + 1, i =>
    clear_entries cfg (memset new_block_data (i * entry_size cfg) 0 (entry_size cfg)) k (i + 1)

/-! ## Operations -/

/-- The helper `is_dir`: byte 0 of the block is `1`. -/
def is_dir (s : FS) (block_num : Nat) : Bool :=
  match read_block s block_num with
  | none => false
  | some block_data => decide (block_data 0 = 1)

/-- The function `jfs_mkdir`. -/
def jfs_mkdir (cfg : Config) (s : FS) (directory_name : Name) : Err × FS :=
  if strlen directory_name > cfg.MAX_NAME_LENGTH then (E_MAX_NAME_LENGTH, s)
  else
    match read_block s s.current_dir with
    | none => (E_MINUS_ONE, s)
    | some block_data =>
      match mkdir_scan cfg block_data directory_name (max_entries cfg) 0 none with
      | .error e => (e, s)
      | .ok none => (E_MAX_DIR_ENTRIES, s)
      | .ok (some found_empty) =>
        let new_dir_block := (allocate_block s).1
        let s1 := (allocate_block s).2
        if new_dir_block = 0 then (E_DISK_FULL, s1)
        else
          let new_block_data := clear_entries cfg zero_block (max_entries cfg) 0
          match write_block s1 new_dir_block new_block_data with
          | none => (E_MINUS_ONE, s1)
          | some s2 =>
            let offset := found_empty * entry_size cfg
            let bd1 := setb block_data offset 1
            let bd2 := setb bd1 (offset + 1) 1
            let bd3 := strncpy bd2 (offset + 2) directory_name cfg.MAX_NAME_LENGTH
            let bd4 := store16 bd3 (offset + 2 + cfg.MAX_NAME_LENGTH) new_dir_block
            match write_block s2 s2.current_dir bd4 with
            | none => (E_MINUS_ONE, s2)
            | some s3 => (E_SUCCESS, s3)

/-- The function `jfs_creat`. -/
def jfs_creat (cfg : Config) (s : FS) (file_name : Name) : Err × FS :=
  if strlen file_name > cfg.MAX_NAME_LENGTH then (E_MAX_NAME_LENGTH, s)
  else
    match read_block s s.current_dir with
    | none => (E_MINUS_ONE, s)
    | some block_data =>
      match creat_scan cfg block_data file_name (max_entries cfg) 0 none with
      | .error e => (e, s)
      | .ok none => (E_MAX_DIR_ENTRIES, s)
      | .ok (some found_empty) =>
        let file_block := (allocate_block s).1
        let s1 := (allocate_block s).2
        if file_block = 0 then (E_DISK_FULL, s1)
        else
          match write_block s1 file_block zero_block with
          | none => (E_MINUS_ONE, s1)
          | some s2 =>
            let offset := found_empty * entry_size cfg
            let bd0 := memset block_data offset 0 (entry_size cfg)
            let bd1 := setb bd0 offset 1
            let bd2 := setb bd1 (offset + 1) 0
            let bd3 := strncpy bd2 (offset + 2) file_name cfg.MAX_NAME_LENGTH
            let bd4 := store16 bd3 (offset + 2 + cfg.MAX_NAME_LENGTH) file_block
            match write_block s2 s2.current_dir bd4 with
            | none => (E_MINUS_ONE, s2)
            | some s3 => (E_SUCCESS, s3)

/-- The function `jfs_remove`. -/
def jfs_remove (cfg : Config) (s : FS) (file_name : Name) : Err × FS :=
  match read_block s s.current_dir with
  | none => (E_MINUS_ONE, s)
  | some block_data =>
    match find_entry cfg block_data file_name (max_entries cfg) 0 with
    | none => (E_NOT_EXISTS, s)
    | some i =>
      let offset := i * entry_size cfg
      let file_block := load16 block_data (offset + 2 + cfg.MAX_NAME_LENGTH)
      if is_dir s file_block = true then (E_IS_DIR, s)
      else
        let bd1 := setb block_data offset 0
        let s1 := release_block s file_block
        match write_block s1 s1.current_dir bd1 with
        | none => (E_MINUS_ONE, s1)
        | some s2 => (E_SUCCESS, s2)

/-- Modelled from the spec: `struct stats` of the missing header, with the
fields the source assigns; `file_size` holds the `uint32_t` the source loads. -/
structure Stats where
  is_dir : Nat
  block_num : Nat
  name : Name
  file_size : Nat
  num_data_blocks : Nat
  deriving DecidableEq, Repr

/-- The function `jfs_stat`; `buf` is the caller's struct, returned as the
call leaves it. -/
def jfs_stat (cfg : Config) (s : FS) (name : Name) (buf : Stats) : Err × Stats :=
  match read_block s s.current_dir with
  | none => (E_MINUS_ONE, buf)
  | some block_data =>
    match find_entry cfg block_data name (max_entries cfg) 0 with
    | none => (E_NOT_EXISTS, buf)
    | some i =>
      let offset := i * entry_size cfg
      let block_num := load16 block_data (offset + 2 + cfg.MAX_NAME_LENGTH)
      let buf1 : Stats :=
        { buf with is_dir := block_data (offset + 1), block_num := block_num,
                   name := name_of (cstr name) cfg.MAX_NAME_LENGTH }
      if buf1.is_dir = 0 then
        match read_block s block_num with
        | none => (E_MINUS_ONE, buf1)
        | some file_block_data =>
          let file_size := load32 file_block_data 0
          (E_SUCCESS,
            { buf1 with file_size := file_size,
                        num_data_blocks := u32 (file_size + cfg.BLOCK_SIZE - 1) / cfg.BLOCK_SIZE })
      else
        (E_SUCCESS, { buf1 with file_size := 0, num_data_blocks := 0 })

/-- The function `jfs_mount`: the result of `bfs_mount` (external) is passed
through, and the cursor is set to the root block 1. -/
def jfs_mount (bfs_ret : Int) (s : FS) : Int × FS :=
  (bfs_ret, { s with current_dir := 1 })

/-- The function `jfs_chdir`; `none` is the `NULL` argument. -/
def jfs_chdir (cfg : Config) (s : FS) (directory_name : Option Name) : Err × FS :=
  match directory_name with
  | none => (E_SUCCESS, { s with current_dir := 1 })
  | some name =>
    match read_block s s.current_dir with
    | none => (E_MINUS_ONE, s)
    | some block_data =>
      match find_entry cfg block_data name (max_entries cfg) 0 with
      | none => (E_NOT_EXISTS, s)
      | some i =>
        let offset := i * entry_size cfg
        let dir_block := load16 block_data (offset + 2 + cfg.MAX_NAME_LENGTH)
        if block_data (offset + 1) = 1 then (E_SUCCESS, { s with current_dir := dir_block })
        else (E_NOT_DIR, s)

/-- The loop of `jfs_ls`: the names of the used slots, by ascending slot
index, those of kind 1 in `directories` and the others in `files`. -/
def ls_scan (cfg : Config) (block_data : Block) :
    Nat → Nat → List Name → List Name → List Name × List Name
  | 0, _, directories, files => (directories, files)
  | k + 1, i, directories, files =>
    if block_data (i * entry_size cfg) ≠ 0 then
      if block_data (i * entry_size cfg + 1) = 1 then
        ls_scan cfg block_data k (i + 1)
          (directories ++
            [name_of (fun j => block_data (i * entry_size cfg + 2 + j)) cfg.MAX_NAME_LENGTH])
          files
      else
        ls_scan cfg block_data k (i + 1) directories
          (files ++
            [name_of (fun j => block_data (i * entry_size cfg + 2 + j)) cfg.MAX_NAME_LENGTH])
    else ls_scan cfg block_data k (i + 1) directories files

/-- The function `jfs_ls`: the return code and the two `NULL`-terminated
arrays, as the lists of their strings. -/
def jfs_ls (cfg : Config) (s : FS) : Err × List Name × List Name :=
  match read_block s s.current_dir with
  | none => (E_MINUS_ONE, [], [])
  | some block_data =>
    (E_SUCCESS, ls_scan cfg block_data (max_entries cfg) 0 [] [])

/-- The inner loop of `jfs_rmdir`: no slot of the block has its used flag
set. -/
def dir_is_empty (cfg : Config) (dir_data : Block) : Nat → Nat → Bool
  | 0, _ => true
  | k + 1, j =>
    if dir_data (j * entry_size cfg) ≠ 0 then false
    else dir_is_empty cfg dir_data k (j + 1)

/-- The function `jfs_rmdir`. -/
def jfs_rmdir (cfg : Config) (s : FS) (directory_name : Name) : Err × FS :=
  match read_block s s.current_dir with
  | none => (E_MINUS_ONE, s)
  | some block_data =>
    match find_entry cfg block_data directory_name (max_entries cfg) 0 with
    | none => (E_NOT_EXISTS, s)
    | some i =>
      let offset := i * entry_size cfg
      let dir_block := load16 block_data (offset + 2 + cfg.MAX_NAME_LENGTH)
      if block_data (offset + 1) ≠ 1 then (E_NOT_DIR, s)
      else
        match read_block s dir_block with
        | none => (E_MINUS_ONE, s)
        | some dir_data =>
          if dir_is_empty cfg dir_data (max_entries cfg) 0 = true then
            let bd1 := setb block_data offset 0
            let s1 := release_block s dir_block
            match write_block s1 s1.current_dir bd1 with
            | none => (E_MINUS_ONE, s1)
            | some s2 => (E_SUCCESS, s2)
          else (E_NOT_EMPTY, s)

/-- The local variables of the `while` loop of `jfs_write`, with the state of
the device. -/
structure WriteState where
  fs : FS
  file_inode_data : Block
  current_size : Nat
  bytes_written : Nat
  current_data_block : Nat
  current_block_offset : Nat
  num_blocks : Nat

/-- First half of the loop body of `jfs_write`: the `if (current_block_offset
== 0) ... else ...` that fills `data_block_buf`.  The buffer is an
uninitialised stack array; `junk` is its content where the source stores into
it without having read a block into it first. -/
def write_prepare (cfg : Config) (junk : Block) (w : WriteState) :
    Except (Err × FS) (WriteState × Block) :=
  if w.current_block_offset = 0 then
    let prev_data_block := w.current_data_block
    let current_data_block := (allocate_block w.fs).1
    let fs1 := (allocate_block w.fs).2
    if current_data_block = 0 then .error (E_DISK_FULL, fs1)
    else if prev_data_block ≠ 0 then
      match read_block fs1 prev_data_block with
      | none => .error (E_MINUS_ONE, fs1)
      | some buf0 =>
        let data_block_buf :=
          store16 buf0 (cfg.BLOCK_SIZE - sizeof_block_num_t) current_data_block
        match write_block fs1 prev_data_block data_block_buf with
        | none => .error (E_MINUS_ONE, fs1)
        | some fs2 =>
          .ok ({ w with fs := fs2, current_data_block := current_data_block,
                        num_blocks := u32 (w.num_blocks + 1) }, data_block_buf)
    else
      .ok ({ w with fs := fs1,
                    file_inode_data := store16 w.file_inode_data 4 current_data_block,
                    current_data_block := current_data_block,
                    num_blocks := u32 (w.num_blocks + 1) }, junk)
  else
    match read_block w.fs w.current_data_block with
    | none => .error (E_MINUS_ONE, w.fs)
    | some buf0 => .ok (w, buf0)

/-- One iteration of the `while` loop of `jfs_write`. -/
def write_step (cfg : Config) (junk : Block) (buf : List Nat) (count : Nat) (w : WriteState) :
    Except (Err × FS) WriteState :=
  match write_prepare cfg junk w with
  | .error e => .error e
  | .ok (w1, data_block_buf) =>
    let space_in_block := cfg.BLOCK_SIZE - w1.current_block_offset
    let write_size :=
      if count - w1.bytes_written < space_in_block then count - w1.bytes_written
      else space_in_block
    let data_block_buf1 :=
      memcpy_in data_block_buf w1.current_block_offset buf w1.bytes_written write_size
    match write_block w1.fs w1.current_data_block data_block_buf1 with
    | none => .error (E_MINUS_ONE, w1.fs)
    | some fs1 =>
      .ok { w1 with fs := fs1,
                    current_size := u32 (w1.current_size + write_size),
                    bytes_written := u32 (w1.bytes_written + write_size),
                    current_block_offset :=
                      (w1.current_block_offset + write_size) % cfg.BLOCK_SIZE }

/-- The loop `while (bytes_written < count)` of `jfs_write`, bounded by a
number of iterations; `none` when the bound is used up with the loop condition
still true. -/
def write_loop (cfg : Config) (junk : Block) (buf : List Nat) (count : Nat) :
    Nat → WriteState → Option (Except (Err × FS) WriteState)
  | 0, w => if w.bytes_written < count then none else some (.ok w)
  | fuel + 1, w =>
    if w.bytes_written < count then
      match write_step cfg junk buf count w with
      | .error e => some (.error e)
      | .ok w1 => write_loop cfg junk buf count fuel w1
    else some (.ok w)

/-- The locals of `jfs_write` on entry to its loop: `bytes_written = 0`,
`current_data_block = *(block_num_t*)(file_inode_data + 4)`,
`current_block_offset = current_size % BLOCK_SIZE` and
`num_blocks = (current_size + BLOCK_SIZE - 1) / BLOCK_SIZE`. -/
def write_start (cfg : Config) (s : FS) (file_inode_data : Block) : WriteState :=
  { fs := s, file_inode_data := file_inode_data,
    current_size := load32 file_inode_data 0,
    bytes_written := 0,
    current_data_block := load16 file_inode_data 4,
    current_block_offset := load32 file_inode_data 0 % cfg.BLOCK_SIZE,
    num_blocks := u32 (load32 file_inode_data 0 + cfg.BLOCK_SIZE - 1) / cfg.BLOCK_SIZE }

/-- The byte offset, in `file_inode_data`, of the store
`*(block_num_t*)(file_inode_data + 4 + (num_blocks - 1) * sizeof(block_num_t))`;
`num_blocks - 1` is `unsigned int` arithmetic. -/
def inode_slot (num_blocks : Nat) : Nat :=
  4 + u32 (num_blocks + (2 ^ 32 - 1)) * sizeof_block_num_t

/-- The statements of `jfs_write` after its loop: the store of
`current_data_block` into the inode, the store of the new size, and the write
of the inode.  `none` when the first store falls outside the `BLOCK_SIZE`
bytes of `file_inode_data`, where the C program has no defined behaviour. -/
def write_finish (cfg : Config) (file_block : Nat) (w : WriteState) : Option (Err × FS) :=
  if inode_slot w.num_blocks + sizeof_block_num_t > cfg.BLOCK_SIZE then none
  else
    let inode1 := store16 w.file_inode_data (inode_slot w.num_blocks) w.current_data_block
    let inode2 := store32 inode1 0 w.current_size
    match write_block w.fs file_block inode2 with
    | none => some (E_MINUS_ONE, w.fs)
    | some fs1 => some (E_SUCCESS, fs1)

/-- The part of `jfs_write` that follows the successful read of the inode
block: the size check, the loop and the final statements.  The loop is given
`count` iterations (each one writes at least one byte); `none` when that bound
is used up, or from `write_finish`. -/
def write_body (cfg : Config) (junk : Block) (s : FS) (file_block : Nat)
    (file_inode_data : Block) (buf : List Nat) (count : Nat) : Option (Err × FS) :=
  if u32 (load32 file_inode_data 0 + count) > cfg.MAX_FILE_SIZE then some (E_MAX_FILE_SIZE, s)
  else
    match write_loop cfg junk buf count count (write_start cfg s file_inode_data) with
    | none => none
    | some (.error e) => some e
    | some (.ok w) => write_finish cfg file_block w

/-- The function `jfs_write`; `count` is the value of the `unsigned short`
argument. -/
def jfs_write (cfg : Config) (junk : Block) (s : FS) (file_name : Name) (buf : List Nat)
    (count : Nat) : Option (Err × FS) :=
  if count = 0 then some (E_SUCCESS, s)
  else
    match read_block s s.current_dir with
    | none => some (E_MINUS_ONE, s)
    | some block_data =>
      match find_entry cfg block_data file_name (max_entries cfg) 0 with
      | none => some (E_NOT_EXISTS, s)
      | some i =>
        let offset := i * entry_size cfg
        if block_data (offset + 1) ≠ 0 then some (E_IS_DIR, s)
        else
          let file_block := load16 block_data (offset + 2 + cfg.MAX_NAME_LENGTH)
          match read_block s file_block with
          | none => some (E_MINUS_ONE, s)
          | some file_inode_data =>
            write_body cfg junk s file_block file_inode_data buf count

/-- The loop `while (bytes_read < to_read)` of `jfs_read`, bounded by a number
of iterations; `out` collects the bytes copied to the caller's buffer. -/
def read_loop (cfg : Config) (s : FS) (to_read : Nat) :
    Nat → Nat → Nat → List Nat → Option (Err × List Nat × Nat)
  | 0, bytes_read, _, out =>
    if bytes_read < to_read then none else some (E_SUCCESS, out, bytes_read)
  | fuel + 1, bytes_read, current_data_block, out =>
    if bytes_read < to_read then
      match read_block s current_data_block with
      | none => some (E_MINUS_ONE, out, bytes_read)
      | some data_block_buf =>
        let read_size :=
          if to_read - bytes_read > cfg.BLOCK_SIZE then cfg.BLOCK_SIZE
          else to_read - bytes_read
        let bytes_read1 := u32 (bytes_read + read_size)
        read_loop cfg s to_read fuel bytes_read1
          (if bytes_read1 < to_read then
             load16 data_block_buf (cfg.BLOCK_SIZE - sizeof_block_num_t)
           else current_data_block)
          (out ++ memcpy_out data_block_buf read_size)
    else some (E_SUCCESS, out, bytes_read)

/-- The function `jfs_read`, called with `*ptr_count = ptr_count`.  The result
is the return code, the bytes copied into `buf` (from its start), and the
final `*ptr_count`.  The loop is given `to_read` iterations (each one copies
at least one byte); `none` when that bound is used up. -/
def jfs_read (cfg : Config) (s : FS) (file_name : Name) (ptr_count : Nat) :
    Option (Err × List Nat × Nat) :=
  match read_block s s.current_dir with
  | none => some (E_MINUS_ONE, [], ptr_count)
  | some block_data =>
    match find_entry cfg block_data file_name (max_entries cfg) 0 with
    | none => some (E_NOT_EXISTS, [], ptr_count)
    | some i =>
      let offset := i * entry_size cfg
      let file_block := load16 block_data (offset + 2 + cfg.MAX_NAME_LENGTH)
      if block_data (offset + 1) ≠ 0 then some (E_IS_DIR, [], ptr_count)
      else
        match read_block s file_block with
        | none => some (E_MINUS_ONE, [], ptr_count)
        | some file_inode_data =>
          let file_size := load32 file_inode_data 0
          let to_read := if ptr_count > file_size then file_size else ptr_count
          match read_loop cfg s to_read to_read 0 (load16 file_inode_data 4) [] with
          | none => none
          | some (E_SUCCESS, out, bytes_read) => some (E_SUCCESS, out, bytes_read)
          | some (e, out, _) => some (e, out, ptr_count)

/-- A driver: `n` consecutive calls `jfs_write(file_name, buf, count)`, each
one on the state the previous one left; `none` as soon as a call does not
return `E_SUCCESS`. -/
def write_repeat (cfg : Config) (junk : Block) (file_name : Name) (buf : List Nat)
    (count : Nat) : Nat → FS → Option FS
  | 0, s => some s
  | n + 1, s =>
    match jfs_write cfg junk s file_name buf count with
    | some (E_SUCCESS, s1) => write_repeat cfg junk file_name buf count n s1
    | _ => none

/-! ## Reference quantities of the specification -/

/-- The payload capacity the specification gives a data block: the block size
minus the width of the trailing `next` pointer. -/
def payload_capacity (cfg : Config) : Nat := cfg.BLOCK_SIZE - sizeof_block_num_t

/-- Ceiling of `a / b` on naturals. -/
def ceil_div (a b : Nat) : Nat := (a + b - 1) / b

/-- The state a `jfs_write` call leaves behind (the state `s` it started from
when the call has no result). -/
def state_after (r : Option (Err × FS)) (s : FS) : FS := (r.map Prod.snd).getD s

/-- The return code of a `jfs_write` call. -/
def code_of (r : Option (Err × FS)) : Option Err := r.map Prod.fst

/-! ## A concrete device

The illustrative configuration of the specification: 64-byte blocks, names of
up to 12 bytes, hence 16-byte directory entries and 4 entries per directory.
The file size ceiling is 30 blocks, the number of block numbers that fit
behind the 4-byte size field of a metadata block. -/

/-- Block size 64, name length 12, file size ceiling 1920. -/
def cfg64 : Config := { BLOCK_SIZE := 64, MAX_NAME_LENGTH := 12, MAX_FILE_SIZE := 1920 }

/-- A freshly formatted device of 16 blocks: every block zero, the root
directory in block 1, blocks 2 to 9 free. -/
def fs0 : FS :=
  { disk := fun _ => zero_block, nblocks := 16, free := [2, 3, 4, 5, 6, 7, 8, 9],
    current_dir := 1 }

/-- Content of the uninitialised stack buffer in the concrete runs. -/
def junk0 : Block := fun _ => 170

/-- The name `a.txt`. -/
def name_a : Name := [97, 46, 116, 120, 116]

/-- The name `d`. -/
def name_d : Name := [100]

/-- An empty `struct stats`. -/
def stats0 : Stats :=
  { is_dir := 0, block_num := 0, name := [], file_size := 0, num_data_blocks := 0 }

/-- The device after `jfs_creat("a.txt")`. -/
def fs_a : FS := (jfs_creat cfg64 fs0 name_a).2

/-- One hundred bytes `x`. -/
def x100 : List Nat := List.replicate 100 120

/-- The device after `jfs_creat("a.txt")` and an append of 100 bytes `x`. -/
def fs_x100 : FS := state_after (jfs_write cfg64 junk0 fs_a name_a x100 100) fs_a

/-- The bytes `0, 1, ..., 69`. -/
def seq70 : List Nat := List.range 70

/-- The device after `jfs_creat("a.txt")` and an append of `seq70`. -/
def fs_seq70 : FS := state_after (jfs_write cfg64 junk0 fs_a name_a seq70 70) fs_a

/-- The device after a further append of the single byte 200. -/
def fs_seq71 : FS := state_after (jfs_write cfg64 junk0 fs_seq70 name_a [200] 1) fs_seq70

/-- The device after `jfs_mkdir("d")` on the fresh device. -/
def fs_d : FS := (jfs_mkdir cfg64 fs0 name_d).2

/-- The name `b`. -/
def name_b : Name := [98]

/-- The name `c`. -/
def name_c : Name := [99]

/-- A full directory on a device without free blocks: the entries `d`
(directory), `a.txt`, `b` and `c` (files) fill the four slots of the root. -/
def fs_full : FS :=
  { (jfs_creat cfg64 (jfs_creat cfg64 (jfs_creat cfg64 fs_d name_a).2 name_b).2 name_c).2
    with free := [] }

/-- The device after `jfs_creat("a.txt")` and an append of the single byte 7. -/
def fs_one : FS := state_after (jfs_write cfg64 junk0 fs_a name_a [7] 1) fs_a

/-- The device after `jfs_creat("a.txt")` and an append of 257 bytes. -/
def fs_257 : FS :=
  state_after (jfs_write cfg64 junk0 fs_a name_a (List.replicate 257 7) 257) fs_a

/-- The device after `jfs_creat("a.txt")` and an append of 63 bytes. -/
def fs_63 : FS :=
  state_after (jfs_write cfg64 junk0 fs_a name_a (List.replicate 63 7) 63) fs_a

/-! ## Views of a directory block used in the statements -/

/-- The name field `strncpy(field, name, MAX_NAME_LENGTH)` leaves: the bytes
of the name up to its NUL, then NUL padding. -/
def padded (name : Name) : Nat → Nat :=
  fun k => if k < strlen name then cstr name k else 0

/-- Slot `i` of a directory block is one the lookup loops stop at for `name`:
its used flag is set and its name field compares equal. -/
def slot_hit (cfg : Config) (bd : Block) (name : Name) (i : Nat) : Prop :=
  bd (i * entry_size cfg) ≠ 0 ∧
    strncmp_eq0 (fun j => bd (i * entry_size cfg + 2 + j)) (cstr name) cfg.MAX_NAME_LENGTH = true

/-- The lowest slot in `i .. i + k - 1` whose used flag is 0. -/
def first_free (cfg : Config) (bd : Block) : Nat → Nat → Option Nat
  | 0, _ => none
  | k + 1, i => if bd (i * entry_size cfg) = 0 then some i else first_free cfg bd k (i + 1)

/-- The directory block with slot `j` filled in: used flag 1, the kind byte,
the padded name and the two bytes of the target block number. -/
def put_entry (cfg : Config) (bd : Block) (j kind : Nat) (name : Name) (target : Nat) : Block :=
  fun k =>
    if k = j * entry_size cfg then 1
    else if k = j * entry_size cfg + 1 then kind
    else if j * entry_size cfg + 2 ≤ k ∧ k < j * entry_size cfg + 2 + cfg.MAX_NAME_LENGTH then
      padded name (k - (j * entry_size cfg + 2))
    else if k = j * entry_size cfg + 2 + cfg.MAX_NAME_LENGTH then target % 256
    else if k = j * entry_size cfg + 2 + cfg.MAX_NAME_LENGTH + 1 then target / 256 % 256
    else bd k

/-- The state a successful `jfs_creat` or `jfs_mkdir` leaves: the block `b`
taken from the free pool is zeroed and slot `j` of the current directory is
filled in. -/
def created (cfg : Config) (s : FS) (j kind : Nat) (name : Name) (b : Nat) (rest : List Nat) :
    FS :=
  { disk := fun m =>
      if m = s.current_dir then put_entry cfg (s.disk s.current_dir) j kind name b
      else if m = b then zero_block else s.disk m,
    nblocks := s.nblocks, free := rest, current_dir := s.current_dir }

/-- The device after `jfs_mkdir("d")` and `jfs_chdir("d")`. -/
def fs_in_d : FS := (jfs_chdir cfg64 fs_d (some name_d)).2

/-- The device after `jfs_mkdir("d")`, `jfs_chdir("d")`, `jfs_creat("a.txt")`
and `jfs_chdir(NULL)`: the root holds the directory `d`, which holds one
file. -/
def fs_d_file : FS := (jfs_chdir cfg64 (jfs_creat cfg64 fs_in_d name_a).2 none).2

/-- The name `jfs_ls` copies out of slot `i`. -/
def slot_name (cfg : Config) (bd : Block) (i : Nat) : Name :=
  name_of (fun j => bd (i * entry_size cfg + 2 + j)) cfg.MAX_NAME_LENGTH

/-- Slot `i` is used and of kind directory (kind byte 1). -/
def is_dir_slot (cfg : Config) (bd : Block) (i : Nat) : Bool :=
  decide (bd (i * entry_size cfg) ≠ 0) && decide (bd (i * entry_size cfg + 1) = 1)

/-- Slot `i` is used and not of kind directory. -/
def is_file_slot (cfg : Config) (bd : Block) (i : Nat) : Bool :=
  decide (bd (i * entry_size cfg) ≠ 0) && !decide (bd (i * entry_size cfg + 1) = 1)

/-- Slot `i` is used. -/
def is_used_slot (cfg : Config) (bd : Block) (i : Nat) : Bool :=
  decide (bd (i * entry_size cfg) ≠ 0)

/-- A valid name: a C string (no NUL byte inside) of at most `MAX_NAME_LENGTH`
bytes. -/
def valid_name (cfg : Config) (n : Name) : Prop := 0 ∉ n ∧ n.length ≤ cfg.MAX_NAME_LENGTH

instance decidable_valid_name (cfg : Config) (n : Name) : Decidable (valid_name cfg n) := by
  unfold valid_name
  infer_instance

/-- The name `abcdefghijkl`, of exactly 12 bytes. -/
def name_12 : Name := [97, 98, 99, 100, 101, 102, 103, 104, 105, 106, 107, 108]

/-- The name `abcdefghijklm`, of 13 bytes. -/
def name_13 : Name := [97, 98, 99, 100, 101, 102, 103, 104, 105, 106, 107, 108, 109]

/-- A full directory on a device without free blocks, whose last slot holds
the 12-byte name. -/
def fs_full_12 : FS :=
  { (jfs_creat cfg64 (jfs_creat cfg64 (jfs_creat cfg64 fs_d name_a).2 name_b).2 name_12).2
    with free := [] }

/-- A creation call: `jfs_mkdir` (first component true) or `jfs_creat`, with
its name. -/
def create (cfg : Config) (s : FS) (op : Bool × Name) : Err × FS :=
  if op.1 = true then jfs_mkdir cfg s op.2 else jfs_creat cfg s op.2

/-- A sequence of creation calls, each on the state the previous one left;
`none` as soon as one does not return `E_SUCCESS`. -/
def create_all (cfg : Config) : List (Bool × Name) → FS → Option FS
  | [], s => some s
  | op :: ops, s =>
    match create cfg s op with
    | (E_SUCCESS, s1) => create_all cfg ops s1
    | _ => none

/-- The directory block `bd` holds, slot by slot, the names `D i` (`none` for
an unused slot), written the way the creations write them: used flag 1, padded
name, and a target block number that is not 0 and on a device of `nb`
blocks. -/
def dir_rep (cfg : Config) (nb : Nat) (bd : Block) (D : Nat → Option Name) : Prop :=
  ∀ i, i < max_entries cfg →
    (D i = none → bd (i * entry_size cfg) = 0) ∧
    (∀ m, D i = some m →
      bd (i * entry_size cfg) = 1 ∧ valid_name cfg m ∧
      (∀ k, k < cfg.MAX_NAME_LENGTH → bd (i * entry_size cfg + 2 + k) = padded m k) ∧
      load16 bd (i * entry_size cfg + 2 + cfg.MAX_NAME_LENGTH) ≠ 0 ∧
      load16 bd (i * entry_size cfg + 2 + cfg.MAX_NAME_LENGTH) < nb)

/-- The name `e`. -/
def name_e : Name := [101]

/-- The name `f`. -/
def name_f : Name := [102]

/-- The four creations that fill the root of the fresh device. -/
def ops4 : List (Bool × Name) := [(true, name_d), (false, name_a), (false, name_b), (false, name_c)]

/-- The trailing `next` pointer of the data block `b`. -/
def next_block (cfg : Config) (s : FS) (b : Nat) : Nat :=
  load16 (s.disk b) (cfg.BLOCK_SIZE - sizeof_block_num_t)

/-- The block reached from `head` after `k` hops along the `next` pointers. -/
def chain_nth (cfg : Config) (s : FS) (head : Nat) : Nat → Nat
  | 0 => head
  | k + 1 => next_block cfg s (chain_nth cfg s head k)

/-- Sixty-four bytes `x`. -/
def x64 : List Nat := List.replicate 64 120

/-- The device after `jfs_creat("a.txt")` and three appends of 64 bytes. -/
def fs_3x64 : FS :=
  state_after (jfs_write cfg64 junk0
    (state_after (jfs_write cfg64 junk0
      (state_after (jfs_write cfg64 junk0 fs_a name_a x64 64) fs_a) name_a x64 64)
      (state_after (jfs_write cfg64 junk0 fs_a name_a x64 64) fs_a)) name_a x64 64)
    (state_after (jfs_write cfg64 junk0
      (state_after (jfs_write cfg64 junk0 fs_a name_a x64 64) fs_a) name_a x64 64)
      (state_after (jfs_write cfg64 junk0 fs_a name_a x64 64) fs_a))

/-- Byte `i` of what a read returns after a single append of `buf` (`count`
bytes) to a fresh file whose data blocks are taken from `pool` in order: in
every block but the last, the last two bytes hold the number of the next
block; all other bytes are those of `buf`. -/
def appended_byte (cfg : Config) (buf : List Nat) (count : Nat) (pool : List Nat) (i : Nat) :
    Nat :=
  if (i / cfg.BLOCK_SIZE + 1) * cfg.BLOCK_SIZE < count then
    if i % cfg.BLOCK_SIZE = cfg.BLOCK_SIZE - 2 then
      pool.getD (i / cfg.BLOCK_SIZE + 1) 0 % 256
    else if i % cfg.BLOCK_SIZE = cfg.BLOCK_SIZE - 1 then
      pool.getD (i / cfg.BLOCK_SIZE + 1) 0 / 256 % 256
    else buf.getD i 0
  else buf.getD i 0

/-- What a successful run of the append loop from the boundary of block `k`
leaves behind, with the blocks it takes from the free pool `pool` in order:
the device size and current directory are kept; block `pool[k]` is not 0 and
becomes the head when there was no chain yet; the trailer of the block that was
last before the call is patched; a read loop started at `pool[k]` returns the
bytes described by `appended_byte`; blocks outside the pool are kept; the
trailer of each non-final block holds the next block of the pool; and the last
block taken is the current block of the final state. -/
def aligned_post (cfg : Config) (buf : List Nat) (count : Nat) (pool : List Nat) (k : Nat)
    (w wf : WriteState) : Prop :=
  wf.fs.nblocks = w.fs.nblocks ∧ wf.fs.current_dir = w.fs.current_dir ∧
  (∃ b, pool[k]? = some b ∧ b ≠ 0 ∧
    wf.file_inode_data =
      (if w.current_data_block = 0 then store16 w.file_inode_data 4 b
       else w.file_inode_data) ∧
    (w.current_data_block ≠ 0 →
      wf.fs.disk w.current_data_block =
        store16 (w.fs.disk w.current_data_block)
          (cfg.BLOCK_SIZE - sizeof_block_num_t) b) ∧
    (∀ (s2 : FS) (out : List Nat) (fR : Nat),
      s2.nblocks = wf.fs.nblocks → (∀ d ∈ pool, s2.disk d = wf.fs.disk d) →
      count - k * cfg.BLOCK_SIZE ≤ fR →
      read_loop cfg s2 count fR (k * cfg.BLOCK_SIZE) b out =
        some (E_SUCCESS,
          out ++ (List.range' (k * cfg.BLOCK_SIZE) (count - k * cfg.BLOCK_SIZE)).map
            (appended_byte cfg buf count pool), count))) ∧
  (∀ d, d ∉ pool.drop k → (w.current_data_block ≠ 0 → d ≠ w.current_data_block) →
    wf.fs.disk d = w.fs.disk d) ∧
  (∀ t, k ≤ t → (t + 1) * cfg.BLOCK_SIZE < count →
    load16 (wf.fs.disk (pool.getD t 0)) (cfg.BLOCK_SIZE - sizeof_block_num_t)
      = pool.getD (t + 1) 0) ∧
  (count - k * cfg.BLOCK_SIZE ≤ cfg.BLOCK_SIZE → wf.current_data_block = pool.getD k 0)

/-! ## The state invariant and the reachable states -/

/-- The target block number stored in slot `i` of a directory block. -/
def slot_target (cfg : Config) (bd : Block) (i : Nat) : Nat :=
  load16 bd (i * entry_size cfg + 2 + cfg.MAX_NAME_LENGTH)

/-- The name-uniqueness predicate on a directory block: no two used slots
carry names that compare equal over `MAX_NAME_LENGTH` bytes. -/
def names_unique (cfg : Config) (bd : Block) : Prop :=
  ∀ i j, i < max_entries cfg → j < max_entries cfg → i ≠ j →
    bd (i * entry_size cfg) ≠ 0 → bd (j * entry_size cfg) ≠ 0 →
    strncmp_eq0 (fun k => bd (i * entry_size cfg + 2 + k))
      (fun k => bd (j * entry_size cfg + 2 + k)) cfg.MAX_NAME_LENGTH = false

/-- A well-formed directory block `d`, relative to an assignment `role` of
blocks to uses (1 for a directory block, 2 for a metadata block, 0 for any
other block): used flags are 0 or 1, names are unique, and every used slot
points to a block other than `d` and the root, which is a directory block when
the kind byte is 1 and a metadata block when the kind byte is 0. -/
def dir_ok (cfg : Config) (role : Nat → Nat) (d : Nat) (bd : Block) : Prop :=
  (∀ i, i < max_entries cfg →
    bd (i * entry_size cfg) = 0 ∨ bd (i * entry_size cfg) = 1) ∧
  names_unique cfg bd ∧
  (∀ i, i < max_entries cfg → bd (i * entry_size cfg) ≠ 0 →
    slot_target cfg bd i ≠ d ∧ slot_target cfg bd i ≠ 1 ∧
    ((bd (i * entry_size cfg + 1) = 1 ∧ role (slot_target cfg bd i) = 1) ∨
     (bd (i * entry_size cfg + 1) = 0 ∧ role (slot_target cfg bd i) = 2)))

/-- A well-formed metadata block: a head other than 0 is a block that is
neither a directory nor a metadata block nor in the free pool; and, where the
clauses on the stored size are switched on (`sized`), the stored size is within
the ceiling and is 0 exactly when the stored head is 0. -/
def inode_ok (cfg : Config) (sized : Prop) (role : Nat → Nat) (free : List Nat) (ib : Block) :
    Prop :=
  (sized → load32 ib 0 ≤ cfg.MAX_FILE_SIZE ∧ (load32 ib 0 = 0 ↔ load16 ib 4 = 0)) ∧
  (load16 ib 4 ≠ 0 → role (load16 ib 4) = 0 ∧ load16 ib 4 ∉ free)

/-- The invariant of the file-system state, relative to an assignment `role`
of blocks to uses: block 0 has no use, the root and the current directory are
directory blocks, the free pool lists distinct block numbers below `2^16`
without use, every directory block and every metadata block is well formed,
and no block is the target of two used slots.  The clauses on the stored sizes
are part of the invariant when `sized` holds. -/
structure Inv (cfg : Config) (sized : Prop) (s : FS) (role : Nat → Nat) : Prop where
  role_zero : role 0 = 0
  role_root : role 1 = 1
  role_cur : role s.current_dir = 1
  free_nodup : s.free.Nodup
  free_role : ∀ b, b ∈ s.free → role b = 0 ∧ b < 65536
  dirs : ∀ d, role d = 1 → dir_ok cfg role d (s.disk d)
  inodes : ∀ f, role f = 2 → inode_ok cfg sized role s.free (s.disk f)
  refs : ∀ d d1 i i1, role d = 1 → role d1 = 1 →
    i < max_entries cfg → i1 < max_entries cfg →
    s.disk d (i * entry_size cfg) ≠ 0 → s.disk d1 (i1 * entry_size cfg) ≠ 0 →
    slot_target cfg (s.disk d) i = slot_target cfg (s.disk d1) i1 → d = d1 ∧ i = i1

/-- The invariant of the append loop, relative to an assignment `role` of
blocks to uses: the free pool lists distinct block numbers below `2^16` without
use; a current block other than 0 is a block below `2^16` without use that is
not in the free pool, and then so is the head stored in the metadata buffer;
without a current block the metadata buffer stores head 0; and, where the
clauses on the stored size are switched on (`sized`), the loop is at a block
boundary when there is no current block. -/
def write_good (sized : Prop) (role : Nat → Nat) (w : WriteState) : Prop :=
  w.fs.free.Nodup ∧ (∀ b, b ∈ w.fs.free → role b = 0 ∧ b < 65536) ∧
  (sized → w.current_data_block = 0 → w.current_block_offset = 0) ∧
  (w.current_data_block ≠ 0 →
    (role w.current_data_block = 0 ∧ w.current_data_block < 65536 ∧
      w.current_data_block ∉ w.fs.free) ∧
    (load16 w.file_inode_data 4 ≠ 0 ∧ role (load16 w.file_inode_data 4) = 0 ∧
      load16 w.file_inode_data 4 ∉ w.fs.free)) ∧
  (w.current_data_block = 0 → load16 w.file_inode_data 4 = 0)

/-- A call of the interface, with its arguments; `count` of `write` is the
`unsigned short` argument before its reduction, `buf` of `stat` the caller's
struct. -/
inductive Op where
  | mkdir (name : Name)
  | creat (name : Name)
  | rmdir (name : Name)
  | remove (name : Name)
  | write (name : Name) (buf : List Nat) (count : Nat)
  | read (name : Name) (cap : Nat)
  | stat (name : Name) (buf : Stats)
  | ls
  | chdir (name : Option Name)

/-- The state a call leaves, whatever code it returns (failed block reads and
writes included); `none` when `jfs_write` or `jfs_read` has no result.
`jfs_read`, `jfs_stat` and `jfs_ls` leave the state they are called in. -/
def step (cfg : Config) (junk : Block) (s : FS) : Op → Option FS
  | .mkdir name => some (jfs_mkdir cfg s name).2
  | .creat name => some (jfs_creat cfg s name).2
  | .rmdir name => some (jfs_rmdir cfg s name).2
  | .remove name => some (jfs_remove cfg s name).2
  | .write name buf count => (jfs_write cfg junk s name buf (count % 65536)).map Prod.snd
  | .read name cap => (jfs_read cfg s name cap).map (fun _ => s)
  | .stat name buf => some ((fun (_ : Err × Stats) => s) (jfs_stat cfg s name buf))
  | .ls => some ((fun (_ : Err × List Name × List Name) => s) (jfs_ls cfg s))
  | .chdir name => some (jfs_chdir cfg s name).2

/-- The state a sequence of calls leaves, each call made in the state the
previous one left. -/
def run (cfg : Config) (junk : Block) : FS → List Op → Option FS
  | s, [] => some s
  | s, op :: ops =>
    match step cfg junk s op with
    | none => none
    | some s1 => run cfg junk s1 ops

/-- Modelled from the spec: a freshly formatted device, as the block store
hands it to `jfs_mount`: the root block 1 is zero-filled and the free pool
lists distinct block numbers of type `block_num_t` (below `2^16`), none of
them the root. -/
def fresh_device (s : FS) : Prop :=
  (∀ i, s.disk 1 i = 0) ∧ s.free.Nodup ∧ ∀ b, b ∈ s.free → b ≠ 1 ∧ b < 65536

/-- The calls of the demonstration run: a directory, a file with 100 bytes, a
file of the same name inside the directory, a removal and a new file. -/
def ops_demo : List Op :=
  [.mkdir name_d, .creat name_a, .write name_a x100 100, .chdir (some name_d),
   .creat name_a, .stat name_a stats0, .chdir none, .read name_a 100, .remove name_a,
   .creat name_b, .ls]

/-- The device after the demonstration run. -/
def fs_demo : FS := (run cfg64 junk0 (jfs_mount 0 fs0).2 ops_demo).getD fs0

/-- The directory block reached from the directory block `d` along the slots
`path`: each step follows a used slot of kind 1 to its target. -/
def dir_walk (cfg : Config) (s : FS) : Nat → List Nat → Option Nat
  | d, [] => some d
  | d, i :: path =>
    if i < max_entries cfg ∧ s.disk d (i * entry_size cfg) ≠ 0 ∧
        s.disk d (i * entry_size cfg + 1) = 1 then
      dir_walk cfg s (slot_target cfg (s.disk d) i) path
    else none

/-- The fresh 16-block device with only the blocks 2, 3 and 4 free. -/
def fs_p3 : FS := { fs0 with free := [2, 3, 4] }

/-- That device after `jfs_creat("a.txt")` and an append of 100 bytes `x`: the
metadata block is 2, the data blocks are 3 and 4, and the free pool is
empty. -/
def fs_p3_x100 : FS :=
  state_after (jfs_write cfg64 junk0 (jfs_creat cfg64 fs_p3 name_a).2 name_a x100 100)
    (jfs_creat cfg64 fs_p3 name_a).2

/-- Thirty bytes `x`. -/
def x30 : List Nat := List.replicate 30 120

/-- The state the append of 30 more bytes leaves on the device without free
blocks. -/
def fs_p3_full : FS :=
  state_after (jfs_write cfg64 junk0 fs_p3_x100 name_a x30 30) fs_p3_x100

/-- The fresh 16-block device with only the blocks 2 and 3 free, after
`jfs_creat("a.txt")` and an append of 64 bytes `x`: one full data block, and
the free pool is empty. -/
def fs_p2_x64 : FS :=
  state_after
    (jfs_write cfg64 junk0 (jfs_creat cfg64 { fs0 with free := [2, 3] } name_a).2 name_a x64 64)
    (jfs_creat cfg64 { fs0 with free := [2, 3] } name_a).2

/-! ## Runs of the code on the concrete device -/

/-- C1, on the code: on the fresh device `jfs_creat("a.txt")`, an append of 100
bytes `x` and a read with capacity 100 all succeed, the name is valid and new,
the length is below the ceiling, the read count is 100, yet the bytes read are
not the bytes written: bytes 62 and 63 hold the number of the second data
block (4, 0). -/
theorem roundtrip_100_bytes_differs :
    strlen name_a ≤ cfg64.MAX_NAME_LENGTH ∧
    find_entry cfg64 (fs0.disk fs0.current_dir) name_a (max_entries cfg64) 0 = none ∧
    x100.length ≤ cfg64.MAX_FILE_SIZE ∧
    (jfs_creat cfg64 fs0 name_a).1 = E_SUCCESS ∧
    code_of (jfs_write cfg64 junk0 fs_a name_a x100 x100.length) = some E_SUCCESS ∧
    jfs_read cfg64 fs_x100 name_a x100.length =
      some (E_SUCCESS, List.replicate 62 120 ++ [4, 0] ++ List.replicate 36 120, 100) ∧
    jfs_read cfg64 fs_x100 name_a x100.length ≠ some (E_SUCCESS, x100, x100.length) := by
  decide

/-- C2, on the code: a file holding 70 bytes (two data blocks) is appended the
single byte 200; both appends succeed, and the following read returns neither
the old content followed by 200 nor the old content unchanged: byte 6 of the
old content is overwritten with 200 and the byte read at the end is 6. -/
theorem append_to_two_block_file_overwrites :
    code_of (jfs_write cfg64 junk0 fs_a name_a seq70 70) = some E_SUCCESS ∧
    jfs_read cfg64 fs_seq70 name_a 70 =
      some (E_SUCCESS, List.range 62 ++ [4, 0] ++ [64, 65, 66, 67, 68, 69], 70) ∧
    code_of (jfs_write cfg64 junk0 fs_seq70 name_a [200] 1) = some E_SUCCESS ∧
    jfs_read cfg64 fs_seq71 name_a 71 =
      some (E_SUCCESS,
        [0, 1, 2, 3, 4, 5, 200] ++ (List.range 62).drop 7 ++ [4, 0]
          ++ [64, 65, 66, 67, 68, 69] ++ [6], 71) ∧
    jfs_read cfg64 fs_seq71 name_a 71 ≠
      some (E_SUCCESS, (List.range 62 ++ [4, 0] ++ [64, 65, 66, 67, 68, 69]) ++ [200], 71) := by
  decide

/-- C3, on the code: the file `a.txt` of size 100 has its metadata in block 2
and its data in blocks 3 and 4 (head 3, whose trailer points to 4);
`jfs_remove` succeeds and returns only block 2 to the free pool: blocks 3 and
4 are not free afterwards. -/
theorem remove_releases_only_metadata_block :
    fs_x100.free = [5, 6, 7, 8, 9] ∧
    load16 (fs_x100.disk 1) (0 * entry_size cfg64 + 2 + cfg64.MAX_NAME_LENGTH) = 2 ∧
    load32 (fs_x100.disk 2) 0 = 100 ∧
    load16 (fs_x100.disk 2) 4 = 3 ∧
    load16 (fs_x100.disk 3) (cfg64.BLOCK_SIZE - sizeof_block_num_t) = 4 ∧
    (jfs_remove cfg64 fs_x100 name_a).1 = E_SUCCESS ∧
    (jfs_remove cfg64 fs_x100 name_a).2.free = [2, 5, 6, 7, 8, 9] ∧
    3 ∉ (jfs_remove cfg64 fs_x100 name_a).2.free ∧
    4 ∉ (jfs_remove cfg64 fs_x100 name_a).2.free := by
  decide

/-- C4, on the code: `jfs_remove` on the empty subdirectory `d` (slot kind 1)
returns success, clears its slot and releases its block instead of returning
`E_IS_DIR`; `jfs_remove` on the regular file `a.txt` (slot kind 0) of size 1
returns `E_IS_DIR`, and so does it for size 257. -/
theorem remove_confuses_kinds :
    (jfs_mkdir cfg64 fs0 name_d).1 = E_SUCCESS ∧
    fs_d.disk 1 0 = 1 ∧ fs_d.disk 1 1 = 1 ∧
    (jfs_remove cfg64 fs_d name_d).1 = E_SUCCESS ∧
    (jfs_remove cfg64 fs_d name_d).2.disk 1 0 = 0 ∧
    (jfs_remove cfg64 fs_d name_d).2.free = 2 :: fs_d.free ∧
    fs_one.disk 1 0 = 1 ∧ fs_one.disk 1 1 = 0 ∧
    load32 (fs_one.disk 2) 0 = 1 ∧
    (jfs_remove cfg64 fs_one name_a).1 = E_IS_DIR ∧
    fs_257.disk 1 1 = 0 ∧
    load32 (fs_257.disk 2) 0 = 257 ∧
    (jfs_remove cfg64 fs_257 name_a).1 = E_IS_DIR := by
  decide

/-- C5, on the code: for the regular file `a.txt` of size 1, `jfs_remove` does
not return success but `E_IS_DIR`, and the following `jfs_stat` still finds
the file instead of returning `E_NOT_EXISTS`. -/
theorem remove_then_stat_still_finds_file :
    code_of (jfs_write cfg64 junk0 fs_a name_a [7] 1) = some E_SUCCESS ∧
    (jfs_stat cfg64 fs_one name_a stats0).1 = E_SUCCESS ∧
    (jfs_stat cfg64 fs_one name_a stats0).2.is_dir = 0 ∧
    (jfs_stat cfg64 fs_one name_a stats0).2.file_size = 1 ∧
    (jfs_remove cfg64 fs_one name_a).1 = E_IS_DIR ∧
    (jfs_stat cfg64 (jfs_remove cfg64 fs_one name_a).2 name_a stats0).1 = E_SUCCESS := by
  decide

/-! ## Arithmetic of the byte encodings -/

theorem u32_of_lt {x : Nat} (h : x < 2 ^ 32) : u32 x = x := Nat.mod_eq_of_lt h

theorem u32_lt (x : Nat) : u32 x < 2 ^ 32 := Nat.mod_lt _ (by norm_num)

theorem load16_lt (buf : Block) (off : Nat) : load16 buf off < 65536 := by
  unfold load16
  omega

theorem load32_lt (buf : Block) (off : Nat) : load32 buf off < 2 ^ 32 := by
  unfold load32
  omega

theorem load16_store16 (buf : Block) (off v : Nat) :
    load16 (store16 buf off v) off = v % 65536 := by
  simp [load16, store16]
  omega

theorem load32_store32 (buf : Block) (off v : Nat) :
    load32 (store32 buf off v) off = u32 v := by
  simp [load32, store32, u32]
  omega

/-! ## Zero-length appends -/

/-- C9: `jfs_write(name, buf, 0)` returns success and leaves the whole state
(every block, the free pool, the cursor) unchanged, for every state, name and
buffer; hence any number of consecutive zero-length appends ends in the
starting state, and `jfs_stat` reports what it reported before. -/
theorem jfs_write_zero_count (cfg : Config) (junk : Block) (s : FS) (name : Name)
    (buf : List Nat) :
    jfs_write cfg junk s name buf 0 = some (E_SUCCESS, s) ∧
    (∀ n, write_repeat cfg junk name buf 0 n s = some s) ∧
    (∀ n st, (write_repeat cfg junk name buf 0 n s).map (fun s1 => jfs_stat cfg s1 name st)
        = some (jfs_stat cfg s name st)) := by
  have h0 : ∀ t : FS, jfs_write cfg junk t name buf 0 = some (E_SUCCESS, t) := by
    intro t
    simp [jfs_write]
  have hrep : ∀ n, write_repeat cfg junk name buf 0 n s = some s := by
    intro n
    induction n with
    | zero => rfl
    | succ n ih => simp [write_repeat, h0, ih]
  refine ⟨h0 s, hrep, ?_⟩
  intro n st
  rw [hrep n]
  rfl

/-! ## Duplicate names -/

theorem creat_scan_exists (cfg : Config) (bd : Block) (name : Name) (i : Nat)
    (hused : bd (i * entry_size cfg) ≠ 0)
    (hname : strncmp_eq0 (fun j => bd (i * entry_size cfg + 2 + j)) (cstr name)
      cfg.MAX_NAME_LENGTH = true) :
    ∀ k i0 fe, i0 ≤ i → i < i0 + k →
      creat_scan cfg bd name k i0 fe = .error E_EXISTS := by
  intro k
  induction k with
  | zero => intro i0 fe h1 h2; omega
  | succ k ih =>
    intro i0 fe h1 h2
    unfold creat_scan
    by_cases hi : i0 = i
    · subst hi
      simp [hused, hname]
    · split
      · rfl
      · exact ih _ _ (by omega) (by omega)

theorem mkdir_scan_exists (cfg : Config) (bd : Block) (name : Name) (i : Nat)
    (hused : bd (i * entry_size cfg) = 1)
    (hname : strncmp_eq0 (fun j => bd (i * entry_size cfg + 2 + j)) (cstr name)
      cfg.MAX_NAME_LENGTH = true) :
    ∀ k i0 fe, i0 ≤ i → i < i0 + k →
      mkdir_scan cfg bd name k i0 fe = .error E_EXISTS := by
  intro k
  induction k with
  | zero => intro i0 fe h1 h2; omega
  | succ k ih =>
    intro i0 fe h1 h2
    unfold mkdir_scan
    by_cases hi : i0 = i
    · subst hi
      simp [hused, hname]
    · split
      · rfl
      · exact ih _ _ (by omega) (by omega)

/-- C10: when the name (of length at most `MAX_NAME_LENGTH`) compares equal,
by the source's `strncmp` over `MAX_NAME_LENGTH` bytes, to the name field of a
used slot `i` of the current directory (used flag 1, either kind, whatever the
other slots hold, so also in a full directory), both `jfs_creat` and
`jfs_mkdir` return `E_EXISTS` and leave the whole state unchanged: no block is
written and none is allocated. -/
theorem jfs_creat_mkdir_existing_name (cfg : Config) (s : FS) (name : Name) (i : Nat)
    (hlen : strlen name ≤ cfg.MAX_NAME_LENGTH)
    (hio : s.current_dir < s.nblocks)
    (hi : i < max_entries cfg)
    (hused : s.disk s.current_dir (i * entry_size cfg) = 1)
    (hname : strncmp_eq0 (fun j => s.disk s.current_dir (i * entry_size cfg + 2 + j))
      (cstr name) cfg.MAX_NAME_LENGTH = true) :
    jfs_creat cfg s name = (E_EXISTS, s) ∧ jfs_mkdir cfg s name = (E_EXISTS, s) := by
  have h1 := creat_scan_exists cfg (s.disk s.current_dir) name i (by omega) hname
    (max_entries cfg) 0 none (Nat.zero_le _) (by omega)
  have h2 := mkdir_scan_exists cfg (s.disk s.current_dir) name i hused hname
    (max_entries cfg) 0 none (Nat.zero_le _) (by omega)
  constructor
  · simp [jfs_creat, read_block, hio, h1, Nat.not_lt.mpr hlen]
  · simp [jfs_mkdir, read_block, hio, h2, Nat.not_lt.mpr hlen]

/-- Witness for C10: a full root directory on a device without free blocks,
and the name `c` of its last slot. -/
theorem jfs_creat_mkdir_existing_name_witness :
    jfs_creat cfg64 fs_full name_c = (E_EXISTS, fs_full) ∧
    jfs_mkdir cfg64 fs_full name_c = (E_EXISTS, fs_full) :=
  jfs_creat_mkdir_existing_name cfg64 fs_full name_c 3 (by decide) (by decide) (by decide)
    (by decide) (by decide)

/-! ## Block count reported by `jfs_stat` -/

/-- C6 as stated fails on the code: for the regular file `a.txt` of stored
size 63, `jfs_stat` reports size 63 and block count 1, while the ceiling of
63 over the payload capacity 62 is 2. -/
theorem stat_block_count_63 :
    load32 (fs_63.disk 2) 0 = 63 ∧
    jfs_stat cfg64 fs_63 name_a stats0 =
      (E_SUCCESS, { is_dir := 0, block_num := 2, name := name_a, file_size := 63,
                    num_data_blocks := 1 }) ∧
    payload_capacity cfg64 = 62 ∧
    ceil_div 63 (payload_capacity cfg64) = 2 ∧
    (jfs_stat cfg64 fs_63 name_a stats0).2.num_data_blocks ≠
      ceil_div (jfs_stat cfg64 fs_63 name_a stats0).2.file_size (payload_capacity cfg64) := by
  decide

/-- C6, amended: when the lookup of `name` in the current directory ends at
slot `i`, then (file) if the kind byte of the slot is 0, the metadata block is
on the device and the stored size `sz` satisfies `sz + BLOCK_SIZE - 1 < 2^32`,
`jfs_stat` returns success with `is_dir = 0`, `file_size = sz` and
`num_data_blocks = ceil (sz / BLOCK_SIZE)`, the divisor being the whole block
size; (directory) if the kind byte is not 0, `jfs_stat` returns success with
`is_dir` set to that byte, size 0 and block count 0. -/
theorem jfs_stat_result (cfg : Config) (s : FS) (name : Name) (st : Stats) (i : Nat)
    (hio : s.current_dir < s.nblocks)
    (hfind : find_entry cfg (s.disk s.current_dir) name (max_entries cfg) 0 = some i) :
    (s.disk s.current_dir (i * entry_size cfg + 1) = 0 →
      load16 (s.disk s.current_dir) (i * entry_size cfg + 2 + cfg.MAX_NAME_LENGTH) < s.nblocks →
      load32 (s.disk (load16 (s.disk s.current_dir)
        (i * entry_size cfg + 2 + cfg.MAX_NAME_LENGTH))) 0 + cfg.BLOCK_SIZE - 1 < 2 ^ 32 →
      jfs_stat cfg s name st =
        (E_SUCCESS,
          { is_dir := 0,
            block_num := load16 (s.disk s.current_dir)
              (i * entry_size cfg + 2 + cfg.MAX_NAME_LENGTH),
            name := name_of (cstr name) cfg.MAX_NAME_LENGTH,
            file_size := load32 (s.disk (load16 (s.disk s.current_dir)
              (i * entry_size cfg + 2 + cfg.MAX_NAME_LENGTH))) 0,
            num_data_blocks := ceil_div (load32 (s.disk (load16 (s.disk s.current_dir)
              (i * entry_size cfg + 2 + cfg.MAX_NAME_LENGTH))) 0) cfg.BLOCK_SIZE })) ∧
    (s.disk s.current_dir (i * entry_size cfg + 1) ≠ 0 →
      jfs_stat cfg s name st =
        (E_SUCCESS,
          { is_dir := s.disk s.current_dir (i * entry_size cfg + 1),
            block_num := load16 (s.disk s.current_dir)
              (i * entry_size cfg + 2 + cfg.MAX_NAME_LENGTH),
            name := name_of (cstr name) cfg.MAX_NAME_LENGTH,
            file_size := 0,
            num_data_blocks := 0 })) := by
  constructor
  · intro hkind hfb hsz
    have h32 := u32_of_lt hsz
    simp [jfs_stat, read_block, hio, hfind, hkind, hfb, ceil_div, h32]
  · intro hkind
    simp [jfs_stat, read_block, hio, hfind, hkind]

/-- Witness for the amended C6: the file `a.txt` of size 100 (two blocks) and
the directory `d` in the full root directory. -/
theorem jfs_stat_result_witness :
    jfs_stat cfg64 fs_x100 name_a stats0 =
      (E_SUCCESS, { is_dir := 0, block_num := 2, name := name_a, file_size := 100,
                    num_data_blocks := 2 }) ∧
    jfs_stat cfg64 fs_full name_d stats0 =
      (E_SUCCESS, { is_dir := 1, block_num := 2, name := name_d, file_size := 0,
                    num_data_blocks := 0 }) :=
  ⟨(jfs_stat_result cfg64 fs_x100 name_a stats0 0 (by decide) (by decide)).1
      (by decide) (by decide) (by decide),
   (jfs_stat_result cfg64 fs_full name_d stats0 0 (by decide) (by decide)).2 (by decide)⟩

/-! ## The append loop -/

theorem allocate_block_nblocks (s : FS) : (allocate_block s).2.nblocks = s.nblocks := by
  unfold allocate_block; split <;> rfl

theorem allocate_block_current_dir (s : FS) :
    (allocate_block s).2.current_dir = s.current_dir := by
  unfold allocate_block; split <;> rfl

theorem allocate_block_disk (s : FS) : (allocate_block s).2.disk = s.disk := by
  unfold allocate_block; split <;> rfl

theorem allocate_block_free (s : FS) (d : Nat) (h : d ∈ (allocate_block s).2.free) :
    d ∈ s.free := by
  unfold allocate_block at h
  split at h
  · exact h
  · rename_i b rest heq
    rw [heq]
    exact List.mem_cons_of_mem _ h

theorem allocate_block_mem (s : FS) (h : (allocate_block s).1 ≠ 0) :
    (allocate_block s).1 ∈ s.free := by
  unfold allocate_block at h ⊢
  split
  · rename_i heq
    simp [heq] at h
  · rename_i b rest heq
    rw [heq]
    simp

theorem write_block_some (s s1 : FS) (n : Nat) (buf : Block)
    (h : write_block s n buf = some s1) :
    n < s.nblocks ∧ s1.nblocks = s.nblocks ∧ s1.free = s.free ∧
    s1.current_dir = s.current_dir ∧
    s1.disk = fun m => if m = n then buf else s.disk m := by
  unfold write_block at h
  split at h
  · rename_i hn
    cases h
    exact ⟨hn, rfl, rfl, rfl, rfl⟩
  · cases h

theorem write_prepare_error (cfg : Config) (junk : Block) (w : WriteState) (e : Err) (fs : FS)
    (h : write_prepare cfg junk w = .error (e, fs)) :
    e = E_DISK_FULL ∨ e = E_MINUS_ONE := by
  unfold write_prepare at h
  dsimp only at h
  split at h <;> (try split at h) <;> (try split at h) <;> (try split at h) <;>
    (try split at h) <;> cases h <;> first | exact Or.inl rfl | exact Or.inr rfl

theorem write_step_error (cfg : Config) (junk : Block) (buf : List Nat) (count : Nat)
    (w : WriteState) (e : Err) (fs : FS)
    (h : write_step cfg junk buf count w = .error (e, fs)) :
    e = E_DISK_FULL ∨ e = E_MINUS_ONE := by
  unfold write_step at h
  split at h
  · rename_i e1 hp
    cases h
    exact write_prepare_error cfg junk w e fs hp
  · dsimp only at h
    split at h
    · cases h; exact Or.inr rfl
    · cases h

theorem write_loop_error (cfg : Config) (junk : Block) (buf : List Nat) (count : Nat) :
    ∀ (fuel : Nat) (w : WriteState) (e : Err) (fs : FS),
      write_loop cfg junk buf count fuel w = some (.error (e, fs)) →
      e = E_DISK_FULL ∨ e = E_MINUS_ONE := by
  intro fuel
  induction fuel with
  | zero =>
    intro w e fs h
    unfold write_loop at h
    split at h <;> cases h
  | succ fuel ih =>
    intro w e fs h
    unfold write_loop at h
    split at h
    · split at h
      · rename_i e1 hs
        cases h
        exact write_step_error cfg junk buf count w e fs hs
      · exact ih _ _ _ h
    · cases h

/-- What a successful first half of the loop body leaves in the locals. -/
theorem write_prepare_ok (cfg : Config) (junk : Block) (w w1 : WriteState) (dbuf : Block)
    (h : write_prepare cfg junk w = .ok (w1, dbuf)) :
    w1.current_size = w.current_size ∧ w1.bytes_written = w.bytes_written ∧
    w1.current_block_offset = w.current_block_offset ∧
    w1.num_blocks = (if w.current_block_offset = 0 then u32 (w.num_blocks + 1)
      else w.num_blocks) ∧
    w1.fs.nblocks = w.fs.nblocks ∧ w1.fs.current_dir = w.fs.current_dir := by
  unfold write_prepare at h
  dsimp only at h
  split at h
  · rename_i h0
    split at h
    · cases h
    · split at h
      · split at h
        · cases h
        · split at h
          · cases h
          · rename_i fs2 hw
            cases h
            have := write_block_some _ _ _ _ hw
            simp [h0, this.2.1, this.2.2.2.1, allocate_block_nblocks,
              allocate_block_current_dir]
      · cases h
        simp [h0, allocate_block_nblocks, allocate_block_current_dir]
  · rename_i h0
    split at h
    · cases h
    · cases h
      simp [h0]

/-- What a successful iteration of the loop leaves in the locals, with
`ws` the chunk size of the iteration. -/
theorem write_step_ok (cfg : Config) (junk : Block) (buf : List Nat) (count : Nat)
    (w w1 : WriteState) (h : write_step cfg junk buf count w = .ok w1) :
    w1.current_size = u32 (w.current_size +
      min (count - w.bytes_written) (cfg.BLOCK_SIZE - w.current_block_offset)) ∧
    w1.bytes_written = u32 (w.bytes_written +
      min (count - w.bytes_written) (cfg.BLOCK_SIZE - w.current_block_offset)) ∧
    w1.current_block_offset = (w.current_block_offset +
      min (count - w.bytes_written) (cfg.BLOCK_SIZE - w.current_block_offset))
        % cfg.BLOCK_SIZE ∧
    w1.num_blocks = (if w.current_block_offset = 0 then u32 (w.num_blocks + 1)
      else w.num_blocks) ∧
    w1.fs.nblocks = w.fs.nblocks ∧ w1.fs.current_dir = w.fs.current_dir := by
  unfold write_step at h
  split at h
  · cases h
  · rename_i w2 dbuf hp
    have hp2 := write_prepare_ok cfg junk w w2 dbuf hp
    dsimp only at h
    split at h
    · cases h
    · rename_i fs1 hw
      have hw2 := write_block_some _ _ _ _ hw
      cases h
      have hmin : ∀ a b : Nat, (if a < b then a else b) = min a b := by
        intro a b; split <;> omega
      simp only [hmin, hp2.1, hp2.2.1, hp2.2.2.1, hp2.2.2.2.1, hw2.2.1, hw2.2.2.2.1,
        hp2.2.2.2.2.1, hp2.2.2.2.2.2, and_self]

/-- The loop writes exactly the bytes that are left: when it ends normally,
`bytes_written = count` and `current_size` has grown by the bytes that were
left on entry. -/
theorem write_loop_ok_size (cfg : Config) (junk : Block) (buf : List Nat) (count : Nat)
    (hc : count < 2 ^ 32) :
    ∀ (fuel : Nat) (w w1 : WriteState),
      w.bytes_written ≤ count →
      w.current_size + (count - w.bytes_written) < 2 ^ 32 →
      write_loop cfg junk buf count fuel w = some (.ok w1) →
      w1.bytes_written = count ∧
      w1.current_size = w.current_size + (count - w.bytes_written) ∧
      w1.fs.nblocks = w.fs.nblocks ∧ w1.fs.current_dir = w.fs.current_dir := by
  intro fuel
  induction fuel with
  | zero =>
    intro w w1 hb hs h
    unfold write_loop at h
    split at h
    · cases h
    · cases h
      refine ⟨by omega, by omega, rfl, rfl⟩
  | succ fuel ih =>
    intro w w1 hb hs h
    unfold write_loop at h
    split at h
    · split at h
      · cases h
      · rename_i w2 hstep
        have h2 := write_step_ok cfg junk buf count w w2 hstep
        have hle : min (count - w.bytes_written) (cfg.BLOCK_SIZE - w.current_block_offset)
            ≤ count - w.bytes_written := Nat.min_le_left _ _
        have e1 : w2.current_size = w.current_size +
            min (count - w.bytes_written) (cfg.BLOCK_SIZE - w.current_block_offset) := by
          rw [h2.1]; exact u32_of_lt (by omega)
        have e2 : w2.bytes_written = w.bytes_written +
            min (count - w.bytes_written) (cfg.BLOCK_SIZE - w.current_block_offset) := by
          rw [h2.2.1]; exact u32_of_lt (by omega)
        have h3 := ih w2 w1 (by omega) (by omega) h
        refine ⟨h3.1, by omega, by rw [h3.2.2.1, h2.2.2.2.2.1],
          by rw [h3.2.2.2, h2.2.2.2.2.2]⟩
    · cases h
      refine ⟨by omega, by omega, rfl, rfl⟩

theorem write_finish_success (cfg : Config) (fb : Nat) (w : WriteState) (s1 : FS)
    (h : write_finish cfg fb w = some (E_SUCCESS, s1)) :
    fb < w.fs.nblocks ∧ load32 (s1.disk fb) 0 = u32 w.current_size ∧
    s1.nblocks = w.fs.nblocks ∧ s1.current_dir = w.fs.current_dir ∧
    s1.free = w.fs.free ∧ ∀ m, m ≠ fb → s1.disk m = w.fs.disk m := by
  unfold write_finish at h
  split at h
  · cases h
  · dsimp only at h
    split at h
    · cases h
    · rename_i fs1 hw
      have hw2 := write_block_some _ _ _ _ hw
      cases h
      refine ⟨hw2.1, ?_, hw2.2.1, hw2.2.2.2.1, hw2.2.2.1, ?_⟩
      · rw [hw2.2.2.2.2]
        simp only [if_true]
        exact load32_store32 _ _ _
      · intro m hm
        rw [hw2.2.2.2.2]
        simp [hm]

theorem write_finish_code (cfg : Config) (fb : Nat) (w : WriteState) (r : Err × FS)
    (h : write_finish cfg fb w = some r) : r.1 = E_SUCCESS ∨ r.1 = E_MINUS_ONE := by
  unfold write_finish at h
  split at h
  · cases h
  · dsimp only at h
    split at h <;> cases h
    · exact Or.inr rfl
    · exact Or.inl rfl

/-- The call on a regular file reduces to `write_body` on its inode block. -/
theorem jfs_write_regular (cfg : Config) (junk : Block) (s : FS) (name : Name)
    (buf : List Nat) (count i : Nat)
    (hcount : 0 < count)
    (hio : s.current_dir < s.nblocks)
    (hfind : find_entry cfg (s.disk s.current_dir) name (max_entries cfg) 0 = some i)
    (hkind : s.disk s.current_dir (i * entry_size cfg + 1) = 0)
    (hfb : load16 (s.disk s.current_dir) (i * entry_size cfg + 2 + cfg.MAX_NAME_LENGTH)
      < s.nblocks) :
    jfs_write cfg junk s name buf count =
      write_body cfg junk s
        (load16 (s.disk s.current_dir) (i * entry_size cfg + 2 + cfg.MAX_NAME_LENGTH))
        (s.disk (load16 (s.disk s.current_dir)
          (i * entry_size cfg + 2 + cfg.MAX_NAME_LENGTH))) buf count := by
  have hc : count ≠ 0 := by omega
  simp [jfs_write, read_block, hio, hfind, hkind, hfb, hc]

/-! ### Blocks the loop does not touch -/

theorem write_prepare_frame (cfg : Config) (junk : Block) (d : Nat) (w w1 : WriteState)
    (dbuf : Block) (h : write_prepare cfg junk w = .ok (w1, dbuf))
    (hcur : w.current_data_block ≠ d) (hfree : d ∉ w.fs.free) :
    w1.fs.disk d = w.fs.disk d ∧ w1.current_data_block ≠ d ∧ d ∉ w1.fs.free := by
  have hne : (allocate_block w.fs).1 ≠ 0 → (allocate_block w.fs).1 ≠ d := by
    intro h0 hd
    exact hfree (hd ▸ allocate_block_mem w.fs h0)
  have hfr : d ∉ (allocate_block w.fs).2.free := fun hd => hfree (allocate_block_free _ _ hd)
  unfold write_prepare at h
  dsimp only at h
  split at h
  · split at h
    · cases h
    · rename_i hnz
      split at h
      · split at h
        · cases h
        · split at h
          · cases h
          · rename_i fs2 hw
            cases h
            have hw2 := write_block_some _ _ _ _ hw
            refine ⟨?_, hne hnz, ?_⟩
            · simp only [hw2.2.2.2.2, allocate_block_disk]
              simp [Ne.symm hcur]
            · simp only [hw2.2.2.1]
              exact hfr
      · cases h
        exact ⟨by simp [allocate_block_disk], hne hnz, hfr⟩
  · split at h
    · cases h
    · cases h
      exact ⟨rfl, hcur, hfree⟩

theorem write_step_frame (cfg : Config) (junk : Block) (buf : List Nat) (count d : Nat)
    (w w1 : WriteState) (h : write_step cfg junk buf count w = .ok w1)
    (hcur : w.current_data_block ≠ d) (hfree : d ∉ w.fs.free) :
    w1.fs.disk d = w.fs.disk d ∧ w1.current_data_block ≠ d ∧ d ∉ w1.fs.free := by
  unfold write_step at h
  split at h
  · cases h
  · rename_i w2 dbuf hp
    have hp2 := write_prepare_frame cfg junk d w w2 dbuf hp hcur hfree
    dsimp only at h
    split at h
    · cases h
    · rename_i fs1 hw
      have hw2 := write_block_some _ _ _ _ hw
      cases h
      refine ⟨?_, hp2.2.1, ?_⟩
      · simp only [hw2.2.2.2.2]
        simp [Ne.symm hp2.2.1, hp2.1]
      · simp only [hw2.2.2.1]
        exact hp2.2.2

/-- A block that is neither free nor the data block the loop starts from is
not written by the loop. -/
theorem write_loop_frame (cfg : Config) (junk : Block) (buf : List Nat) (count d : Nat) :
    ∀ (fuel : Nat) (w w1 : WriteState),
      w.current_data_block ≠ d → d ∉ w.fs.free →
      write_loop cfg junk buf count fuel w = some (.ok w1) →
      w1.fs.disk d = w.fs.disk d := by
  intro fuel
  induction fuel with
  | zero =>
    intro w w1 hcur hfree h
    unfold write_loop at h
    split at h <;> cases h
    rfl
  | succ fuel ih =>
    intro w w1 hcur hfree h
    unfold write_loop at h
    split at h
    · split at h
      · cases h
      · rename_i w2 hstep
        have h2 := write_step_frame cfg junk buf count d w w2 hstep hcur hfree
        rw [ih w2 w1 h2.2.1 h2.2.2 h, h2.1]
    · cases h
      rfl

theorem jfs_stat_of_file (cfg : Config) (s : FS) (name : Name) (st : Stats) (i : Nat)
    (hio : s.current_dir < s.nblocks)
    (hfind : find_entry cfg (s.disk s.current_dir) name (max_entries cfg) 0 = some i)
    (hkind : s.disk s.current_dir (i * entry_size cfg + 1) = 0)
    (hfb : load16 (s.disk s.current_dir) (i * entry_size cfg + 2 + cfg.MAX_NAME_LENGTH)
      < s.nblocks) :
    (jfs_stat cfg s name st).1 = E_SUCCESS ∧
    (jfs_stat cfg s name st).2.file_size =
      load32 (s.disk (load16 (s.disk s.current_dir)
        (i * entry_size cfg + 2 + cfg.MAX_NAME_LENGTH))) 0 := by
  simp [jfs_stat, read_block, hio, hfind, hkind, hfb]

/-! ## The append loop ends, and the inode store stays inside the buffer -/

theorem ceil_div_step (B cs ws : Nat) (hB : 0 < B) (h1 : 1 ≤ ws) (h2 : ws ≤ B - cs % B) :
    ceil_div (cs + ws) B = cs / B + 1 ∧
    ceil_div cs B = (if cs % B = 0 then cs / B else cs / B + 1) := by
  have hdm := Nat.div_add_mod cs B
  have hr : cs % B < B := Nat.mod_lt _ hB
  have hq : B * (cs / B + 1) = B * (cs / B) + B := by ring
  have hq2 : B * (cs / B + 1 + 1) = B * (cs / B) + B + B := by ring
  unfold ceil_div
  constructor
  · apply Nat.div_eq_of_lt_le
    · rw [Nat.mul_comm]; omega
    · rw [Nat.mul_comm]; omega
  · split
    · apply Nat.div_eq_of_lt_le
      · rw [Nat.mul_comm]; omega
      · rw [Nat.mul_comm]; omega
    · apply Nat.div_eq_of_lt_le
      · rw [Nat.mul_comm]; omega
      · rw [Nat.mul_comm]; omega

/-- One successful iteration writes at least one byte and keeps
`current_block_offset = current_size % BLOCK_SIZE` and
`num_blocks = ceil (current_size / BLOCK_SIZE)`. -/
theorem write_step_inv (cfg : Config) (junk : Block) (buf : List Nat) (count : Nat)
    (w w1 : WriteState) (hB : 0 < cfg.BLOCK_SIZE) (hc : count < 2 ^ 32)
    (hbw : w.bytes_written < count)
    (hs : w.current_size + (count - w.bytes_written) < 2 ^ 32)
    (hoff : w.current_block_offset = w.current_size % cfg.BLOCK_SIZE)
    (hnb : w.num_blocks = ceil_div w.current_size cfg.BLOCK_SIZE)
    (h : write_step cfg junk buf count w = .ok w1) :
    w.bytes_written < w1.bytes_written ∧ w1.bytes_written ≤ count ∧
    w1.current_size + (count - w1.bytes_written)
      = w.current_size + (count - w.bytes_written) ∧
    w1.current_block_offset = w1.current_size % cfg.BLOCK_SIZE ∧
    w1.num_blocks = ceil_div w1.current_size cfg.BLOCK_SIZE := by
  have h2 := write_step_ok cfg junk buf count w w1 h
  have hr : w.current_size % cfg.BLOCK_SIZE < cfg.BLOCK_SIZE := Nat.mod_lt _ hB
  generalize hws : min (count - w.bytes_written) (cfg.BLOCK_SIZE - w.current_block_offset)
    = ws at h2
  have hle1 : ws ≤ count - w.bytes_written := hws ▸ Nat.min_le_left _ _
  have hle2 : ws ≤ cfg.BLOCK_SIZE - w.current_size % cfg.BLOCK_SIZE := by
    rw [← hoff]; exact hws ▸ Nat.min_le_right _ _
  have hpos : 1 ≤ ws := by
    rw [← hws]; exact Nat.le_min.mpr ⟨by omega, by omega⟩
  have e1 : w1.current_size = w.current_size + ws := by
    rw [h2.1]; exact u32_of_lt (by omega)
  have e2 : w1.bytes_written = w.bytes_written + ws := by
    rw [h2.2.1]; exact u32_of_lt (by omega)
  have hcd := ceil_div_step cfg.BLOCK_SIZE w.current_size ws hB hpos hle2
  have hdiv : w.current_size / cfg.BLOCK_SIZE ≤ w.current_size := Nat.div_le_self _ _
  refine ⟨by omega, by omega, by omega, ?_, ?_⟩
  · rw [h2.2.2.1, e1, hoff, Nat.mod_add_mod]
  · rw [h2.2.2.2.1, e1, hcd.1, hoff, hnb, hcd.2]
    split
    · exact u32_of_lt (by omega)
    · rfl

/-- With `count` iterations available the loop does not use up its bound. -/
theorem write_loop_defined (cfg : Config) (junk : Block) (buf : List Nat) (count : Nat)
    (hB : 0 < cfg.BLOCK_SIZE) (hc : count < 2 ^ 32) :
    ∀ (fuel : Nat) (w : WriteState),
      w.bytes_written ≤ count → count - w.bytes_written ≤ fuel →
      w.current_size + (count - w.bytes_written) < 2 ^ 32 →
      w.current_block_offset = w.current_size % cfg.BLOCK_SIZE →
      w.num_blocks = ceil_div w.current_size cfg.BLOCK_SIZE →
      write_loop cfg junk buf count fuel w ≠ none := by
  intro fuel
  induction fuel with
  | zero =>
    intro w hb hf hs hoff hnb
    unfold write_loop
    rw [if_neg (by omega)]
    simp
  | succ fuel ih =>
    intro w hb hf hs hoff hnb
    unfold write_loop
    split
    · rename_i hlt
      split
      · simp
      · rename_i w2 hstep
        have hi := write_step_inv cfg junk buf count w w2 hB hc hlt hs hoff hnb hstep
        exact ih w2 hi.2.1 (by omega) (by omega) hi.2.2.2.1 hi.2.2.2.2
    · simp

/-- When the loop ends normally, `num_blocks` is the ceiling of the new size
over the block size, and the offset is the new size modulo the block size. -/
theorem write_loop_ok_inv (cfg : Config) (junk : Block) (buf : List Nat) (count : Nat)
    (hB : 0 < cfg.BLOCK_SIZE) (hc : count < 2 ^ 32) :
    ∀ (fuel : Nat) (w w1 : WriteState),
      w.bytes_written ≤ count →
      w.current_size + (count - w.bytes_written) < 2 ^ 32 →
      w.current_block_offset = w.current_size % cfg.BLOCK_SIZE →
      w.num_blocks = ceil_div w.current_size cfg.BLOCK_SIZE →
      write_loop cfg junk buf count fuel w = some (.ok w1) →
      w1.current_block_offset = w1.current_size % cfg.BLOCK_SIZE ∧
      w1.num_blocks = ceil_div w1.current_size cfg.BLOCK_SIZE := by
  intro fuel
  induction fuel with
  | zero =>
    intro w w1 hb hs hoff hnb h
    unfold write_loop at h
    split at h <;> cases h
    exact ⟨hoff, hnb⟩
  | succ fuel ih =>
    intro w w1 hb hs hoff hnb h
    unfold write_loop at h
    split at h
    · rename_i hlt
      split at h
      · cases h
      · rename_i w2 hstep
        have hi := write_step_inv cfg junk buf count w w2 hB hc hlt hs hoff hnb hstep
        exact ih w2 w1 hi.2.1 (by omega) hi.2.2.2.1 hi.2.2.2.2 h
    · cases h
      exact ⟨hoff, hnb⟩

theorem write_start_inv (cfg : Config) (s : FS) (inode : Block)
    (hsz : load32 inode 0 + cfg.BLOCK_SIZE - 1 < 2 ^ 32) :
    (write_start cfg s inode).bytes_written = 0 ∧
    (write_start cfg s inode).current_size = load32 inode 0 ∧
    (write_start cfg s inode).current_block_offset
      = (write_start cfg s inode).current_size % cfg.BLOCK_SIZE ∧
    (write_start cfg s inode).num_blocks
      = ceil_div (write_start cfg s inode).current_size cfg.BLOCK_SIZE := by
  simp [write_start, ceil_div, u32_of_lt hsz]

/-- On a configuration whose metadata block has room for one block number per
data block of a file of maximal size, an append within the size ceiling has a
result: the loop bound is not used up and the inode store is inside the
buffer. -/
theorem write_body_defined (cfg : Config) (junk : Block) (s : FS) (fb : Nat) (inode : Block)
    (buf : List Nat) (count : Nat)
    (hB : 0 < cfg.BLOCK_SIZE)
    (hmax : cfg.MAX_FILE_SIZE + cfg.BLOCK_SIZE ≤ 2 ^ 32)
    (hslot : 4 + sizeof_block_num_t * ceil_div cfg.MAX_FILE_SIZE cfg.BLOCK_SIZE
      ≤ cfg.BLOCK_SIZE)
    (hcount : 0 < count)
    (hle : load32 inode 0 + count ≤ cfg.MAX_FILE_SIZE) :
    ∃ r, write_body cfg junk s fb inode buf count = some r := by
  have h32 : load32 inode 0 + count < 2 ^ 32 := by omega
  have hst := write_start_inv cfg s inode (by omega)
  unfold write_body
  rw [if_neg (by rw [u32_of_lt h32]; omega)]
  have hdef := write_loop_defined cfg junk buf count hB (by omega) count
    (write_start cfg s inode) (by omega) (by omega) (by rw [hst.1, hst.2.1]; omega)
    hst.2.2.1 hst.2.2.2
  split
  · rename_i hn
    exact absurd hn hdef
  · exact ⟨_, rfl⟩
  · rename_i w hl
    have hsz := write_loop_ok_size cfg junk buf count (by omega) count
      (write_start cfg s inode) w (by omega) (by rw [hst.1, hst.2.1]; omega) hl
    have hinv := write_loop_ok_inv cfg junk buf count hB (by omega) count
      (write_start cfg s inode) w (by omega) (by rw [hst.1, hst.2.1]; omega)
      hst.2.2.1 hst.2.2.2 hl
    have hcs : w.current_size = load32 inode 0 + count := by
      rw [hsz.2.1, hst.1, hst.2.1]; rfl
    have hnb1 : 1 ≤ w.num_blocks := by
      rw [hinv.2, hcs]
      unfold ceil_div
      exact (Nat.one_le_div_iff hB).mpr (by omega)
    have hnb2 : w.num_blocks ≤ ceil_div cfg.MAX_FILE_SIZE cfg.BLOCK_SIZE := by
      rw [hinv.2, hcs]
      unfold ceil_div
      exact Nat.div_le_div_right (by omega)
    have hslot2 : inode_slot w.num_blocks = 4 + (w.num_blocks - 1) * sizeof_block_num_t := by
      unfold inode_slot
      have hdiv : ceil_div cfg.MAX_FILE_SIZE cfg.BLOCK_SIZE ≤ cfg.BLOCK_SIZE := by
        unfold sizeof_block_num_t at hslot; omega
      have : w.num_blocks + (2 ^ 32 - 1) = (w.num_blocks - 1) + 2 ^ 32 := by omega
      rw [this, u32, Nat.add_mod_right, Nat.mod_eq_of_lt (by omega)]
    unfold write_finish
    rw [if_neg (by rw [hslot2]; unfold sizeof_block_num_t at *; omega)]
    dsimp only
    split <;> exact ⟨_, rfl⟩

theorem result_of_code (r : Option (Err × FS)) (s : FS) (e : Err)
    (h : code_of r = some e) : r = some (e, state_after r s) := by
  cases r with
  | none => simp [code_of] at h
  | some p =>
    obtain ⟨a, b⟩ := p
    simp [code_of] at h
    simp [state_after, h]

/-! ## The size ceiling -/

/-- C7: for a regular file (the lookup of `name` ends at slot `i`, whose kind
byte is 0 and whose metadata block is on the device) with stored size
`sz ≤ MAX_FILE_SIZE` and a count with `0 < count < 2^16`, on a configuration
with `MAX_FILE_SIZE + 65535 < 2^32`: if `sz + count > MAX_FILE_SIZE` then
`jfs_write` returns `E_MAX_FILE_SIZE` and the state after the call is the
state before it (no block allocated or written, cursor unchanged, so
`jfs_stat` and `jfs_read` answer as before); if `sz + count ≤ MAX_FILE_SIZE`
then no result of the call has the code `E_MAX_FILE_SIZE`, and the call does
have a result when the block size is positive, `MAX_FILE_SIZE + BLOCK_SIZE ≤
2^32` and the metadata block has room for the block numbers of a file of
maximal size. -/
theorem jfs_write_size_ceiling (cfg : Config) (junk : Block) (s : FS) (name : Name)
    (buf : List Nat) (count i : Nat)
    (hmax : cfg.MAX_FILE_SIZE + 65535 < 2 ^ 32)
    (hcount : 0 < count) (hc16 : count < 65536)
    (hio : s.current_dir < s.nblocks)
    (hfind : find_entry cfg (s.disk s.current_dir) name (max_entries cfg) 0 = some i)
    (hkind : s.disk s.current_dir (i * entry_size cfg + 1) = 0)
    (hfb : load16 (s.disk s.current_dir) (i * entry_size cfg + 2 + cfg.MAX_NAME_LENGTH)
      < s.nblocks)
    (hsize : load32 (s.disk (load16 (s.disk s.current_dir)
      (i * entry_size cfg + 2 + cfg.MAX_NAME_LENGTH))) 0 ≤ cfg.MAX_FILE_SIZE) :
    (load32 (s.disk (load16 (s.disk s.current_dir)
        (i * entry_size cfg + 2 + cfg.MAX_NAME_LENGTH))) 0 + count > cfg.MAX_FILE_SIZE →
      jfs_write cfg junk s name buf count = some (E_MAX_FILE_SIZE, s) ∧
      (∀ st, jfs_stat cfg (state_after (jfs_write cfg junk s name buf count) s) name st
        = jfs_stat cfg s name st) ∧
      (∀ cap, jfs_read cfg (state_after (jfs_write cfg junk s name buf count) s) name cap
        = jfs_read cfg s name cap)) ∧
    (load32 (s.disk (load16 (s.disk s.current_dir)
        (i * entry_size cfg + 2 + cfg.MAX_NAME_LENGTH))) 0 + count ≤ cfg.MAX_FILE_SIZE →
      (∀ r, jfs_write cfg junk s name buf count = some r → r.1 ≠ E_MAX_FILE_SIZE) ∧
      (0 < cfg.BLOCK_SIZE → cfg.MAX_FILE_SIZE + cfg.BLOCK_SIZE ≤ 2 ^ 32 →
        4 + sizeof_block_num_t * ceil_div cfg.MAX_FILE_SIZE cfg.BLOCK_SIZE ≤ cfg.BLOCK_SIZE →
        ∃ r, jfs_write cfg junk s name buf count = some r)) := by
  rw [jfs_write_regular cfg junk s name buf count i hcount hio hfind hkind hfb]
  have h32 : u32 (load32 (s.disk (load16 (s.disk s.current_dir)
      (i * entry_size cfg + 2 + cfg.MAX_NAME_LENGTH))) 0 + count) =
      load32 (s.disk (load16 (s.disk s.current_dir)
      (i * entry_size cfg + 2 + cfg.MAX_NAME_LENGTH))) 0 + count := u32_of_lt (by omega)
  constructor
  · intro hgt
    have hb : write_body cfg junk s
        (load16 (s.disk s.current_dir) (i * entry_size cfg + 2 + cfg.MAX_NAME_LENGTH))
        (s.disk (load16 (s.disk s.current_dir)
          (i * entry_size cfg + 2 + cfg.MAX_NAME_LENGTH))) buf count
        = some (E_MAX_FILE_SIZE, s) := by
      unfold write_body
      rw [h32, if_pos hgt]
    rw [hb]
    exact ⟨rfl, fun _ => rfl, fun _ => rfl⟩
  · intro hle
    refine ⟨?_, fun hB hmb hslot =>
      write_body_defined cfg junk s _ _ buf count hB hmb hslot hcount hle⟩
    intro r hr
    unfold write_body at hr
    rw [h32, if_neg (by omega)] at hr
    split at hr
    · cases hr
    · rename_i e hl
      have hre : e = r := Option.some.inj hr
      subst hre
      rcases write_loop_error cfg junk buf count _ _ e.1 e.2 hl with h | h <;>
        (rw [h]; decide)
    · rcases write_finish_code cfg _ _ r hr with h | h <;> (rw [h]; decide)

/-- Witness for C7: the file `a.txt` of size 100 under the ceiling 1920; an
append of 1900 bytes is refused without any change, an append of 100 bytes is
not refused for its size. -/
theorem jfs_write_size_ceiling_witness :
    jfs_write cfg64 junk0 fs_x100 name_a (List.replicate 1900 120) 1900
      = some (E_MAX_FILE_SIZE, fs_x100) ∧
    (∀ r, jfs_write cfg64 junk0 fs_x100 name_a x100 100 = some r → r.1 ≠ E_MAX_FILE_SIZE) ∧
    (∃ r, jfs_write cfg64 junk0 fs_x100 name_a x100 100 = some r) :=
  have h := jfs_write_size_ceiling cfg64 junk0 fs_x100 name_a x100 100 0
      (by decide) (by decide) (by decide) (by decide) (by decide) (by decide) (by decide)
      (by decide)
  ⟨((jfs_write_size_ceiling cfg64 junk0 fs_x100 name_a (List.replicate 1900 120) 1900 0
      (by decide) (by decide) (by decide) (by decide) (by decide) (by decide) (by decide)
      (by decide)).1 (by decide)).1,
   (h.2 (by decide)).1, (h.2 (by decide)).2 (by decide) (by decide) (by decide)⟩

/-! ## Exactly `count` bytes -/

/-- C8: for a regular file (the lookup of `name` ends at slot `i`, whose kind
byte is 0 and whose metadata block `fb` is on the device) with stored size
`sz`, and `count > 0` with `sz + count` representable in the four-byte size
field: if `jfs_write` returns success, then its loop ended with
`bytes_written = count` and `current_size = sz + count` (the chunk sizes sum to
`count`), and the size stored in the metadata block afterwards is exactly
`sz + count`.  When moreover the current directory block is not the metadata
block, not free and not the head block of the file, `jfs_stat` afterwards
succeeds and reports `file_size = sz + count`. -/
theorem jfs_write_success_size (cfg : Config) (junk : Block) (s s1 : FS) (name : Name)
    (buf : List Nat) (count i : Nat)
    (hcount : 0 < count)
    (hio : s.current_dir < s.nblocks)
    (hfind : find_entry cfg (s.disk s.current_dir) name (max_entries cfg) 0 = some i)
    (hkind : s.disk s.current_dir (i * entry_size cfg + 1) = 0)
    (hfb : load16 (s.disk s.current_dir) (i * entry_size cfg + 2 + cfg.MAX_NAME_LENGTH)
      < s.nblocks)
    (hsum : load32 (s.disk (load16 (s.disk s.current_dir)
      (i * entry_size cfg + 2 + cfg.MAX_NAME_LENGTH))) 0 + count < 2 ^ 32)
    (hres : jfs_write cfg junk s name buf count = some (E_SUCCESS, s1)) :
    (∃ w, write_loop cfg junk buf count count
        (write_start cfg s (s.disk (load16 (s.disk s.current_dir)
          (i * entry_size cfg + 2 + cfg.MAX_NAME_LENGTH)))) = some (.ok w) ∧
      w.bytes_written = count ∧
      w.current_size = load32 (s.disk (load16 (s.disk s.current_dir)
        (i * entry_size cfg + 2 + cfg.MAX_NAME_LENGTH))) 0 + count) ∧
    load32 (s1.disk (load16 (s.disk s.current_dir)
        (i * entry_size cfg + 2 + cfg.MAX_NAME_LENGTH))) 0 =
      load32 (s.disk (load16 (s.disk s.current_dir)
        (i * entry_size cfg + 2 + cfg.MAX_NAME_LENGTH))) 0 + count ∧
    (load16 (s.disk s.current_dir) (i * entry_size cfg + 2 + cfg.MAX_NAME_LENGTH)
        ≠ s.current_dir →
      s.current_dir ∉ s.free →
      load16 (s.disk (load16 (s.disk s.current_dir)
        (i * entry_size cfg + 2 + cfg.MAX_NAME_LENGTH))) 4 ≠ s.current_dir →
      ∀ st, (jfs_stat cfg s1 name st).1 = E_SUCCESS ∧
        (jfs_stat cfg s1 name st).2.file_size =
          load32 (s.disk (load16 (s.disk s.current_dir)
            (i * entry_size cfg + 2 + cfg.MAX_NAME_LENGTH))) 0 + count) := by
  rw [jfs_write_regular cfg junk s name buf count i hcount hio hfind hkind hfb] at hres
  generalize hfbdef : load16 (s.disk s.current_dir)
    (i * entry_size cfg + 2 + cfg.MAX_NAME_LENGTH) = fb at *
  unfold write_body at hres
  split at hres
  · cases hres
  · split at hres
    · cases hres
    · rename_i e hl
      have hre : e = (E_SUCCESS, s1) := Option.some.inj hres
      subst hre
      rcases write_loop_error cfg junk buf count _ _ _ _ hl with h | h <;> cases h
    · rename_i w hl
      have hsz := write_loop_ok_size cfg junk buf count (by omega) count
        (write_start cfg s (s.disk fb)) w (Nat.zero_le _) (by simpa [write_start] using hsum) hl
      have hfin := write_finish_success cfg fb w s1 hres
      have hcs : w.current_size = load32 (s.disk fb) 0 + count := by
        simpa [write_start] using hsz.2.1
      have hstored : load32 (s1.disk fb) 0 = load32 (s.disk fb) 0 + count := by
        rw [hfin.2.1, hcs]
        exact u32_of_lt hsum
      refine ⟨⟨w, hl, hsz.1, hcs⟩, hstored, ?_⟩
      intro hne hnfree hhead st
      have hcd : s1.current_dir = s.current_dir := by
        rw [hfin.2.2.2.1, hsz.2.2.2]; rfl
      have hnb : s1.nblocks = s.nblocks := by
        rw [hfin.2.2.1, hsz.2.2.1]; rfl
      have hdisk : s1.disk s.current_dir = s.disk s.current_dir := by
        rw [hfin.2.2.2.2.2 _ (Ne.symm hne)]
        exact write_loop_frame cfg junk buf count s.current_dir count
          (write_start cfg s (s.disk fb)) w hhead hnfree hl
      have hst := jfs_stat_of_file cfg s1 name st i (by rw [hcd, hnb]; exact hio)
        (by rw [hcd, hdisk]; exact hfind) (by rw [hcd, hdisk]; exact hkind)
        (by rw [hcd, hdisk, hnb, hfbdef]; exact hfb)
      rw [hcd, hdisk, hfbdef, hstored] at hst
      exact hst

/-- Witness for C8: the append of 100 bytes to the fresh file `a.txt`; the
metadata block 2 then stores size 100 and `jfs_stat` reports 100. -/
theorem jfs_write_success_size_witness :
    load32 (fs_x100.disk 2) 0 = 0 + 100 ∧
    (jfs_stat cfg64 fs_x100 name_a stats0).1 = E_SUCCESS ∧
    (jfs_stat cfg64 fs_x100 name_a stats0).2.file_size = 0 + 100 :=
  have h := jfs_write_success_size cfg64 junk0 fs_a fs_x100 name_a x100 100 0
    (by decide) (by decide) (by decide) (by decide) (by decide) (by decide)
    (result_of_code _ fs_a E_SUCCESS (by decide))
  ⟨h.2.1, h.2.2 (by decide) (by decide) (by decide) stats0⟩

theorem strncmp_eq0_congr : ∀ (n : Nat) (a a1 b b1 : Nat → Nat),
    (∀ k, k < n → a k = a1 k) → (∀ k, k < n → b k = b1 k) →
    strncmp_eq0 a b n = strncmp_eq0 a1 b1 n := by
  intro n
  induction n with
  | zero => intro a a1 b b1 _ _; rfl
  | succ n ih =>
    intro a a1 b b1 ha hb
    unfold strncmp_eq0
    rw [← ha 0 (by omega), ← hb 0 (by omega)]
    rw [ih (fun k => a (k + 1)) (fun k => a1 (k + 1)) (fun k => b (k + 1)) (fun k => b1 (k + 1))
      (fun k hk => ha (k + 1) (by omega)) (fun k hk => hb (k + 1) (by omega))]

theorem strncmp_eq0_symm : ∀ (n : Nat) (a b : Nat → Nat),
    strncmp_eq0 a b n = strncmp_eq0 b a n := by
  intro n
  induction n with
  | zero => intro a b; rfl
  | succ n ih =>
    intro a b
    unfold strncmp_eq0
    by_cases h : a 0 = b 0
    · simp only [h, ne_eq, not_true_eq_false, if_false]
      rw [ih]
    · have h2 : ¬ b 0 = a 0 := fun e => h e.symm
      simp [h, h2]

theorem strncmp_eq0_self : ∀ (n : Nat) (a : Nat → Nat), strncmp_eq0 a a n = true := by
  intro n
  induction n with
  | zero => intro a; rfl
  | succ n ih =>
    intro a
    unfold strncmp_eq0
    simp [ih]

theorem cstr_cons_succ (c : Nat) (cs : Name) : (fun k => cstr (c :: cs) (k + 1)) = cstr cs := by
  funext k
  simp [cstr]

theorem padded_cons_succ (c : Nat) (cs : Name) (hc : c ≠ 0) :
    (fun k => padded (c :: cs) (k + 1)) = padded cs := by
  funext k
  simp [padded, strlen, hc, cstr]

/-- Comparing against the stored (padded) name is comparing against the
name. -/
theorem strncmp_eq0_padded : ∀ (n : Nat) (a : Nat → Nat) (name : Name),
    strncmp_eq0 a (padded name) n = strncmp_eq0 a (cstr name) n := by
  intro n
  induction n with
  | zero => intro a name; rfl
  | succ n ih =>
    intro a name
    cases name with
    | nil =>
      unfold strncmp_eq0
      simp [padded, strlen, cstr]
    | cons c cs =>
      by_cases hc : c = 0
      · unfold strncmp_eq0
        have h0 : padded (c :: cs) 0 = 0 := by simp [padded, strlen, hc]
        have h1 : cstr (c :: cs) 0 = 0 := by simp [cstr, hc]
        rw [h0, h1]
        by_cases ha : a 0 = 0 <;> simp [ha]
      · unfold strncmp_eq0
        have h0 : padded (c :: cs) 0 = c := by simp [padded, strlen, hc, cstr]
        have h1 : cstr (c :: cs) 0 = c := by simp [cstr]
        rw [h0, h1, padded_cons_succ c cs hc, cstr_cons_succ, ih]

theorem strncmp_eq0_padded_self (n : Nat) (name : Name) :
    strncmp_eq0 (padded name) (cstr name) n = true := by
  rw [← strncmp_eq0_padded, strncmp_eq0_self]

/-! ## Properties of the directory scans -/

theorem find_entry_some_iff (cfg : Config) (bd : Block) (name : Name) :
    ∀ (k i0 i : Nat), find_entry cfg bd name k i0 = some i ↔
      (i0 ≤ i ∧ i < i0 + k ∧ slot_hit cfg bd name i ∧
        ∀ j, i0 ≤ j → j < i → ¬ slot_hit cfg bd name j) := by
  intro k
  induction k with
  | zero =>
    intro i0 i
    simp [find_entry]
    intro h1 h2; omega
  | succ k ih =>
    intro i0 i
    unfold find_entry
    by_cases hh : slot_hit cfg bd name i0
    · have hh2 := hh
      unfold slot_hit at hh2
      rw [if_pos hh2]
      constructor
      · intro h
        have : i0 = i := Option.some.inj h
        subst this
        exact ⟨le_refl _, by omega, hh, fun j h1 h2 => by omega⟩
      · rintro ⟨h1, h2, h3, h4⟩
        by_cases e : i0 = i
        · rw [e]
        · exact absurd hh (h4 i0 (le_refl _) (by omega))
    · have hh2 := hh
      unfold slot_hit at hh2
      rw [if_neg hh2, ih]
      constructor
      · rintro ⟨h1, h2, h3, h4⟩
        refine ⟨by omega, by omega, h3, ?_⟩
        intro j hj1 hj2
        by_cases e : j = i0
        · rw [e]; exact hh
        · exact h4 j (by omega) hj2
      · rintro ⟨h1, h2, h3, h4⟩
        have hne : i0 ≠ i := fun e => hh (e ▸ h3)
        exact ⟨by omega, by omega, h3, fun j hj1 hj2 => h4 j (by omega) hj2⟩

theorem find_entry_none_iff (cfg : Config) (bd : Block) (name : Name) :
    ∀ (k i0 : Nat), find_entry cfg bd name k i0 = none ↔
      ∀ j, i0 ≤ j → j < i0 + k → ¬ slot_hit cfg bd name j := by
  intro k
  induction k with
  | zero =>
    intro i0
    simp [find_entry]
    intro j h1 h2; omega
  | succ k ih =>
    intro i0
    unfold find_entry
    by_cases hh : slot_hit cfg bd name i0
    · have hh2 := hh
      unfold slot_hit at hh2
      rw [if_pos hh2]
      simp only [reduceCtorEq, false_iff, not_forall]
      exact ⟨i0, le_refl _, by omega, not_not.mpr hh⟩
    · have hh2 := hh
      unfold slot_hit at hh2
      rw [if_neg hh2, ih]
      constructor
      · intro h j h1 h2
        by_cases e : j = i0
        · rw [e]; exact hh
        · exact h j (by omega) (by omega)
      · intro h j h1 h2
        exact h j (by omega) (by omega)

theorem first_free_succ (cfg : Config) (bd : Block) (k i : Nat) :
    first_free cfg bd (k + 1) i =
      if bd (i * entry_size cfg) = 0 then some i else first_free cfg bd k (i + 1) := rfl

theorem first_free_some_iff (cfg : Config) (bd : Block) :
    ∀ (k i0 j : Nat), first_free cfg bd k i0 = some j ↔
      (i0 ≤ j ∧ j < i0 + k ∧ bd (j * entry_size cfg) = 0 ∧
        ∀ i, i0 ≤ i → i < j → bd (i * entry_size cfg) ≠ 0) := by
  intro k
  induction k with
  | zero =>
    intro i0 j
    simp [first_free]
    intro h1 h2; omega
  | succ k ih =>
    intro i0 j
    unfold first_free
    by_cases hh : bd (i0 * entry_size cfg) = 0
    · rw [if_pos hh]
      constructor
      · intro h
        have : i0 = j := Option.some.inj h
        subst this
        exact ⟨le_refl _, by omega, hh, fun i h1 h2 => by omega⟩
      · rintro ⟨h1, h2, h3, h4⟩
        by_cases e : i0 = j
        · rw [e]
        · exact absurd hh (h4 i0 (le_refl _) (by omega))
    · rw [if_neg hh, ih]
      constructor
      · rintro ⟨h1, h2, h3, h4⟩
        refine ⟨by omega, by omega, h3, ?_⟩
        intro i hi1 hi2
        by_cases e : i = i0
        · rw [e]; exact hh
        · exact h4 i (by omega) hi2
      · rintro ⟨h1, h2, h3, h4⟩
        have hne : i0 ≠ j := fun e => hh (e ▸ h3)
        exact ⟨by omega, by omega, h3, fun i hi1 hi2 => h4 i (by omega) hi2⟩

theorem first_free_none_iff (cfg : Config) (bd : Block) :
    ∀ (k i0 : Nat), first_free cfg bd k i0 = none ↔
      ∀ j, i0 ≤ j → j < i0 + k → bd (j * entry_size cfg) ≠ 0 := by
  intro k
  induction k with
  | zero =>
    intro i0
    simp [first_free]
    intro j h1 h2; omega
  | succ k ih =>
    intro i0
    unfold first_free
    by_cases hh : bd (i0 * entry_size cfg) = 0
    · rw [if_pos hh]
      simp only [reduceCtorEq, false_iff, not_forall]
      exact ⟨i0, le_refl _, by omega, not_not.mpr hh⟩
    · rw [if_neg hh, ih]
      constructor
      · intro h j h1 h2
        by_cases e : j = i0
        · rw [e]; exact hh
        · exact h j (by omega) (by omega)
      · intro h j h1 h2
        exact h j (by omega) (by omega)

/-- Without a slot carrying the name, the scan of `jfs_creat` ends with the
lowest free slot. -/
theorem creat_scan_no_hit (cfg : Config) (bd : Block) (name : Name) :
    ∀ (k i0 : Nat) (fe : Option Nat),
      (∀ j, i0 ≤ j → j < i0 + k → ¬ slot_hit cfg bd name j) →
      creat_scan cfg bd name k i0 fe =
        .ok (match fe with
             | some x => some x
             | none => first_free cfg bd k i0) := by
  intro k
  induction k with
  | zero =>
    intro i0 fe _
    cases fe <;> rfl
  | succ k ih =>
    intro i0 fe h
    unfold creat_scan
    have hh := h i0 (le_refl _) (by omega)
    unfold slot_hit at hh
    rw [if_neg hh, ih _ _ (fun j h1 h2 => h j (by omega) (by omega))]
    cases fe with
    | some x => simp
    | none =>
      rw [first_free_succ cfg bd k i0]
      by_cases h0 : bd (i0 * entry_size cfg) = 0 <;> simp [h0]

/-- The scan of `jfs_creat` fails only with `E_EXISTS`, and only when a used
slot carries the name. -/
theorem creat_scan_error (cfg : Config) (bd : Block) (name : Name) :
    ∀ (k i0 : Nat) (fe : Option Nat) (e : Err),
      creat_scan cfg bd name k i0 fe = .error e →
      e = E_EXISTS ∧ ∃ j, i0 ≤ j ∧ j < i0 + k ∧ slot_hit cfg bd name j := by
  intro k
  induction k with
  | zero =>
    intro i0 fe e h
    simp [creat_scan] at h
  | succ k ih =>
    intro i0 fe e h
    unfold creat_scan at h
    split at h
    · rename_i hh
      cases h
      exact ⟨rfl, i0, le_refl _, by omega, hh⟩
    · obtain ⟨h1, j, h2, h3, h4⟩ := ih _ _ _ h
      exact ⟨h1, j, by omega, by omega, h4⟩

theorem mkdir_scan_no_hit (cfg : Config) (bd : Block) (name : Name) :
    ∀ (k i0 : Nat) (fe : Option Nat),
      (∀ j, i0 ≤ j → j < i0 + k → ¬ slot_hit cfg bd name j) →
      mkdir_scan cfg bd name k i0 fe =
        .ok (match fe with
             | some x => some x
             | none => first_free cfg bd k i0) := by
  intro k
  induction k with
  | zero =>
    intro i0 fe _
    cases fe <;> rfl
  | succ k ih =>
    intro i0 fe h
    unfold mkdir_scan
    have hh := h i0 (le_refl _) (by omega)
    unfold slot_hit at hh
    have hh2 : ¬ (bd (i0 * entry_size cfg) = 1 ∧
        strncmp_eq0 (fun j => bd (i0 * entry_size cfg + 2 + j)) (cstr name)
          cfg.MAX_NAME_LENGTH = true) := by
      rintro ⟨h1, h2⟩
      exact hh ⟨by omega, h2⟩
    rw [if_neg hh2, ih _ _ (fun j h1 h2 => h j (by omega) (by omega))]
    cases fe with
    | some x => simp
    | none =>
      rw [first_free_succ cfg bd k i0]
      by_cases h0 : bd (i0 * entry_size cfg) = 0 <;> simp [h0]

theorem mkdir_scan_error (cfg : Config) (bd : Block) (name : Name) :
    ∀ (k i0 : Nat) (fe : Option Nat) (e : Err),
      mkdir_scan cfg bd name k i0 fe = .error e →
      e = E_EXISTS ∧ ∃ j, i0 ≤ j ∧ j < i0 + k ∧ slot_hit cfg bd name j := by
  intro k
  induction k with
  | zero =>
    intro i0 fe e h
    simp [mkdir_scan] at h
  | succ k ih =>
    intro i0 fe e h
    unfold mkdir_scan at h
    split at h
    · rename_i hh
      cases h
      exact ⟨rfl, i0, le_refl _, by omega, ⟨by omega, hh.2⟩⟩
    · obtain ⟨h1, j, h2, h3, h4⟩ := ih _ _ _ h
      exact ⟨h1, j, by omega, by omega, h4⟩

theorem clear_entries_zero (cfg : Config) :
    ∀ (k i : Nat), clear_entries cfg zero_block k i = zero_block := by
  intro k
  induction k with
  | zero => intro i; rfl
  | succ k ih =>
    intro i
    unfold clear_entries
    have : memset zero_block (i * entry_size cfg) 0 (entry_size cfg) = zero_block := by
      funext x
      simp [memset, zero_block]
    rw [this, ih]

/-! ## Creation of an entry -/

theorem creat_entry_eq (cfg : Config) (bd : Block) (j : Nat) (name : Name) (b : Nat) :
    store16
      (strncpy
        (setb (setb (memset bd (j * entry_size cfg) 0 (entry_size cfg)) (j * entry_size cfg) 1)
          (j * entry_size cfg + 1) 0)
        (j * entry_size cfg + 2) name cfg.MAX_NAME_LENGTH)
      (j * entry_size cfg + 2 + cfg.MAX_NAME_LENGTH) b
    = put_entry cfg bd j 0 name b := by
  funext k
  simp only [store16, strncpy, setb, memset, put_entry, padded, entry_size]
  split_ifs <;> first | rfl | omega

theorem mkdir_entry_eq (cfg : Config) (bd : Block) (j : Nat) (name : Name) (b : Nat) :
    store16
      (strncpy
        (setb (setb bd (j * entry_size cfg) 1) (j * entry_size cfg + 1) 1)
        (j * entry_size cfg + 2) name cfg.MAX_NAME_LENGTH)
      (j * entry_size cfg + 2 + cfg.MAX_NAME_LENGTH) b
    = put_entry cfg bd j 1 name b := by
  funext k
  simp only [store16, strncpy, setb, put_entry, padded, entry_size]
  split_ifs <;> first | rfl | omega

theorem jfs_creat_full (cfg : Config) (s : FS) (name : Name)
    (hlen : strlen name ≤ cfg.MAX_NAME_LENGTH) (hio : s.current_dir < s.nblocks)
    (hnew : find_entry cfg (s.disk s.current_dir) name (max_entries cfg) 0 = none)
    (hfull : first_free cfg (s.disk s.current_dir) (max_entries cfg) 0 = none) :
    jfs_creat cfg s name = (E_MAX_DIR_ENTRIES, s) := by
  have hscan := creat_scan_no_hit cfg (s.disk s.current_dir) name (max_entries cfg) 0 none
    ((find_entry_none_iff cfg _ name _ 0).mp hnew)
  simp [jfs_creat, read_block, hio, hscan, hfull, Nat.not_lt.mpr hlen]

theorem jfs_mkdir_full (cfg : Config) (s : FS) (name : Name)
    (hlen : strlen name ≤ cfg.MAX_NAME_LENGTH) (hio : s.current_dir < s.nblocks)
    (hnew : find_entry cfg (s.disk s.current_dir) name (max_entries cfg) 0 = none)
    (hfull : first_free cfg (s.disk s.current_dir) (max_entries cfg) 0 = none) :
    jfs_mkdir cfg s name = (E_MAX_DIR_ENTRIES, s) := by
  have hscan := mkdir_scan_no_hit cfg (s.disk s.current_dir) name (max_entries cfg) 0 none
    ((find_entry_none_iff cfg _ name _ 0).mp hnew)
  simp [jfs_mkdir, read_block, hio, hscan, hfull, Nat.not_lt.mpr hlen]

theorem jfs_creat_success (cfg : Config) (s : FS) (name : Name) (j b : Nat) (rest : List Nat)
    (hlen : strlen name ≤ cfg.MAX_NAME_LENGTH) (hio : s.current_dir < s.nblocks)
    (hnew : find_entry cfg (s.disk s.current_dir) name (max_entries cfg) 0 = none)
    (hslot : first_free cfg (s.disk s.current_dir) (max_entries cfg) 0 = some j)
    (hfree : s.free = b :: rest) (hb0 : b ≠ 0) (hbn : b < s.nblocks) :
    jfs_creat cfg s name = (E_SUCCESS, created cfg s j 0 name b rest) := by
  have hscan := creat_scan_no_hit cfg (s.disk s.current_dir) name (max_entries cfg) 0 none
    ((find_entry_none_iff cfg _ name _ 0).mp hnew)
  simp only [jfs_creat, read_block, hio, hscan, hslot, Nat.not_lt.mpr hlen, if_true, if_false,
    allocate_block, hfree, write_block, hbn, hb0, creat_entry_eq, created]

theorem jfs_mkdir_success (cfg : Config) (s : FS) (name : Name) (j b : Nat) (rest : List Nat)
    (hlen : strlen name ≤ cfg.MAX_NAME_LENGTH) (hio : s.current_dir < s.nblocks)
    (hnew : find_entry cfg (s.disk s.current_dir) name (max_entries cfg) 0 = none)
    (hslot : first_free cfg (s.disk s.current_dir) (max_entries cfg) 0 = some j)
    (hfree : s.free = b :: rest) (hb0 : b ≠ 0) (hbn : b < s.nblocks) :
    jfs_mkdir cfg s name = (E_SUCCESS, created cfg s j 1 name b rest) := by
  have hscan := mkdir_scan_no_hit cfg (s.disk s.current_dir) name (max_entries cfg) 0 none
    ((find_entry_none_iff cfg _ name _ 0).mp hnew)
  simp only [jfs_mkdir, read_block, hio, hscan, hslot, Nat.not_lt.mpr hlen, if_true, if_false,
    allocate_block, hfree, write_block, hbn, hb0, mkdir_entry_eq, created, clear_entries_zero]

/-! ## The bytes of a filled-in slot -/

theorem slot_disjoint (es i j t u : Nat) (hij : i ≠ j) (ht : t < es) (hu : u < es) :
    i * es + t ≠ j * es + u := by
  rcases Nat.lt_or_gt_of_ne hij with h | h
  · have := Nat.mul_le_mul_right es (Nat.succ_le_of_lt h)
    rw [Nat.succ_mul] at this
    omega
  · have := Nat.mul_le_mul_right es (Nat.succ_le_of_lt h)
    rw [Nat.succ_mul] at this
    omega

theorem put_entry_other (cfg : Config) (bd : Block) (j kind : Nat) (name : Name) (b i t : Nat)
    (hij : i ≠ j) (ht : t < entry_size cfg) :
    put_entry cfg bd j kind name b (i * entry_size cfg + t) = bd (i * entry_size cfg + t) := by
  have hd : ∀ u, u < entry_size cfg → i * entry_size cfg + t ≠ j * entry_size cfg + u :=
    fun u hu => slot_disjoint _ i j t u hij ht hu
  have hes : entry_size cfg = 1 + 1 + cfg.MAX_NAME_LENGTH + 2 := rfl
  have h0 := hd 0 (by omega)
  have h1 := hd 1 (by omega)
  have h2 := hd (2 + cfg.MAX_NAME_LENGTH) (by omega)
  have h3 := hd (2 + cfg.MAX_NAME_LENGTH + 1) (by omega)
  have h4 : ¬ (j * entry_size cfg + 2 ≤ i * entry_size cfg + t ∧
      i * entry_size cfg + t < j * entry_size cfg + 2 + cfg.MAX_NAME_LENGTH) := by
    rintro ⟨ha, hb⟩
    exact hd (i * entry_size cfg + t - j * entry_size cfg) (by omega) (by omega)
  unfold put_entry
  rw [if_neg (by omega), if_neg (by omega), if_neg h4, if_neg (by omega), if_neg (by omega)]

theorem put_entry_flag (cfg : Config) (bd : Block) (j kind : Nat) (name : Name) (b : Nat) :
    put_entry cfg bd j kind name b (j * entry_size cfg) = 1 := by
  simp [put_entry]

theorem put_entry_kind (cfg : Config) (bd : Block) (j kind : Nat) (name : Name) (b : Nat) :
    put_entry cfg bd j kind name b (j * entry_size cfg + 1) = kind := by
  simp [put_entry]

theorem put_entry_name (cfg : Config) (bd : Block) (j kind : Nat) (name : Name) (b k : Nat)
    (hk : k < cfg.MAX_NAME_LENGTH) :
    put_entry cfg bd j kind name b (j * entry_size cfg + 2 + k) = padded name k := by
  unfold put_entry
  rw [if_neg (by omega), if_neg (by omega), if_pos ⟨by omega, by omega⟩]
  congr 1
  omega

theorem put_entry_target (cfg : Config) (bd : Block) (j kind : Nat) (name : Name) (b : Nat) :
    load16 (put_entry cfg bd j kind name b) (j * entry_size cfg + 2 + cfg.MAX_NAME_LENGTH)
      = b % 65536 := by
  unfold load16 put_entry
  rw [if_neg (by omega), if_neg (by omega), if_neg (by omega), if_pos rfl,
    if_neg (by omega), if_neg (by omega), if_neg (by omega), if_neg (by omega), if_pos rfl]
  omega

theorem slot_hit_put_other (cfg : Config) (bd : Block) (j kind : Nat) (name n : Name)
    (b i : Nat) (hij : i ≠ j) :
    slot_hit cfg (put_entry cfg bd j kind name b) n i ↔ slot_hit cfg bd n i := by
  have hes : entry_size cfg = 1 + 1 + cfg.MAX_NAME_LENGTH + 2 := rfl
  unfold slot_hit
  have h0 := put_entry_other cfg bd j kind name b i 0 hij (by omega)
  rw [Nat.add_zero] at h0
  rw [h0, strncmp_eq0_congr cfg.MAX_NAME_LENGTH
    (fun k => put_entry cfg bd j kind name b (i * entry_size cfg + 2 + k))
    (fun k => bd (i * entry_size cfg + 2 + k)) (cstr n) (cstr n)
    (fun k hk => by
      have := put_entry_other cfg bd j kind name b i (2 + k) hij (by omega)
      simpa [Nat.add_assoc] using this)
    (fun _ _ => rfl)]

theorem slot_hit_put_self (cfg : Config) (bd : Block) (j kind : Nat) (name n : Name) (b : Nat) :
    slot_hit cfg (put_entry cfg bd j kind name b) n j ↔
      strncmp_eq0 (cstr name) (cstr n) cfg.MAX_NAME_LENGTH = true := by
  unfold slot_hit
  rw [put_entry_flag, strncmp_eq0_congr cfg.MAX_NAME_LENGTH
    (fun k => put_entry cfg bd j kind name b (j * entry_size cfg + 2 + k))
    (padded name) (cstr n) (cstr n)
    (fun k hk => put_entry_name cfg bd j kind name b k hk) (fun _ _ => rfl),
    strncmp_eq0_symm, strncmp_eq0_padded, strncmp_eq0_symm]
  simp

/-- After an entry for a new name is put into the lowest free slot, the lookup
of that name ends at that slot. -/
theorem find_entry_put (cfg : Config) (bd : Block) (j kind : Nat) (name : Name) (b : Nat)
    (hnew : find_entry cfg bd name (max_entries cfg) 0 = none)
    (hslot : first_free cfg bd (max_entries cfg) 0 = some j) :
    find_entry cfg (put_entry cfg bd j kind name b) name (max_entries cfg) 0 = some j := by
  have hn := (find_entry_none_iff cfg bd name _ 0).mp hnew
  have hs := (first_free_some_iff cfg bd _ 0 j).mp hslot
  rw [find_entry_some_iff]
  refine ⟨Nat.zero_le _, hs.2.1, ?_, ?_⟩
  · rw [slot_hit_put_self]
    exact strncmp_eq0_self _ _
  · intro i h1 h2
    rw [slot_hit_put_other cfg bd j kind name name b i (by omega)]
    exact hn i h1 (by omega)

/-! ## Refusals of `jfs_rmdir` -/

theorem dir_is_empty_false (cfg : Config) (dir_data : Block) (j : Nat)
    (hj : dir_data (j * entry_size cfg) ≠ 0) :
    ∀ (k j0 : Nat), j0 ≤ j → j < j0 + k → dir_is_empty cfg dir_data k j0 = false := by
  intro k
  induction k with
  | zero => intro j0 h1 h2; omega
  | succ k ih =>
    intro j0 h1 h2
    unfold dir_is_empty
    by_cases e : j0 = j
    · subst e
      simp [hj]
    · split
      · rfl
      · exact ih _ (by omega) (by omega)

/-- C11: with the current directory block on the device, `jfs_rmdir(name)`
returns `E_NOT_EXISTS` when the lookup finds no slot, `E_NOT_DIR` when the
slot found is not of kind directory (so for a file entry), and `E_NOT_EMPTY`
when the slot found is a directory whose block, on the device, has a used
slot at some index `j`; in the three cases the state after the call is the
state before it: the target block is not released and no block changes. -/
theorem jfs_rmdir_refusals (cfg : Config) (s : FS) (name : Name)
    (hio : s.current_dir < s.nblocks) :
    (find_entry cfg (s.disk s.current_dir) name (max_entries cfg) 0 = none →
      jfs_rmdir cfg s name = (E_NOT_EXISTS, s)) ∧
    (∀ i, find_entry cfg (s.disk s.current_dir) name (max_entries cfg) 0 = some i →
      (s.disk s.current_dir (i * entry_size cfg + 1) ≠ 1 →
        jfs_rmdir cfg s name = (E_NOT_DIR, s)) ∧
      (s.disk s.current_dir (i * entry_size cfg + 1) = 1 →
        load16 (s.disk s.current_dir) (i * entry_size cfg + 2 + cfg.MAX_NAME_LENGTH)
          < s.nblocks →
        (∃ j, j < max_entries cfg ∧
          s.disk (load16 (s.disk s.current_dir)
            (i * entry_size cfg + 2 + cfg.MAX_NAME_LENGTH)) (j * entry_size cfg) ≠ 0) →
        jfs_rmdir cfg s name = (E_NOT_EMPTY, s))) := by
  constructor
  · intro hfind
    simp [jfs_rmdir, read_block, hio, hfind]
  · intro i hfind
    constructor
    · intro hkind
      simp [jfs_rmdir, read_block, hio, hfind, hkind]
    · intro hkind hfb hused
      obtain ⟨j, hj, hne⟩ := hused
      have hemp := dir_is_empty_false cfg _ j hne (max_entries cfg) 0 (Nat.zero_le _) (by omega)
      simp [jfs_rmdir, read_block, hio, hfind, hkind, hfb, hemp]

/-- Witness for C11: the root of `fs_d_file` holds the directory `d` with one
file in it; `b` is absent; in the full root `a.txt` is a file. -/
theorem jfs_rmdir_refusals_witness :
    jfs_rmdir cfg64 fs_d_file name_b = (E_NOT_EXISTS, fs_d_file) ∧
    jfs_rmdir cfg64 fs_full name_a = (E_NOT_DIR, fs_full) ∧
    jfs_rmdir cfg64 fs_d_file name_d = (E_NOT_EMPTY, fs_d_file) :=
  ⟨(jfs_rmdir_refusals cfg64 fs_d_file name_b (by decide)).1 (by decide),
   ((jfs_rmdir_refusals cfg64 fs_full name_a (by decide)).2 1 (by decide)).1 (by decide),
   ((jfs_rmdir_refusals cfg64 fs_d_file name_d (by decide)).2 0 (by decide)).2 (by decide)
     (by decide) ⟨0, by decide, by decide⟩⟩

/-! ## Cases of `jfs_chdir` -/

/-- C13: `jfs_chdir(NULL)` returns success and sets the cursor to block 1
from every state, with no block read (also when the current directory block is
not on the device).  For a name, with the current directory block on the
device: `E_NOT_EXISTS` when the lookup finds no slot; `E_NOT_DIR` when the
first matching used slot is not of kind directory (so for a file); success
with the cursor at the slot's target block when it is of kind directory.
Every call leaves the blocks, the device size and the free pool as they were,
and a call that does not return success leaves the whole state unchanged. -/
theorem jfs_chdir_cases (cfg : Config) (s : FS) :
    jfs_chdir cfg s none = (E_SUCCESS, { s with current_dir := 1 }) ∧
    (∀ dn, (jfs_chdir cfg s dn).2.disk = s.disk ∧ (jfs_chdir cfg s dn).2.nblocks = s.nblocks ∧
      (jfs_chdir cfg s dn).2.free = s.free) ∧
    (∀ dn, (jfs_chdir cfg s dn).1 ≠ E_SUCCESS → (jfs_chdir cfg s dn).2 = s) ∧
    (∀ name, s.current_dir < s.nblocks →
      (find_entry cfg (s.disk s.current_dir) name (max_entries cfg) 0 = none →
        jfs_chdir cfg s (some name) = (E_NOT_EXISTS, s)) ∧
      (∀ i, find_entry cfg (s.disk s.current_dir) name (max_entries cfg) 0 = some i →
        (s.disk s.current_dir (i * entry_size cfg + 1) ≠ 1 →
          jfs_chdir cfg s (some name) = (E_NOT_DIR, s)) ∧
        (s.disk s.current_dir (i * entry_size cfg + 1) = 1 →
          jfs_chdir cfg s (some name) =
            (E_SUCCESS,
              { s with
                current_dir := load16 (s.disk s.current_dir)
                  (i * entry_size cfg + 2 + cfg.MAX_NAME_LENGTH) })))) := by
  refine ⟨rfl, ?_, ?_, ?_⟩
  · intro dn
    cases dn with
    | none => exact ⟨rfl, rfl, rfl⟩
    | some name =>
      unfold jfs_chdir
      dsimp only
      split
      · exact ⟨rfl, rfl, rfl⟩
      · split
        · exact ⟨rfl, rfl, rfl⟩
        · split <;> exact ⟨rfl, rfl, rfl⟩
  · intro dn hne
    cases dn with
    | none => exact absurd rfl hne
    | some name =>
      unfold jfs_chdir at hne ⊢
      dsimp only at hne ⊢
      cases hrd : read_block s s.current_dir with
      | none => rfl
      | some bd =>
        rw [hrd] at hne
        dsimp only at hne ⊢
        cases hf : find_entry cfg bd name (max_entries cfg) 0 with
        | none => rfl
        | some i =>
          rw [hf] at hne
          dsimp only at hne ⊢
          by_cases hk : bd (i * entry_size cfg + 1) = 1
          · rw [if_pos hk] at hne
            exact absurd rfl hne
          · rw [if_neg hk]
  · intro name hio
    constructor
    · intro hfind
      simp [jfs_chdir, read_block, hio, hfind]
    · intro i hfind
      constructor
      · intro hkind
        simp [jfs_chdir, read_block, hio, hfind, hkind]
      · intro hkind
        simp [jfs_chdir, read_block, hio, hfind, hkind]

/-- Witness for C13: from inside `d` back to the root; in the full root the
name `e` is absent, `a.txt` is a file and `d` is a directory in block 2. -/
theorem jfs_chdir_cases_witness :
    jfs_chdir cfg64 fs_in_d none = (E_SUCCESS, { fs_in_d with current_dir := 1 }) ∧
    jfs_chdir cfg64 fs_full (some [101]) = (E_NOT_EXISTS, fs_full) ∧
    jfs_chdir cfg64 fs_full (some name_a) = (E_NOT_DIR, fs_full) ∧
    jfs_chdir cfg64 fs_full (some name_d) = (E_SUCCESS, { fs_full with current_dir := 2 }) :=
  ⟨(jfs_chdir_cases cfg64 fs_in_d).1,
   ((jfs_chdir_cases cfg64 fs_full).2.2.2 [101] (by decide)).1 (by decide),
   (((jfs_chdir_cases cfg64 fs_full).2.2.2 name_a (by decide)).2 1 (by decide)).1 (by decide),
   (((jfs_chdir_cases cfg64 fs_full).2.2.2 name_d (by decide)).2 0 (by decide)).2 (by decide)⟩

/-! ## The listing -/

theorem ls_scan_eq (cfg : Config) (bd : Block) :
    ∀ (k i : Nat) (ds fs : List Name),
      ls_scan cfg bd k i ds fs =
        (ds ++ ((List.range' i k).filter (is_dir_slot cfg bd)).map (slot_name cfg bd),
         fs ++ ((List.range' i k).filter (is_file_slot cfg bd)).map (slot_name cfg bd)) := by
  intro k
  induction k with
  | zero => intro i ds fs; simp [ls_scan]
  | succ k ih =>
    intro i ds fs
    unfold ls_scan
    rw [List.range'_succ]
    by_cases hu : bd (i * entry_size cfg) = 0
    · simp [hu, ih, is_dir_slot, is_file_slot, List.filter_cons]
    · by_cases hk : bd (i * entry_size cfg + 1) = 1
      · simp [hu, hk, ih, is_dir_slot, is_file_slot, List.filter_cons, slot_name]
      · simp [hu, hk, ih, is_dir_slot, is_file_slot, List.filter_cons, slot_name]

theorem filter_dir_file_length (cfg : Config) (bd : Block) (l : List Nat) :
    (l.filter (is_dir_slot cfg bd)).length + (l.filter (is_file_slot cfg bd)).length
      = (l.filter (is_used_slot cfg bd)).length := by
  induction l with
  | nil => rfl
  | cons a l ih =>
    simp only [List.filter_cons, is_dir_slot, is_file_slot, is_used_slot] at ih ⊢
    by_cases hu : bd (a * entry_size cfg) = 0
    · simp [hu, ih]
    · by_cases hk : bd (a * entry_size cfg + 1) = 1
      · simp [hu, hk]; omega
      · simp [hu, hk]; omega

theorem jfs_ls_zero_block (cfg : Config) (s : FS) (hio : s.current_dir < s.nblocks)
    (hz : s.disk s.current_dir = zero_block) : jfs_ls cfg s = (E_SUCCESS, [], []) := by
  simp [jfs_ls, read_block, hio, ls_scan_eq, hz, is_dir_slot, is_file_slot, zero_block]

/-- C16: with the current directory block `bd` on the device, `jfs_ls` returns
success; `directories` is the list of the names of the slots that are used and
of kind directory, `files` the list of the names of the slots that are used
and not of kind directory, each taken over the slot indices `0 .. max_entries
- 1` in ascending order.  Every used slot is in exactly one of the two index
lists and an unused slot in neither (whatever its name bytes), so the two
lists together have as many names as there are used slots, at most
`max_entries`.  And a directory just created by `jfs_mkdir` (new name of valid
length, free slot `j`, block `b` from the free pool with `0 < b < 2^16`, on the
device and not the current directory) lists as two empty sequences after
`jfs_chdir` into it. -/
theorem jfs_ls_partition (cfg : Config) (s : FS) (hio : s.current_dir < s.nblocks) :
    jfs_ls cfg s =
      (E_SUCCESS,
        ((List.range (max_entries cfg)).filter (is_dir_slot cfg (s.disk s.current_dir))).map
          (slot_name cfg (s.disk s.current_dir)),
        ((List.range (max_entries cfg)).filter (is_file_slot cfg (s.disk s.current_dir))).map
          (slot_name cfg (s.disk s.current_dir))) ∧
    ((List.range (max_entries cfg)).filter
      (is_dir_slot cfg (s.disk s.current_dir))).Pairwise (fun a b => a < b) ∧
    ((List.range (max_entries cfg)).filter
      (is_file_slot cfg (s.disk s.current_dir))).Pairwise (fun a b => a < b) ∧
    (∀ i, i < max_entries cfg → s.disk s.current_dir (i * entry_size cfg) ≠ 0 →
      ((i ∈ (List.range (max_entries cfg)).filter (is_dir_slot cfg (s.disk s.current_dir)) ∧
        i ∉ (List.range (max_entries cfg)).filter (is_file_slot cfg (s.disk s.current_dir))) ∨
       (i ∉ (List.range (max_entries cfg)).filter (is_dir_slot cfg (s.disk s.current_dir)) ∧
        i ∈ (List.range (max_entries cfg)).filter
          (is_file_slot cfg (s.disk s.current_dir))))) ∧
    (∀ i, s.disk s.current_dir (i * entry_size cfg) = 0 →
      i ∉ (List.range (max_entries cfg)).filter (is_dir_slot cfg (s.disk s.current_dir)) ∧
      i ∉ (List.range (max_entries cfg)).filter (is_file_slot cfg (s.disk s.current_dir))) ∧
    (jfs_ls cfg s).2.1.length + (jfs_ls cfg s).2.2.length
      = ((List.range (max_entries cfg)).filter
          (is_used_slot cfg (s.disk s.current_dir))).length ∧
    (jfs_ls cfg s).2.1.length + (jfs_ls cfg s).2.2.length ≤ max_entries cfg ∧
    (∀ (name : Name) (j b : Nat) (rest : List Nat),
      strlen name ≤ cfg.MAX_NAME_LENGTH →
      find_entry cfg (s.disk s.current_dir) name (max_entries cfg) 0 = none →
      first_free cfg (s.disk s.current_dir) (max_entries cfg) 0 = some j →
      s.free = b :: rest → b ≠ 0 → b < s.nblocks → b < 65536 → b ≠ s.current_dir →
      (jfs_mkdir cfg s name).1 = E_SUCCESS ∧
      (jfs_chdir cfg (jfs_mkdir cfg s name).2 (some name)).1 = E_SUCCESS ∧
      (jfs_chdir cfg (jfs_mkdir cfg s name).2 (some name)).2.current_dir = b ∧
      jfs_ls cfg (jfs_chdir cfg (jfs_mkdir cfg s name).2 (some name)).2
        = (E_SUCCESS, [], [])) := by
  have hls : jfs_ls cfg s =
      (E_SUCCESS,
        ((List.range (max_entries cfg)).filter (is_dir_slot cfg (s.disk s.current_dir))).map
          (slot_name cfg (s.disk s.current_dir)),
        ((List.range (max_entries cfg)).filter (is_file_slot cfg (s.disk s.current_dir))).map
          (slot_name cfg (s.disk s.current_dir))) := by
    simp [jfs_ls, read_block, hio, ls_scan_eq, List.range_eq_range']
  have hlen := filter_dir_file_length cfg (s.disk s.current_dir) (List.range (max_entries cfg))
  refine ⟨hls, ?_, ?_, ?_, ?_, ?_, ?_, ?_⟩
  · exact List.Pairwise.filter _ (List.pairwise_lt_range _)
  · exact List.Pairwise.filter _ (List.pairwise_lt_range _)
  · intro i hi hu
    by_cases hk : s.disk s.current_dir (i * entry_size cfg + 1) = 1
    · left; simp [List.mem_filter, is_dir_slot, is_file_slot, hi, hu, hk]
    · right; simp [List.mem_filter, is_dir_slot, is_file_slot, hi, hu, hk]
  · intro i hu
    simp [List.mem_filter, is_dir_slot, is_file_slot, hu]
  · rw [hls]
    simpa using hlen
  · rw [hls]
    have h2 : ((List.range (max_entries cfg)).filter
        (is_used_slot cfg (s.disk s.current_dir))).length ≤ max_entries cfg := by
      have := List.length_filter_le (is_used_slot cfg (s.disk s.current_dir))
        (List.range (max_entries cfg))
      simpa using this
    simp only [List.length_map]
    omega
  · intro name j b rest hlen2 hnew hslot hfree hb0 hbn hb16 hbcd
    have hmk := jfs_mkdir_success cfg s name j b rest hlen2 hio hnew hslot hfree hb0 hbn
    have hfind := find_entry_put cfg (s.disk s.current_dir) j 1 name b hnew hslot
    have hcd : (created cfg s j 1 name b rest).disk (created cfg s j 1 name b rest).current_dir
        = put_entry cfg (s.disk s.current_dir) j 1 name b := by
      simp [created]
    have hch : jfs_chdir cfg (created cfg s j 1 name b rest) (some name) =
        (E_SUCCESS, { created cfg s j 1 name b rest with current_dir := b }) := by
      have hio2 : (created cfg s j 1 name b rest).current_dir
          < (created cfg s j 1 name b rest).nblocks := hio
      simp only [jfs_chdir, read_block, hio2, if_true, hcd, hfind, put_entry_kind,
        put_entry_target, Nat.mod_eq_of_lt hb16]
    rw [hmk]
    dsimp only
    rw [hch]
    refine ⟨rfl, rfl, rfl, ?_⟩
    apply jfs_ls_zero_block
    · exact hbn
    · simp [created, hbcd]

/-- Witness for C16: the full root lists `d` as directory and `a.txt`, `b`,
`c` as files; on the fresh device `jfs_mkdir("d")`, `jfs_chdir("d")` and
`jfs_ls` give two empty lists. -/
theorem jfs_ls_partition_witness :
    jfs_ls cfg64 fs_full = (E_SUCCESS, [name_d], [name_a, name_b, name_c]) ∧
    jfs_ls cfg64 (jfs_chdir cfg64 (jfs_mkdir cfg64 fs0 name_d).2 (some name_d)).2
      = (E_SUCCESS, [], []) :=
  ⟨(jfs_ls_partition cfg64 fs_full (by decide)).1,
   ((jfs_ls_partition cfg64 fs0 (by decide)).2.2.2.2.2.2.2 name_d 0 2 [3, 4, 5, 6, 7, 8, 9]
      (by decide) (by decide) (by decide) rfl (by decide) (by decide) (by decide)
      (by decide)).2.2.2⟩

/-! ## The read loop -/

theorem ceil_div_zero (B : Nat) (hB : 0 < B) : ceil_div 0 B = 0 := by
  unfold ceil_div
  exact Nat.div_eq_of_lt (by omega)

theorem ceil_div_small (B r : Nat) (h1 : 1 ≤ r) (h2 : r ≤ B) : ceil_div r B = 1 := by
  unfold ceil_div
  apply Nat.div_eq_of_lt_le <;> omega

theorem ceil_div_sub (B r : Nat) (hB : 0 < B) (h : B < r) :
    ceil_div r B = ceil_div (r - B) B + 1 := by
  unfold ceil_div
  have : r + B - 1 = (r - B + B - 1) + B := by omega
  rw [this, Nat.add_div_right _ hB]

theorem ceil_div_le_self (B r : Nat) (hB : 0 < B) : ceil_div r B ≤ r := by
  unfold ceil_div
  rcases Nat.eq_zero_or_pos r with h | h
  · subst h
    rw [Nat.zero_add, Nat.div_eq_of_lt (by omega)]
  · calc (r + B - 1) / B ≤ (r * B) / B := by
          apply Nat.div_le_div_right
          have : r + B ≤ r * B + 1 := by
            have h1 : 1 ≤ r := h
            have h2 : 1 ≤ B := hB
            nlinarith
          omega
      _ = r := Nat.mul_div_cancel _ hB

theorem read_loop_succ (cfg : Config) (s : FS) (to_read : Nat) :
    ∀ (fuel br cur : Nat) (out : List Nat) (r : Err × List Nat × Nat),
      read_loop cfg s to_read fuel br cur out = some r →
      read_loop cfg s to_read (fuel + 1) br cur out = some r := by
  intro fuel
  induction fuel with
  | zero =>
    intro br cur out r h
    unfold read_loop at h
    split at h
    · cases h
    · rename_i hlt
      unfold read_loop
      rw [if_neg hlt]
      exact h
  | succ fuel ih =>
    intro br cur out r h
    unfold read_loop at h
    unfold read_loop
    split
    · rename_i hlt
      rw [if_pos hlt] at h
      split
      · rename_i hrd
        rw [hrd] at h
        exact h
      · rename_i buf hrd
        rw [hrd] at h
        exact ih _ _ _ _ h
    · rename_i hlt
      rw [if_neg hlt] at h
      exact h

theorem read_loop_mono (cfg : Config) (s : FS) (to_read : Nat) (fuel br cur : Nat)
    (out : List Nat) (r : Err × List Nat × Nat)
    (h : read_loop cfg s to_read fuel br cur out = some r) :
    ∀ f, fuel ≤ f → read_loop cfg s to_read f br cur out = some r := by
  intro f hf
  induction f with
  | zero =>
    have : fuel = 0 := by omega
    subst this
    exact h
  | succ f ih =>
    by_cases e : fuel = f + 1
    · subst e; exact h
    · exact read_loop_succ cfg s to_read f br cur out r (ih (by omega))

theorem read_loop_defined (cfg : Config) (s : FS) (to_read : Nat)
    (hB : 0 < cfg.BLOCK_SIZE) (ht : to_read < 2 ^ 32) :
    ∀ (fuel br cur : Nat) (out : List Nat),
      br ≤ to_read → ceil_div (to_read - br) cfg.BLOCK_SIZE ≤ fuel →
      ∃ r, read_loop cfg s to_read fuel br cur out = some r := by
  intro fuel
  induction fuel with
  | zero =>
    intro br cur out hbr hf
    unfold read_loop
    by_cases hlt : br < to_read
    · have h1 : 1 ≤ ceil_div (to_read - br) cfg.BLOCK_SIZE := by
        unfold ceil_div
        exact (Nat.one_le_div_iff hB).mpr (by omega)
      omega
    · rw [if_neg hlt]
      exact ⟨_, rfl⟩
  | succ fuel ih =>
    intro br cur out hbr hf
    unfold read_loop
    by_cases hlt : br < to_read
    · rw [if_pos hlt]
      split
      · exact ⟨_, rfl⟩
      · dsimp only
        by_cases hbig : to_read - br > cfg.BLOCK_SIZE
        · rw [if_pos hbig, u32_of_lt (by omega)]
          apply ih
          · omega
          · have := ceil_div_sub cfg.BLOCK_SIZE (to_read - br) hB hbig
            have e : to_read - (br + cfg.BLOCK_SIZE) = to_read - br - cfg.BLOCK_SIZE := by omega
            rw [e]
            omega
        · rw [if_neg hbig, u32_of_lt (by omega)]
          apply ih
          · omega
          · have e : to_read - (br + (to_read - br)) = 0 := by omega
            rw [e, ceil_div_zero _ hB]
            omega
    · rw [if_neg hlt]
      exact ⟨_, rfl⟩

/-- A run of the loop that ends with success has copied all the bytes that
were left, and has used `ceil (left / BLOCK_SIZE)` iterations. -/
theorem read_loop_success (cfg : Config) (s : FS) (to_read : Nat)
    (hB : 0 < cfg.BLOCK_SIZE) (ht : to_read < 2 ^ 32) :
    ∀ (fuel br cur : Nat) (out out1 : List Nat) (n : Nat),
      br ≤ to_read →
      read_loop cfg s to_read fuel br cur out = some (E_SUCCESS, out1, n) →
      n = to_read ∧ out1.length = out.length + (to_read - br) ∧
      ceil_div (to_read - br) cfg.BLOCK_SIZE ≤ fuel ∧
      (br < to_read → cur < s.nblocks ∧
        out1.take (out.length + min (to_read - br) cfg.BLOCK_SIZE)
          = out ++ memcpy_out (s.disk cur) (min (to_read - br) cfg.BLOCK_SIZE)) := by
  intro fuel
  induction fuel with
  | zero =>
    intro br cur out out1 n hbr h
    unfold read_loop at h
    split at h
    · cases h
    · rename_i hlt
      cases h
      have e : to_read - br = 0 := by omega
      rw [e, ceil_div_zero _ hB]
      exact ⟨by omega, by omega, le_refl _, fun h => absurd h hlt⟩
  | succ fuel ih =>
    intro br cur out out1 n hbr h
    unfold read_loop at h
    split at h
    · rename_i hlt
      split at h
      · cases h
      · rename_i buf hrd
        have hcur : cur < s.nblocks ∧ buf = s.disk cur := by
          unfold read_block at hrd
          split at hrd
          · rename_i hc
            exact ⟨hc, (Option.some.inj hrd).symm⟩
          · cases hrd
        dsimp only at h
        by_cases hbig : to_read - br > cfg.BLOCK_SIZE
        · rw [if_pos hbig, u32_of_lt (by omega)] at h
          have h2 := ih _ _ _ _ _ (by omega) h
          have hcs := ceil_div_sub cfg.BLOCK_SIZE (to_read - br) hB hbig
          have e : to_read - (br + cfg.BLOCK_SIZE) = to_read - br - cfg.BLOCK_SIZE := by omega
          rw [e] at h2
          have hl : (out ++ memcpy_out buf cfg.BLOCK_SIZE).length
              = out.length + cfg.BLOCK_SIZE := by
            simp [memcpy_out]
          rw [hl] at h2
          refine ⟨h2.1, by omega, by omega, fun _ => ⟨hcur.1, ?_⟩⟩
          have hmin : min (to_read - br) cfg.BLOCK_SIZE = cfg.BLOCK_SIZE := by omega
          rw [hmin, ← hcur.2]
          by_cases hlt2 : br + cfg.BLOCK_SIZE < to_read
          · have h3 := (h2.2.2.2 hlt2).2
            have h4 := congrArg (List.take (out.length + cfg.BLOCK_SIZE)) h3
            rw [List.take_take, ← hl, List.take_left'] at h4
            · rw [← h4, hl]
              congr 1
              omega
            · rfl
          · omega
        · rw [if_neg hbig, u32_of_lt (by omega)] at h
          have h2 := ih _ _ _ _ _ (by omega) h
          have e : to_read - (br + (to_read - br)) = 0 := by omega
          rw [e] at h2
          have hl : (out ++ memcpy_out buf (to_read - br)).length
              = out.length + (to_read - br) := by
            simp [memcpy_out]
          rw [hl] at h2
          rw [ceil_div_small _ _ (by omega) (by omega)]
          refine ⟨h2.1, by omega, by omega, fun _ => ⟨hcur.1, ?_⟩⟩
          have hmin : min (to_read - br) cfg.BLOCK_SIZE = to_read - br := by omega
          rw [hmin, ← hcur.2]
          -- the recursive call is past the end: it returns its accumulator
          have hend : out1 = out ++ memcpy_out buf (to_read - br) := by
            have hnl : ¬ (br + (to_read - br) < to_read) := by omega
            cases fuel with
            | zero =>
              unfold read_loop at h
              rw [if_neg hnl] at h
              cases h; rfl
            | succ f =>
              unfold read_loop at h
              rw [if_neg hnl] at h
              cases h; rfl
          rw [hend, ← hl, List.take_length]
    · rename_i hlt
      cases h
      have e : to_read - br = 0 := by omega
      rw [e, ceil_div_zero _ hB]
      exact ⟨by omega, by omega, Nat.zero_le _, fun h => absurd h hlt⟩

theorem jfs_read_regular (cfg : Config) (s : FS) (name : Name) (c i : Nat)
    (r : Err × List Nat × Nat)
    (hio : s.current_dir < s.nblocks)
    (hfind : find_entry cfg (s.disk s.current_dir) name (max_entries cfg) 0 = some i)
    (hkind : s.disk s.current_dir (i * entry_size cfg + 1) = 0)
    (hfb : load16 (s.disk s.current_dir) (i * entry_size cfg + 2 + cfg.MAX_NAME_LENGTH)
      < s.nblocks)
    (hr : read_loop cfg s
          (min c (load32 (s.disk (load16 (s.disk s.current_dir)
            (i * entry_size cfg + 2 + cfg.MAX_NAME_LENGTH))) 0))
          (min c (load32 (s.disk (load16 (s.disk s.current_dir)
            (i * entry_size cfg + 2 + cfg.MAX_NAME_LENGTH))) 0)) 0
          (load16 (s.disk (load16 (s.disk s.current_dir)
            (i * entry_size cfg + 2 + cfg.MAX_NAME_LENGTH))) 4) [] = some r) :
    jfs_read cfg s name c = some (if r.1 = E_SUCCESS then r else (r.1, r.2.1, c)) := by
  have hmin : ∀ a b : Nat, (if a > b then b else a) = min a b := by
    intro a b; split <;> omega
  obtain ⟨e, o, m⟩ := r
  simp only [jfs_read, read_block, hio, hfind, hkind, hfb, if_true, ne_eq, not_true_eq_false,
    if_false, hmin, hr]
  cases e <;> simp

/-- C14: with a positive block size and the current directory block on the
device, `jfs_read(name)` with `*ptr_count = c` returns `E_NOT_EXISTS` for an
absent name and `E_IS_DIR` for an entry whose kind byte is not 0, leaving
`*ptr_count = c` and copying nothing.  For a regular file (kind byte 0,
metadata block on the device) with stored size `sz` and head block `head`,
the call has a result, and when that result is success: the final
`*ptr_count` is `min c sz`, exactly `min c sz` bytes are copied, the first
`min (min c sz) BLOCK_SIZE` of them are the first bytes of the head block,
and the loop, given a budget of `fuel` iterations (one `read_block` each),
completes exactly when `fuel ≥ ceil (min c sz / BLOCK_SIZE)`.  The function
only reads: its embedding has no state to return. -/
theorem jfs_read_count (cfg : Config) (s : FS) (name : Name) (c : Nat)
    (hB : 0 < cfg.BLOCK_SIZE) (hio : s.current_dir < s.nblocks) :
    (find_entry cfg (s.disk s.current_dir) name (max_entries cfg) 0 = none →
      jfs_read cfg s name c = some (E_NOT_EXISTS, [], c)) ∧
    (∀ i, find_entry cfg (s.disk s.current_dir) name (max_entries cfg) 0 = some i →
      (s.disk s.current_dir (i * entry_size cfg + 1) ≠ 0 →
        jfs_read cfg s name c = some (E_IS_DIR, [], c)) ∧
      (s.disk s.current_dir (i * entry_size cfg + 1) = 0 →
        load16 (s.disk s.current_dir) (i * entry_size cfg + 2 + cfg.MAX_NAME_LENGTH)
          < s.nblocks →
        (∃ r, jfs_read cfg s name c = some r) ∧
        (∀ out n, jfs_read cfg s name c = some (E_SUCCESS, out, n) →
          n = min c (load32 (s.disk (load16 (s.disk s.current_dir)
            (i * entry_size cfg + 2 + cfg.MAX_NAME_LENGTH))) 0) ∧
          out.length = min c (load32 (s.disk (load16 (s.disk s.current_dir)
            (i * entry_size cfg + 2 + cfg.MAX_NAME_LENGTH))) 0) ∧
          out.take (min (min c (load32 (s.disk (load16 (s.disk s.current_dir)
              (i * entry_size cfg + 2 + cfg.MAX_NAME_LENGTH))) 0)) cfg.BLOCK_SIZE)
            = memcpy_out (s.disk (load16 (s.disk (load16 (s.disk s.current_dir)
                (i * entry_size cfg + 2 + cfg.MAX_NAME_LENGTH))) 4))
              (min (min c (load32 (s.disk (load16 (s.disk s.current_dir)
                (i * entry_size cfg + 2 + cfg.MAX_NAME_LENGTH))) 0)) cfg.BLOCK_SIZE) ∧
          (∀ fuel,
            (∃ o m, read_loop cfg s
                (min c (load32 (s.disk (load16 (s.disk s.current_dir)
                  (i * entry_size cfg + 2 + cfg.MAX_NAME_LENGTH))) 0)) fuel 0
                (load16 (s.disk (load16 (s.disk s.current_dir)
                  (i * entry_size cfg + 2 + cfg.MAX_NAME_LENGTH))) 4) []
                = some (E_SUCCESS, o, m)) ↔
            ceil_div (min c (load32 (s.disk (load16 (s.disk s.current_dir)
              (i * entry_size cfg + 2 + cfg.MAX_NAME_LENGTH))) 0)) cfg.BLOCK_SIZE
              ≤ fuel)))) := by
  constructor
  · intro hfind
    simp [jfs_read, read_block, hio, hfind]
  · intro i hfind
    constructor
    · intro hkind
      simp [jfs_read, read_block, hio, hfind, hkind]
    · intro hkind hfb
      have hreg := jfs_read_regular cfg s name c i
      revert hreg hfb
      generalize load16 (s.disk s.current_dir)
        (i * entry_size cfg + 2 + cfg.MAX_NAME_LENGTH) = fb
      generalize htr : min c (load32 (s.disk fb) 0) = tr
      generalize load16 (s.disk fb) 4 = head
      intro hfb hreg
      have ht : tr < 2 ^ 32 := by
        have := load32_lt (s.disk fb) 0
        omega
      have hcd : ceil_div tr cfg.BLOCK_SIZE ≤ tr := ceil_div_le_self _ _ hB
      obtain ⟨r0, hr0⟩ := read_loop_defined cfg s tr hB ht (ceil_div tr cfg.BLOCK_SIZE) 0 head []
        (Nat.zero_le _) (by simp)
      have hrt := read_loop_mono cfg s tr _ 0 head [] r0 hr0 tr hcd
      have hjr := hreg r0 hio hfind hkind hfb hrt
      rw [hjr]
      constructor
      · exact ⟨_, rfl⟩
      · intro out n h
        have hsucc : r0 = (E_SUCCESS, out, n) := by
          have h1 := Option.some.inj h
          by_cases he : r0.1 = E_SUCCESS
          · rw [if_pos he] at h1
            exact h1
          · rw [if_neg he] at h1
            exact absurd (congrArg Prod.fst h1) he
        subst hsucc
        have h2 := read_loop_success cfg s tr hB ht tr 0 head [] out n (Nat.zero_le _) hrt
        simp only [List.length_nil, Nat.zero_add, Nat.sub_zero, List.nil_append] at h2
        refine ⟨h2.1, h2.2.1, ?_, ?_⟩
        · rcases Nat.eq_zero_or_pos tr with h0 | h0
          · subst h0
            simp [memcpy_out]
          · exact (h2.2.2.2 h0).2
        · intro fuel
          constructor
          · rintro ⟨o, m, hf⟩
            have h3 := read_loop_success cfg s tr hB ht fuel 0 head [] o m (Nat.zero_le _) hf
            simpa using h3.2.2.1
          · intro hf
            exact ⟨out, n, read_loop_mono cfg s tr _ 0 head [] _ hr0 fuel hf⟩

/-- Witness for C14: the file `a.txt` of size 100 read with capacity 200 (two
blocks read, 100 bytes), the directory `d` and the absent name `b`. -/
theorem jfs_read_count_witness :
    jfs_read cfg64 fs_d_file name_b 7 = some (E_NOT_EXISTS, [], 7) ∧
    jfs_read cfg64 fs_d_file name_d 7 = some (E_IS_DIR, [], 7) ∧
    (∃ r, jfs_read cfg64 fs_x100 name_a 200 = some r) ∧
    (∀ out n, jfs_read cfg64 fs_x100 name_a 200 = some (E_SUCCESS, out, n) →
      n = 100 ∧ out.length = 100) :=
  have h := jfs_read_count cfg64 fs_x100 name_a 200 (by decide) (by decide)
  ⟨(jfs_read_count cfg64 fs_d_file name_b 7 (by decide) (by decide)).1 (by decide),
   ((jfs_read_count cfg64 fs_d_file name_d 7 (by decide) (by decide)).2 0 (by decide)).1
     (by decide),
   ((h.2 0 (by decide)).2 (by decide) (by decide)).1,
   fun out n hr =>
     ⟨(((h.2 0 (by decide)).2 (by decide) (by decide)).2 out n hr).1,
      (((h.2 0 (by decide)).2 (by decide) (by decide)).2 out n hr).2.1⟩⟩

/-! ## Valid names -/

theorem strlen_valid : ∀ (n : Name), 0 ∉ n → strlen n = n.length := by
  intro n
  induction n with
  | nil => intro _; rfl
  | cons c cs ih =>
    intro h
    have hc : c ≠ 0 := fun e => h (e ▸ List.mem_cons_self _ _)
    have hcs : 0 ∉ cs := fun e => h (List.mem_cons_of_mem _ e)
    simp [strlen, hc, ih hcs]

theorem strncmp_valid : ∀ (N : Nat) (m n : Name), 0 ∉ m → 0 ∉ n →
    m.length ≤ N → n.length ≤ N →
    (strncmp_eq0 (cstr m) (cstr n) N = true ↔ m = n) := by
  intro N
  induction N with
  | zero =>
    intro m n _ _ hm hn
    have e1 : m = [] := List.length_eq_zero.mp (by omega)
    have e2 : n = [] := List.length_eq_zero.mp (by omega)
    simp [e1, e2, strncmp_eq0]
  | succ N ih =>
    intro m n hm0 hn0 hm hn
    cases m with
    | nil =>
      cases n with
      | nil => simp [strncmp_eq0, cstr]
      | cons d ds =>
        have hd : d ≠ 0 := fun e => hn0 (e ▸ List.mem_cons_self _ _)
        have : ¬ (0 = d) := fun e => hd e.symm
        simp [strncmp_eq0, cstr, this]
    | cons c cs =>
      have hc : c ≠ 0 := fun e => hm0 (e ▸ List.mem_cons_self _ _)
      have hcs : 0 ∉ cs := fun e => hm0 (List.mem_cons_of_mem _ e)
      cases n with
      | nil => simp [strncmp_eq0, cstr, hc]
      | cons d ds =>
        have hds : 0 ∉ ds := fun e => hn0 (List.mem_cons_of_mem _ e)
        unfold strncmp_eq0
        have h0 : cstr (c :: cs) 0 = c := by simp [cstr]
        have h1 : cstr (d :: ds) 0 = d := by simp [cstr]
        rw [h0, h1, cstr_cons_succ, cstr_cons_succ]
        by_cases hcd : c = d
        · subst hcd
          simp only [ne_eq, not_true_eq_false, if_false, hc]
          rw [ih cs ds hcs hds (by simpa using hm) (by simpa using hn)]
          simp
        · simp [hcd]

theorem map_cstr_range : ∀ (n : Name) (N : Nat), n.length ≤ N →
    (List.range N).map (cstr n) = n ++ List.replicate (N - n.length) 0 := by
  intro n N h
  apply List.ext_getElem
  · simp; omega
  · intro i h1 h2
    simp only [List.getElem_map, List.getElem_range, cstr]
    by_cases hi : i < n.length
    · rw [List.getElem_append_left hi]
      simp [List.getD_eq_getElem?_getD, hi]
    · rw [List.getElem_append_right (by omega)]
      have hnone : n[i]? = none := List.getElem?_eq_none (by omega)
      simp [List.getD_eq_getElem?_getD, hnone]

theorem name_of_valid (cfg : Config) (n : Name) (h : valid_name cfg n) :
    name_of (cstr n) cfg.MAX_NAME_LENGTH = n := by
  unfold name_of
  rw [map_cstr_range n _ h.2]
  have h1 : ∀ x ∈ n, (fun c => decide (c ≠ 0)) x = true := by
    intro x hx
    have : x ≠ 0 := fun e => h.1 (e ▸ hx)
    simp [this]
  rw [List.takeWhile_append_of_pos h1]
  cases hN : cfg.MAX_NAME_LENGTH - n.length with
  | zero => simp
  | succ k => simp [List.replicate_succ]

/-! ## The name-length limit -/

theorem jfs_creat_code_of_short (cfg : Config) (s : FS) (name : Name)
    (hlen : strlen name ≤ cfg.MAX_NAME_LENGTH) :
    (jfs_creat cfg s name).1 ≠ E_MAX_NAME_LENGTH := by
  unfold jfs_creat
  rw [if_neg (by omega)]
  cases hrd : read_block s s.current_dir with
  | none => simp
  | some bd =>
    dsimp only
    cases hsc : creat_scan cfg bd name (max_entries cfg) 0 none with
    | error e =>
      have := (creat_scan_error cfg _ name _ _ _ e hsc).1
      subst this
      simp
    | ok fe =>
      cases fe with
      | none => simp
      | some j =>
        dsimp only
        split
        · simp
        · split
          · simp
          · split <;> simp

theorem jfs_mkdir_code_of_short (cfg : Config) (s : FS) (name : Name)
    (hlen : strlen name ≤ cfg.MAX_NAME_LENGTH) :
    (jfs_mkdir cfg s name).1 ≠ E_MAX_NAME_LENGTH := by
  unfold jfs_mkdir
  rw [if_neg (by omega)]
  cases hrd : read_block s s.current_dir with
  | none => simp
  | some bd =>
    dsimp only
    cases hsc : mkdir_scan cfg bd name (max_entries cfg) 0 none with
    | error e =>
      have := (mkdir_scan_error cfg _ name _ _ _ e hsc).1
      subst this
      simp
    | ok fe =>
      cases fe with
      | none => simp
      | some j =>
        dsimp only
        split
        · simp
        · split
          · simp
          · split <;> simp

/-- What `jfs_stat` reports for the entry a creation has just put into slot
`j`. -/
theorem jfs_stat_created (cfg : Config) (s : FS) (name : Name) (j kind b : Nat)
    (rest : List Nat) (st : Stats)
    (hv : valid_name cfg name) (hio : s.current_dir < s.nblocks)
    (hnew : find_entry cfg (s.disk s.current_dir) name (max_entries cfg) 0 = none)
    (hslot : first_free cfg (s.disk s.current_dir) (max_entries cfg) 0 = some j)
    (hbn : b < s.nblocks) (hb16 : b < 65536) :
    (jfs_stat cfg (created cfg s j kind name b rest) name st).1 = E_SUCCESS ∧
    (jfs_stat cfg (created cfg s j kind name b rest) name st).2.name = name ∧
    (jfs_stat cfg (created cfg s j kind name b rest) name st).2.block_num = b ∧
    (jfs_stat cfg (created cfg s j kind name b rest) name st).2.is_dir = kind := by
  have hfind := find_entry_put cfg (s.disk s.current_dir) j kind name b hnew hslot
  have hcd : (created cfg s j kind name b rest).disk (created cfg s j kind name b rest).current_dir
      = put_entry cfg (s.disk s.current_dir) j kind name b := by
    simp [created]
  have hio2 : (created cfg s j kind name b rest).current_dir
      < (created cfg s j kind name b rest).nblocks := hio
  have hbn2 : b < (created cfg s j kind name b rest).nblocks := hbn
  unfold jfs_stat
  simp only [read_block, hio2, if_true, hcd, hfind, put_entry_kind, put_entry_target,
    Nat.mod_eq_of_lt hb16, name_of_valid cfg name hv, hbn2]
  by_cases hk : kind = 0
  · subst hk
    simp
  · simp [hk]

/-- C15: `jfs_mkdir(name)` and `jfs_creat(name)` return `E_MAX_NAME_LENGTH`
exactly when `strlen(name) > MAX_NAME_LENGTH`.  For an over-long name that is
the result in every state (whatever the directory holds, whether or not the
current directory block can be read) and the state is unchanged.  A valid name
(so also one of exactly `MAX_NAME_LENGTH` bytes) that is new is created in the
lowest free slot `j` with the block `b` the allocator hands out (`0 < b <
2^16`, on the device), and `jfs_stat` then finds it under that same name, with
the kind of the creation and target `b`. -/
theorem name_length_limit (cfg : Config) (s : FS) (name : Name) :
    ((jfs_mkdir cfg s name).1 = E_MAX_NAME_LENGTH ↔ strlen name > cfg.MAX_NAME_LENGTH) ∧
    ((jfs_creat cfg s name).1 = E_MAX_NAME_LENGTH ↔ strlen name > cfg.MAX_NAME_LENGTH) ∧
    (strlen name > cfg.MAX_NAME_LENGTH →
      jfs_mkdir cfg s name = (E_MAX_NAME_LENGTH, s) ∧
      jfs_creat cfg s name = (E_MAX_NAME_LENGTH, s)) ∧
    (∀ (j b : Nat) (rest : List Nat) (st : Stats),
      valid_name cfg name → s.current_dir < s.nblocks →
      find_entry cfg (s.disk s.current_dir) name (max_entries cfg) 0 = none →
      first_free cfg (s.disk s.current_dir) (max_entries cfg) 0 = some j →
      s.free = b :: rest → b ≠ 0 → b < s.nblocks → b < 65536 →
      ((jfs_creat cfg s name).1 = E_SUCCESS ∧
        (jfs_stat cfg (jfs_creat cfg s name).2 name st).1 = E_SUCCESS ∧
        (jfs_stat cfg (jfs_creat cfg s name).2 name st).2.name = name ∧
        (jfs_stat cfg (jfs_creat cfg s name).2 name st).2.block_num = b ∧
        (jfs_stat cfg (jfs_creat cfg s name).2 name st).2.is_dir = 0) ∧
      ((jfs_mkdir cfg s name).1 = E_SUCCESS ∧
        (jfs_stat cfg (jfs_mkdir cfg s name).2 name st).1 = E_SUCCESS ∧
        (jfs_stat cfg (jfs_mkdir cfg s name).2 name st).2.name = name ∧
        (jfs_stat cfg (jfs_mkdir cfg s name).2 name st).2.block_num = b ∧
        (jfs_stat cfg (jfs_mkdir cfg s name).2 name st).2.is_dir = 1)) := by
  have hlong : strlen name > cfg.MAX_NAME_LENGTH →
      jfs_mkdir cfg s name = (E_MAX_NAME_LENGTH, s) ∧
      jfs_creat cfg s name = (E_MAX_NAME_LENGTH, s) := by
    intro h
    constructor
    · unfold jfs_mkdir; rw [if_pos h]
    · unfold jfs_creat; rw [if_pos h]
  refine ⟨⟨?_, fun h => by rw [(hlong h).1]⟩, ⟨?_, fun h => by rw [(hlong h).2]⟩, hlong, ?_⟩
  · intro h
    by_contra hn
    exact jfs_mkdir_code_of_short cfg s name (by omega) h
  · intro h
    by_contra hn
    exact jfs_creat_code_of_short cfg s name (by omega) h
  · intro j b rest st hv hio hnew hslot hfree hb0 hbn hb16
    have hlen : strlen name ≤ cfg.MAX_NAME_LENGTH := by
      rw [strlen_valid name hv.1]; exact hv.2
    rw [jfs_creat_success cfg s name j b rest hlen hio hnew hslot hfree hb0 hbn,
      jfs_mkdir_success cfg s name j b rest hlen hio hnew hslot hfree hb0 hbn]
    exact ⟨⟨rfl, jfs_stat_created cfg s name j 0 b rest st hv hio hnew hslot hbn hb16⟩,
      ⟨rfl, jfs_stat_created cfg s name j 1 b rest st hv hio hnew hslot hbn hb16⟩⟩

/-- Witness for C15: the 13-byte name is refused in a full directory that
holds its first 12 bytes as a name; the 12-byte name is created on the device
that holds `d`, and found by `jfs_stat`. -/
theorem name_length_limit_witness :
    jfs_mkdir cfg64 fs_full_12 name_13 = (E_MAX_NAME_LENGTH, fs_full_12) ∧
    jfs_creat cfg64 fs_full_12 name_13 = (E_MAX_NAME_LENGTH, fs_full_12) ∧
    (jfs_creat cfg64 fs_d name_12).1 = E_SUCCESS ∧
    (jfs_stat cfg64 (jfs_creat cfg64 fs_d name_12).2 name_12 stats0).1 = E_SUCCESS ∧
    (jfs_stat cfg64 (jfs_creat cfg64 fs_d name_12).2 name_12 stats0).2.name = name_12 :=
  have h := ((name_length_limit cfg64 fs_d name_12).2.2.2 1 3 [4, 5, 6, 7, 8, 9] stats0
    ⟨by decide, by decide⟩ (by decide) (by decide) (by decide) rfl (by decide) (by decide)
    (by decide)).1
  ⟨((name_length_limit cfg64 fs_full_12 name_13).2.2.1 (by decide)).1,
   ((name_length_limit cfg64 fs_full_12 name_13).2.2.1 (by decide)).2,
   h.1, h.2.1, h.2.2.1⟩

/-! ## Directory capacity -/

theorem dir_rep_hit (cfg : Config) (nb : Nat) (bd : Block) (D : Nat → Option Name)
    (h : dir_rep cfg nb bd D) (n : Name) (hn : valid_name cfg n) (i : Nat)
    (hi : i < max_entries cfg) :
    slot_hit cfg bd n i ↔ D i = some n := by
  have hr := h i hi
  unfold slot_hit
  cases hD : D i with
  | none =>
    have := hr.1 hD
    simp [this]
  | some m =>
    obtain ⟨h1, h2, h3, _⟩ := hr.2 m hD
    rw [h1, strncmp_eq0_congr cfg.MAX_NAME_LENGTH
      (fun k => bd (i * entry_size cfg + 2 + k)) (padded m) (cstr n) (cstr n) h3
      (fun _ _ => rfl), strncmp_eq0_symm, strncmp_eq0_padded, strncmp_eq0_symm,
      strncmp_valid _ m n h2.1 hn.1 h2.2 hn.2]
    simp

theorem dir_rep_find_none (cfg : Config) (nb : Nat) (bd : Block) (D : Nat → Option Name)
    (h : dir_rep cfg nb bd D) (n : Name) (hn : valid_name cfg n)
    (hnew : ∀ i, i < max_entries cfg → D i ≠ some n) :
    find_entry cfg bd n (max_entries cfg) 0 = none := by
  rw [find_entry_none_iff]
  intro j _ hj
  rw [dir_rep_hit cfg nb bd D h n hn j (by omega)]
  exact hnew j (by omega)

theorem dir_rep_full (cfg : Config) (nb : Nat) (bd : Block) (D : Nat → Option Name)
    (h : dir_rep cfg nb bd D) (hfull : ∀ i, i < max_entries cfg → D i ≠ none) :
    first_free cfg bd (max_entries cfg) 0 = none := by
  rw [first_free_none_iff]
  intro j _ hj
  cases hD : D j with
  | none => exact absurd hD (hfull j (by omega))
  | some m => rw [((h j (by omega)).2 m hD).1]; decide

theorem dir_rep_first_free (cfg : Config) (nb : Nat) (bd : Block) (D : Nat → Option Name)
    (h : dir_rep cfg nb bd D) (j : Nat) (hj : j < max_entries cfg) (hnone : D j = none)
    (hbefore : ∀ i, i < j → D i ≠ none) :
    first_free cfg bd (max_entries cfg) 0 = some j := by
  rw [first_free_some_iff]
  refine ⟨Nat.zero_le _, by omega, (h j hj).1 hnone, ?_⟩
  intro i _ hi
  cases hD : D i with
  | none => exact absurd hD (hbefore i hi)
  | some m => rw [((h i (by omega)).2 m hD).1]; decide

theorem dir_rep_put (cfg : Config) (nb : Nat) (bd : Block) (D : Nat → Option Name)
    (h : dir_rep cfg nb bd D) (j kind : Nat) (n : Name) (b : Nat)
    (hn : valid_name cfg n) (hb0 : b ≠ 0) (hbn : b < nb) (hb16 : b < 65536) :
    dir_rep cfg nb (put_entry cfg bd j kind n b) (fun i => if i = j then some n else D i) := by
  have hes : entry_size cfg = 1 + 1 + cfg.MAX_NAME_LENGTH + 2 := rfl
  intro i hi
  by_cases hij : i = j
  · subst hij
    constructor
    · intro e
      simp at e
    intro m hm
    have : n = m := by simpa using hm
    subst this
    refine ⟨put_entry_flag _ _ _ _ _ _, hn, fun k hk => put_entry_name _ _ _ _ _ _ k hk, ?_, ?_⟩
    · rw [put_entry_target, Nat.mod_eq_of_lt hb16]; exact hb0
    · rw [put_entry_target, Nat.mod_eq_of_lt hb16]; exact hbn
  · simp only [hij, if_false]
    have hr := h i hi
    have hbyte : ∀ t, t < entry_size cfg →
        put_entry cfg bd j kind n b (i * entry_size cfg + t) = bd (i * entry_size cfg + t) :=
      fun t ht => put_entry_other cfg bd j kind n b i t hij ht
    have h0 := hbyte 0 (by omega)
    rw [Nat.add_zero] at h0
    have hl : load16 (put_entry cfg bd j kind n b)
        (i * entry_size cfg + 2 + cfg.MAX_NAME_LENGTH)
        = load16 bd (i * entry_size cfg + 2 + cfg.MAX_NAME_LENGTH) := by
      unfold load16
      have ha := hbyte (2 + cfg.MAX_NAME_LENGTH) (by omega)
      have hb := hbyte (2 + cfg.MAX_NAME_LENGTH + 1) (by omega)
      simp only [← Nat.add_assoc] at ha hb
      rw [ha, hb]
    rw [h0, hl]
    refine ⟨hr.1, ?_⟩
    intro m hm
    obtain ⟨h1, h2, h3, h4⟩ := hr.2 m hm
    refine ⟨h1, h2, ?_, h4⟩
    intro k hk
    have := hbyte (2 + k) (by omega)
    simp only [← Nat.add_assoc] at this
    rw [this, h3 k hk]

theorem dir_rep_clear (cfg : Config) (nb : Nat) (bd : Block) (D : Nat → Option Name)
    (h : dir_rep cfg nb bd D) (p : Nat) :
    dir_rep cfg nb (setb bd (p * entry_size cfg) 0) (fun i => if i = p then none else D i) := by
  have hes : entry_size cfg = 1 + 1 + cfg.MAX_NAME_LENGTH + 2 := rfl
  intro i hi
  by_cases hip : i = p
  · subst hip
    constructor
    · intro _
      simp [setb]
    · intro m hm
      simp at hm
  · simp only [hip, if_false]
    have hr := h i hi
    have hbyte : ∀ t, t < entry_size cfg →
        setb bd (p * entry_size cfg) 0 (i * entry_size cfg + t) = bd (i * entry_size cfg + t) := by
      intro t ht
      unfold setb
      rw [if_neg]
      have := slot_disjoint (entry_size cfg) i p t 0 hip ht (by omega)
      simpa using this
    have h0 := hbyte 0 (by omega)
    rw [Nat.add_zero] at h0
    have hl : load16 (setb bd (p * entry_size cfg) 0)
        (i * entry_size cfg + 2 + cfg.MAX_NAME_LENGTH)
        = load16 bd (i * entry_size cfg + 2 + cfg.MAX_NAME_LENGTH) := by
      unfold load16
      have ha := hbyte (2 + cfg.MAX_NAME_LENGTH) (by omega)
      have hb := hbyte (2 + cfg.MAX_NAME_LENGTH + 1) (by omega)
      simp only [← Nat.add_assoc] at ha hb
      rw [ha, hb]
    rw [h0, hl]
    refine ⟨hr.1, ?_⟩
    intro m hm
    obtain ⟨h1, h2, h3, h4⟩ := hr.2 m hm
    refine ⟨h1, h2, ?_, h4⟩
    intro k hk
    have := hbyte (2 + k) (by omega)
    simp only [← Nat.add_assoc] at this
    rw [this, h3 k hk]

theorem create_success (cfg : Config) (s : FS) (D : Nat → Option Name) (op : Bool × Name)
    (j b : Nat) (rest : List Nat)
    (hio : s.current_dir < s.nblocks)
    (hrep : dir_rep cfg s.nblocks (s.disk s.current_dir) D)
    (hv : valid_name cfg op.2)
    (hnew : ∀ i, i < max_entries cfg → D i ≠ some op.2)
    (hj : j < max_entries cfg) (hnone : D j = none) (hbefore : ∀ i, i < j → D i ≠ none)
    (hfree : s.free = b :: rest) (hb0 : b ≠ 0) (hbn : b < s.nblocks) (hb16 : b < 65536) :
    ∃ s1, create cfg s op = (E_SUCCESS, s1) ∧
      s1.current_dir = s.current_dir ∧ s1.nblocks = s.nblocks ∧ s1.free = rest ∧
      dir_rep cfg s1.nblocks (s1.disk s1.current_dir)
        (fun i => if i = j then some op.2 else D i) := by
  have hlen : strlen op.2 ≤ cfg.MAX_NAME_LENGTH := by
    rw [strlen_valid op.2 hv.1]; exact hv.2
  have hfind := dir_rep_find_none cfg _ _ D hrep op.2 hv hnew
  have hslot := dir_rep_first_free cfg _ _ D hrep j hj hnone hbefore
  refine ⟨created cfg s j (if op.1 = true then 1 else 0) op.2 b rest, ?_, rfl, rfl, rfl, ?_⟩
  · unfold create
    by_cases hk : op.1 = true
    · rw [if_pos hk, if_pos hk]
      exact jfs_mkdir_success cfg s op.2 j b rest hlen hio hfind hslot hfree hb0 hbn
    · rw [if_neg hk, if_neg hk]
      exact jfs_creat_success cfg s op.2 j b rest hlen hio hfind hslot hfree hb0 hbn
  · have hcd : (created cfg s j (if op.1 = true then 1 else 0) op.2 b rest).disk
        (created cfg s j (if op.1 = true then 1 else 0) op.2 b rest).current_dir
        = put_entry cfg (s.disk s.current_dir) j (if op.1 = true then 1 else 0) op.2 b := by
      simp [created]
    rw [hcd]
    exact dir_rep_put cfg s.nblocks _ D hrep j _ op.2 b hv hb0 hbn hb16

theorem create_full (cfg : Config) (s : FS) (D : Nat → Option Name) (op : Bool × Name)
    (hio : s.current_dir < s.nblocks)
    (hrep : dir_rep cfg s.nblocks (s.disk s.current_dir) D)
    (hv : valid_name cfg op.2)
    (hnew : ∀ i, i < max_entries cfg → D i ≠ some op.2)
    (hfull : ∀ i, i < max_entries cfg → D i ≠ none) :
    create cfg s op = (E_MAX_DIR_ENTRIES, s) := by
  have hlen : strlen op.2 ≤ cfg.MAX_NAME_LENGTH := by
    rw [strlen_valid op.2 hv.1]; exact hv.2
  have hfind := dir_rep_find_none cfg _ _ D hrep op.2 hv hnew
  have hslot := dir_rep_full cfg _ _ D hrep hfull
  unfold create
  split
  · exact jfs_mkdir_full cfg s op.2 hlen hio hfind hslot
  · exact jfs_creat_full cfg s op.2 hlen hio hfind hslot

/-- What a successful `jfs_remove` has done. -/
theorem jfs_remove_success (cfg : Config) (s s2 : FS) (name : Name)
    (h : jfs_remove cfg s name = (E_SUCCESS, s2)) :
    s.current_dir < s.nblocks ∧
    ∃ i, find_entry cfg (s.disk s.current_dir) name (max_entries cfg) 0 = some i ∧
      s2.current_dir = s.current_dir ∧ s2.nblocks = s.nblocks ∧
      s2.free = load16 (s.disk s.current_dir) (i * entry_size cfg + 2 + cfg.MAX_NAME_LENGTH)
        :: s.free ∧
      s2.disk = fun x =>
        if x = s.current_dir then setb (s.disk s.current_dir) (i * entry_size cfg) 0
        else s.disk x := by
  unfold jfs_remove at h
  cases hrd : read_block s s.current_dir with
  | none => rw [hrd] at h; simp at h
  | some bd =>
    have hio : s.current_dir < s.nblocks ∧ bd = s.disk s.current_dir := by
      unfold read_block at hrd
      split at hrd
      · rename_i hc; exact ⟨hc, (Option.some.inj hrd).symm⟩
      · cases hrd
    rw [hrd] at h
    dsimp only at h
    cases hf : find_entry cfg bd name (max_entries cfg) 0 with
    | none => rw [hf] at h; simp at h
    | some i =>
      rw [hf] at h
      dsimp only at h
      split at h
      · simp at h
      · split at h
        · simp at h
        · rename_i s3 hw
          have hw2 := write_block_some _ _ _ _ hw
          have e : s3 = s2 := by
            have := congrArg Prod.snd h
            exact this
          subst e
          refine ⟨hio.1, i, hio.2 ▸ hf, ?_, ?_, ?_, ?_⟩
          · rw [hw2.2.2.2.1]; rfl
          · rw [hw2.2.1]; rfl
          · rw [hw2.2.2.1, ← hio.2]; rfl
          · rw [hw2.2.2.2.2, ← hio.2]; rfl

/-- What a successful `jfs_rmdir` has done. -/
theorem jfs_rmdir_success (cfg : Config) (s s2 : FS) (name : Name)
    (h : jfs_rmdir cfg s name = (E_SUCCESS, s2)) :
    s.current_dir < s.nblocks ∧
    ∃ i, find_entry cfg (s.disk s.current_dir) name (max_entries cfg) 0 = some i ∧
      s2.current_dir = s.current_dir ∧ s2.nblocks = s.nblocks ∧
      s2.free = load16 (s.disk s.current_dir) (i * entry_size cfg + 2 + cfg.MAX_NAME_LENGTH)
        :: s.free ∧
      s2.disk = fun x =>
        if x = s.current_dir then setb (s.disk s.current_dir) (i * entry_size cfg) 0
        else s.disk x := by
  unfold jfs_rmdir at h
  cases hrd : read_block s s.current_dir with
  | none => rw [hrd] at h; simp at h
  | some bd =>
    have hio : s.current_dir < s.nblocks ∧ bd = s.disk s.current_dir := by
      unfold read_block at hrd
      split at hrd
      · rename_i hc; exact ⟨hc, (Option.some.inj hrd).symm⟩
      · cases hrd
    rw [hrd] at h
    dsimp only at h
    cases hf : find_entry cfg bd name (max_entries cfg) 0 with
    | none => rw [hf] at h; simp at h
    | some i =>
      rw [hf] at h
      dsimp only at h
      split at h
      · simp at h
      · split at h
        · simp at h
        · split at h
          · split at h
            · simp at h
            · rename_i s3 hw
              have hw2 := write_block_some _ _ _ _ hw
              have e : s3 = s2 := by
                have := congrArg Prod.snd h
                exact this
              subst e
              refine ⟨hio.1, i, hio.2 ▸ hf, ?_, ?_, ?_, ?_⟩
              · rw [hw2.2.2.2.1]; rfl
              · rw [hw2.2.1]; rfl
              · rw [hw2.2.2.1, ← hio.2]; rfl
              · rw [hw2.2.2.2.2, ← hio.2]; rfl
          · simp at h

theorem getElem?_append_singleton (pre : List Name) (x : Name) (i : Nat) :
    (pre ++ [x])[i]? = if i = pre.length then some x else pre[i]? := by
  by_cases h1 : i < pre.length
  · rw [List.getElem?_append_left h1, if_neg (by omega)]
  · by_cases h2 : i = pre.length
    · subst h2
      simp
    · rw [if_neg h2, List.getElem?_eq_none (by simp; omega), List.getElem?_eq_none (by omega)]

/-- Creations with valid, pairwise distinct, new names fill the free slots
behind the used ones, one after the other, as long as there are slots and
free blocks. -/
theorem create_all_fill (cfg : Config) :
    ∀ (ops : List (Bool × Name)) (pre : List Name) (s : FS),
      s.current_dir < s.nblocks →
      dir_rep cfg s.nblocks (s.disk s.current_dir) (fun i => pre[i]?) →
      pre.length + ops.length ≤ max_entries cfg →
      (∀ op ∈ ops, valid_name cfg op.2) →
      (pre ++ ops.map Prod.snd).Nodup →
      ops.length ≤ s.free.length →
      (∀ b ∈ s.free, b ≠ 0 ∧ b < s.nblocks ∧ b < 65536) →
      ∃ s1, create_all cfg ops s = some s1 ∧ s1.current_dir = s.current_dir ∧
        s1.nblocks = s.nblocks ∧ s1.free = s.free.drop ops.length ∧
        dir_rep cfg s1.nblocks (s1.disk s1.current_dir)
          (fun i => (pre ++ ops.map Prod.snd)[i]?) := by
  intro ops
  induction ops with
  | nil =>
    intro pre s hio hrep _ _ _ _ _
    exact ⟨s, rfl, rfl, rfl, rfl, by simpa using hrep⟩
  | cons op ops ih =>
    intro pre s hio hrep hlen hvalid hnd hfl hgood
    cases hfree : s.free with
    | nil => rw [hfree] at hfl; simp at hfl
    | cons b rest =>
      have hb := hgood b (by rw [hfree]; exact List.mem_cons_self _ _)
      have hnotin : op.2 ∉ pre := by
        intro hmem
        have := List.nodup_append.mp hnd
        exact this.2.2 hmem (by simp)
      obtain ⟨s1, hc, hcd, hnb, hfr, hrep1⟩ := create_success cfg s (fun i => pre[i]?) op
        pre.length b rest hio hrep (hvalid op (List.mem_cons_self _ _))
        (fun i _ e => hnotin (List.getElem?_mem e))
        (by simp at hlen; omega)
        (List.getElem?_eq_none (le_refl _))
        (fun i hi e => by
          have e2 : pre[i]? = none := e
          rw [List.getElem?_eq_getElem hi] at e2
          cases e2)
        hfree hb.1 hb.2.1 hb.2.2
      have hrep2 : dir_rep cfg s1.nblocks (s1.disk s1.current_dir)
          (fun i => (pre ++ [op.2])[i]?) := by
        have e : (fun i => (pre ++ [op.2])[i]?)
            = (fun i => if i = pre.length then some op.2 else pre[i]?) := by
          funext i
          exact getElem?_append_singleton pre op.2 i
        rw [e]
        exact hrep1
      have hnd2 : ((pre ++ [op.2]) ++ ops.map Prod.snd).Nodup := by
        simpa [List.append_assoc] using hnd
      obtain ⟨s2, h1, h2, h3, h4, h5⟩ := ih (pre ++ [op.2]) s1 (by rw [hcd, hnb]; exact hio)
        hrep2 (by simp at hlen ⊢; omega)
        (fun o ho => hvalid o (List.mem_cons_of_mem _ ho)) hnd2
        (by rw [hfr]; rw [hfree] at hfl; simp at hfl; omega)
        (fun x hx => by
          rw [hnb]
          exact hgood x (by rw [hfree]; rw [hfr] at hx; exact List.mem_cons_of_mem _ hx))
      refine ⟨s2, ?_, by rw [h2, hcd], by rw [h3, hnb], ?_, ?_⟩
      · unfold create_all
        rw [hc]
        exact h1
      · rw [h4, hfr]
        simp
      · have e : (pre ++ [op.2]) ++ ops.map Prod.snd = pre ++ (op :: ops).map Prod.snd := by
          simp [List.append_assoc]
        rw [e] at h5
        exact h5

theorem dir_rep_empty (cfg : Config) (nb : Nat) (bd : Block)
    (hempty : ∀ i, i < max_entries cfg → bd (i * entry_size cfg) = 0) :
    dir_rep cfg nb bd (fun i => ([] : List Name)[i]?) := by
  intro i hi
  refine ⟨fun _ => hempty i hi, ?_⟩
  intro m hm
  simp at hm

theorem other_slot_name (names : List Name) (hnd : names.Nodup) (m x : Name) (i k : Nat)
    (hi : names[i]? = some m) (hk : names[k]? = some x) (hki : k ≠ i)
    (hx : ∀ y ∈ names, y ≠ m → y ≠ x) : False := by
  have hxm : x = m := by
    by_contra hne
    exact hx x (List.getElem?_mem hk) hne rfl
  subst hxm
  have hlt : k < names.length := by
    rcases List.getElem?_eq_some.mp hk with ⟨h, _⟩
    exact h
  exact hki (List.getElem?_inj hlt hnd (by rw [hk, hi]))

/-- C12: let `C = max_entries = BLOCK_SIZE / (MAX_NAME_LENGTH + 4)`.  On a
state whose current directory block is on the device and has no used slot,
with a free pool of at least `C` blocks, all of them block numbers (not 0,
below `2^16`) of blocks on the device, a sequence `ops` of `C` creations (any
mix of `jfs_mkdir` and `jfs_creat`) with valid, pairwise distinct names
succeeds call after call.  In the state `s1` it leaves, a creation with a new
valid name returns `E_MAX_DIR_ENTRIES` and leaves `s1` unchanged.  And after a
successful `jfs_remove` or `jfs_rmdir` of one of the names, a creation with a
valid name that differs from the remaining names succeeds, and after it a
creation with a further such name returns `E_MAX_DIR_ENTRIES` again without
changing the state. -/
theorem directory_capacity (cfg : Config) (s : FS) (ops : List (Bool × Name))
    (hio : s.current_dir < s.nblocks)
    (hempty : ∀ i, i < max_entries cfg → s.disk s.current_dir (i * entry_size cfg) = 0)
    (hlen : ops.length = max_entries cfg)
    (hvalid : ∀ op ∈ ops, valid_name cfg op.2)
    (hdistinct : (ops.map Prod.snd).Nodup)
    (hpool : max_entries cfg ≤ s.free.length)
    (hgood : ∀ b ∈ s.free, b ≠ 0 ∧ b < s.nblocks ∧ b < 65536) :
    max_entries cfg = cfg.BLOCK_SIZE / (cfg.MAX_NAME_LENGTH + 4) ∧
    ∃ s1, create_all cfg ops s = some s1 ∧
      (∀ op, valid_name cfg op.2 → op.2 ∉ ops.map Prod.snd →
        create cfg s1 op = (E_MAX_DIR_ENTRIES, s1)) ∧
      (∀ m s2, m ∈ ops.map Prod.snd →
        (jfs_remove cfg s1 m = (E_SUCCESS, s2) ∨ jfs_rmdir cfg s1 m = (E_SUCCESS, s2)) →
        ∀ op1, valid_name cfg op1.2 → (∀ x ∈ ops.map Prod.snd, x ≠ m → x ≠ op1.2) →
          ∃ s3, create cfg s2 op1 = (E_SUCCESS, s3) ∧
            ∀ op2, valid_name cfg op2.2 → op2.2 ≠ op1.2 →
              (∀ x ∈ ops.map Prod.snd, x ≠ m → x ≠ op2.2) →
              create cfg s3 op2 = (E_MAX_DIR_ENTRIES, s3)) := by
  refine ⟨by simp [max_entries, entry_size]; congr 1; omega, ?_⟩
  obtain ⟨s1, hall, hcd, hnb, hfr, hrep⟩ := create_all_fill cfg ops [] s hio
    (dir_rep_empty cfg _ _ hempty) (by simp; omega) hvalid (by simpa using hdistinct)
    (by omega) hgood
  simp only [List.nil_append] at hrep
  have hio1 : s1.current_dir < s1.nblocks := by rw [hcd, hnb]; exact hio
  have hnl : (ops.map Prod.snd).length = max_entries cfg := by simp [hlen]
  have hsome : ∀ k, k < max_entries cfg → (ops.map Prod.snd)[k]? ≠ none := by
    intro k hk e
    rw [List.getElem?_eq_getElem (by omega)] at e
    cases e
  refine ⟨s1, hall, ?_, ?_⟩
  · intro op hv hnew
    exact create_full cfg s1 _ op hio1 hrep hv (fun i _ e => hnew (List.getElem?_mem e)) hsome
  · intro m s2 hm hrem op1 hv1 hne1
    have hmv : valid_name cfg m := by
      obtain ⟨op, hop, e⟩ := List.mem_map.mp hm
      exact e ▸ hvalid op hop
    have hinv : ∃ i, find_entry cfg (s1.disk s1.current_dir) m (max_entries cfg) 0 = some i ∧
        s2.current_dir = s1.current_dir ∧ s2.nblocks = s1.nblocks ∧
        s2.free = load16 (s1.disk s1.current_dir)
          (i * entry_size cfg + 2 + cfg.MAX_NAME_LENGTH) :: s1.free ∧
        s2.disk = fun x =>
          if x = s1.current_dir then setb (s1.disk s1.current_dir) (i * entry_size cfg) 0
          else s1.disk x := by
      rcases hrem with h | h
      · exact (jfs_remove_success cfg s1 s2 m h).2
      · exact (jfs_rmdir_success cfg s1 s2 m h).2
    obtain ⟨i, hfind, hcd2, hnb2, hfr2, hdisk2⟩ := hinv
    have hfs := (find_entry_some_iff cfg _ m _ 0 i).mp hfind
    have hi : i < max_entries cfg := by omega
    have hDi : (ops.map Prod.snd)[i]? = some m :=
      (dir_rep_hit cfg _ _ _ hrep m hmv i hi).mp hfs.2.2.1
    have hti := ((hrep i hi).2 m hDi).2.2.2
    have hrep2 : dir_rep cfg s2.nblocks (s2.disk s2.current_dir)
        (fun k => if k = i then none else (ops.map Prod.snd)[k]?) := by
      rw [hnb2, hcd2, hdisk2]
      simp only [if_true]
      exact dir_rep_clear cfg _ _ _ hrep i
    obtain ⟨s3, hc3, hcd3, hnb3, hfr3, hrep3⟩ := create_success cfg s2 _ op1 i
      (load16 (s1.disk s1.current_dir) (i * entry_size cfg + 2 + cfg.MAX_NAME_LENGTH)) s1.free
      (by rw [hcd2, hnb2]; exact hio1) hrep2 hv1
      (fun k hk e => by
        by_cases hki : k = i
        · simp [hki] at e
        · simp only [hki, if_false] at e
          exact other_slot_name _ hdistinct m op1.2 i k hDi e hki hne1)
      hi (by simp)
      (fun k hk e => by
        have hki : k ≠ i := by omega
        simp only [hki, if_false] at e
        exact hsome k (by omega) e)
      hfr2 hti.1 (by rw [hnb2]; exact hti.2) (load16_lt _ _)
    refine ⟨s3, hc3, ?_⟩
    intro op2 hv2 hne12 hne2
    apply create_full cfg s3 _ op2 (by rw [hcd3, hnb3, hcd2, hnb2]; exact hio1) hrep3 hv2
    · intro k hk e
      by_cases hki : k = i
      · simp only [hki, if_true] at e
        exact hne12 (Option.some.inj e).symm
      · simp only [hki, if_false] at e
        exact other_slot_name _ hdistinct m op2.2 i k hDi e hki hne2
    · intro k hk e
      by_cases hki : k = i
      · simp [hki] at e
      · simp only [hki, if_false] at e
        exact hsome k hk e

/-- Witness for C12: the fresh device, the four creations `d` (directory),
`a.txt`, `b`, `c`; a fifth creation `e` is refused. -/
theorem directory_capacity_witness :
    ∃ s1, create_all cfg64 ops4 fs0 = some s1 ∧
      create cfg64 s1 (false, name_e) = (E_MAX_DIR_ENTRIES, s1) ∧
      create cfg64 s1 (true, name_e) = (E_MAX_DIR_ENTRIES, s1) :=
  have h := (directory_capacity cfg64 fs0 ops4 (by decide) (by decide) (by decide)
    (by decide) (by decide) (by decide) (by decide)).2
  h.elim fun s1 hs1 =>
    ⟨s1, hs1.1, hs1.2.1 (false, name_e) ⟨by decide, by decide⟩ (by decide),
      hs1.2.1 (true, name_e) ⟨by decide, by decide⟩ (by decide)⟩

/-! ## The chain of data blocks after appends -/

/-- C19, on the code: after `jfs_creat("a.txt")` and a single append of 100
bytes the file has size 100 and head block 3, whose trailer points to block 4;
the trailer of block 4, the last of the `ceil(100 / 62) = 2` blocks, is not
the "none" block number 0 but 4 itself, so the walk along the `next` pointers
never reaches the end of a chain.  After three appends of 64 bytes (size 192)
the head 3 points to block 5, whose trailer holds data bytes (30840, a block
the device does not hold); block 4 is no longer on the chain, which visits
fewer distinct blocks than `ceil(192 / 62) = 4`, and fewer than the three
blocks the appends took from the free pool. -/
theorem chain_after_appends :
    load32 (fs_x100.disk 2) 0 = 100 ∧ load16 (fs_x100.disk 2) 4 = 3 ∧
    ceil_div 100 (payload_capacity cfg64) = 2 ∧
    chain_nth cfg64 fs_x100 3 0 = 3 ∧ chain_nth cfg64 fs_x100 3 1 = 4 ∧
    next_block cfg64 fs_x100 (chain_nth cfg64 fs_x100 3 1) = 4 ∧
    next_block cfg64 fs_x100
      (chain_nth cfg64 fs_x100 3 (ceil_div 100 (payload_capacity cfg64) - 1)) ≠ 0 ∧
    load32 (fs_3x64.disk 2) 0 = 192 ∧ load16 (fs_3x64.disk 2) 4 = 3 ∧
    fs_3x64.free = [6, 7, 8, 9] ∧
    ceil_div 192 (payload_capacity cfg64) = 4 ∧
    chain_nth cfg64 fs_3x64 3 1 = 5 ∧ chain_nth cfg64 fs_3x64 3 2 = 30840 ∧
    ¬ (30840 < fs_3x64.nblocks) := by
  decide

/-! ## A single append to a fresh file, block by block -/

/-- One iteration of the append loop that starts on a block boundary: it takes
the first free block `b`, points the trailer of the previous block (if there
is one) to `b`, and writes into `b` the image of the previous block (or the
uninitialised buffer) overwritten with the next chunk. -/
theorem write_step_aligned (cfg : Config) (junk : Block) (buf : List Nat) (count : Nat)
    (w w1 : WriteState) (b : Nat) (rest : List Nat)
    (h0 : w.current_block_offset = 0) (hfree : w.fs.free = b :: rest)
    (hcur : w.current_data_block = 0 ∨ w.current_data_block ≠ b)
    (h : write_step cfg junk buf count w = .ok w1) :
    b ≠ 0 ∧ b < w.fs.nblocks ∧
    w1.fs.free = rest ∧ w1.fs.nblocks = w.fs.nblocks ∧ w1.fs.current_dir = w.fs.current_dir ∧
    w1.current_data_block = b ∧
    w1.bytes_written = u32 (w.bytes_written + min (count - w.bytes_written) cfg.BLOCK_SIZE) ∧
    w1.current_block_offset = min (count - w.bytes_written) cfg.BLOCK_SIZE % cfg.BLOCK_SIZE ∧
    w1.file_inode_data =
      (if w.current_data_block = 0 then store16 w.file_inode_data 4 b
       else w.file_inode_data) ∧
    w1.fs.disk b =
      memcpy_in
        (if w.current_data_block = 0 then junk
         else store16 (w.fs.disk w.current_data_block)
           (cfg.BLOCK_SIZE - sizeof_block_num_t) b)
        0 buf w.bytes_written (min (count - w.bytes_written) cfg.BLOCK_SIZE) ∧
    (w.current_data_block ≠ 0 →
      w1.fs.disk w.current_data_block =
        store16 (w.fs.disk w.current_data_block) (cfg.BLOCK_SIZE - sizeof_block_num_t) b) ∧
    (∀ d, d ≠ b → (w.current_data_block ≠ 0 → d ≠ w.current_data_block) →
      w1.fs.disk d = w.fs.disk d) := by
  have hmin : ∀ a c : Nat, (if a < c then a else c) = min a c := by
    intro a c; split <;> omega
  have hal1 : (allocate_block w.fs).1 = b := by simp [allocate_block, hfree]
  have hal2 : (allocate_block w.fs).2 = { w.fs with free := rest } := by
    simp [allocate_block, hfree]
  unfold write_step at h
  unfold write_prepare at h
  rw [if_pos h0] at h
  simp only [hal1, hal2] at h
  by_cases hb0 : b = 0
  · simp [hb0] at h
  · rw [if_neg hb0] at h
    by_cases hc0 : w.current_data_block = 0
    · simp only [hc0, ne_eq, not_true_eq_false, if_false, h0, Nat.sub_zero, hmin] at h
      split at h
      · cases h
      · rename_i fs1 hw
        have hw2 := write_block_some _ _ _ _ hw
        cases h
        refine ⟨hb0, hw2.1, by rw [hw2.2.2.1], by rw [hw2.2.1], by rw [hw2.2.2.2.1], rfl, rfl,
          by simp [h0], by simp [hc0], ?_, fun hne => absurd hc0 hne, ?_⟩
        · simp [hw2.2.2.2.2, hc0, h0]
        · intro d hd _
          simp [hw2.2.2.2.2, hd]
    · have hcb : w.current_data_block ≠ b := by
        rcases hcur with h1 | h1
        · exact absurd h1 hc0
        · exact h1
      simp only [ne_eq, hc0, not_false_eq_true, if_true] at h
      cases hrd : read_block { w.fs with free := rest } w.current_data_block with
      | none => simp [hrd] at h
      | some buf0 =>
        have hbuf0 : buf0 = w.fs.disk w.current_data_block := by
          unfold read_block at hrd
          split at hrd
          · exact (Option.some.inj hrd).symm
          · cases hrd
        simp only [hrd] at h
        cases hw1 : write_block { w.fs with free := rest } w.current_data_block
            (store16 buf0 (cfg.BLOCK_SIZE - sizeof_block_num_t) b) with
        | none => simp [hw1] at h
        | some fs2 =>
          have hw12 := write_block_some _ _ _ _ hw1
          simp only [hw1, h0, Nat.sub_zero, hmin] at h
          cases hw : write_block fs2 b
              (memcpy_in (store16 buf0 (cfg.BLOCK_SIZE - sizeof_block_num_t) b) 0 buf
                w.bytes_written (min (count - w.bytes_written) cfg.BLOCK_SIZE)) with
          | none => simp [hw] at h
          | some fs3 =>
            have hw2 := write_block_some _ _ _ _ hw
            simp only [hw] at h
            cases h
            refine ⟨hb0, by rw [← hw12.2.1]; exact hw2.1, by rw [hw2.2.2.1, hw12.2.2.1],
              by rw [hw2.2.1, hw12.2.1], by rw [hw2.2.2.2.1, hw12.2.2.2.1], rfl, rfl,
              by simp [h0], by simp [hc0], ?_, ?_, ?_⟩
            · simp [hw2.2.2.2.2, hc0, hbuf0]
            · intro _
              simp [hw2.2.2.2.2, hw12.2.2.2.2, hcb, hbuf0]
            · intro d hd hd2
              simp [hw2.2.2.2.2, hw12.2.2.2.2, hd, hd2 hc0]

theorem appended_byte_at (cfg : Config) (buf : List Nat) (count : Nat) (pool : List Nat)
    (k j : Nat) (hj : j < cfg.BLOCK_SIZE) :
    appended_byte cfg buf count pool (k * cfg.BLOCK_SIZE + j) =
      if (k + 1) * cfg.BLOCK_SIZE < count then
        if j = cfg.BLOCK_SIZE - 2 then pool.getD (k + 1) 0 % 256
        else if j = cfg.BLOCK_SIZE - 1 then pool.getD (k + 1) 0 / 256 % 256
        else buf.getD (k * cfg.BLOCK_SIZE + j) 0
      else buf.getD (k * cfg.BLOCK_SIZE + j) 0 := by
  have hB : 0 < cfg.BLOCK_SIZE := by omega
  have hd : (k * cfg.BLOCK_SIZE + j) / cfg.BLOCK_SIZE = k := by
    rw [Nat.mul_comm, Nat.mul_add_div hB, Nat.div_eq_of_lt hj, Nat.add_zero]
  have hm : (k * cfg.BLOCK_SIZE + j) % cfg.BLOCK_SIZE = j := by
    rw [Nat.mul_comm, Nat.mul_add_mod, Nat.mod_eq_of_lt hj]
  unfold appended_byte
  rw [hd, hm]

theorem memcpy_out_eq_map (C : Block) (g : Nat → Nat) (start n : Nat)
    (h : ∀ j, j < n → C j = g (start + j)) :
    memcpy_out C n = (List.range' start n).map g := by
  unfold memcpy_out
  rw [List.range'_eq_map_range, List.map_map]
  apply List.map_congr_left
  intro j hj
  exact h j (List.mem_range.mp hj)

theorem drop_cons_facts (pool : List Nat) (k b : Nat) (rest : List Nat)
    (h : pool.drop k = b :: rest) :
    pool[k]? = some b ∧ pool.drop (k + 1) = rest ∧ pool.getD k 0 = b ∧ b ∈ pool := by
  have h1 : pool[k]? = some b := by
    have := congrArg (fun l => l[0]?) h
    simpa [List.getElem?_drop] using this
  have h2 : pool.drop (k + 1) = rest := by
    have := congrArg (List.drop 1) h
    simpa [List.drop_drop, Nat.add_comm] using this
  refine ⟨h1, h2, ?_, List.getElem?_mem h1⟩
  simp [List.getD_eq_getElem?_getD, h1]

theorem write_loop_done (cfg : Config) (junk : Block) (buf : List Nat) (count fuel : Nat)
    (w : WriteState) (h : ¬ w.bytes_written < count) :
    write_loop cfg junk buf count fuel w = some (.ok w) := by
  cases fuel with
  | zero => unfold write_loop; rw [if_neg h]
  | succ f => unfold write_loop; rw [if_neg h]

theorem read_loop_done (cfg : Config) (s : FS) (to_read fuel br cur : Nat) (out : List Nat)
    (h : ¬ br < to_read) :
    read_loop cfg s to_read fuel br cur out = some (E_SUCCESS, out, br) := by
  cases fuel with
  | zero => unfold read_loop; rw [if_neg h]
  | succ f => unfold read_loop; rw [if_neg h]

theorem range_split (a B n : Nat) (h : B ≤ n) :
    List.range' a n = List.range' a B ++ List.range' (a + B) (n - B) := by
  rw [List.range'_append_1]
  congr 1
  omega

/-- One iteration of the read loop on a block of the device. -/
theorem read_loop_step (cfg : Config) (s : FS) (to_read fuel br cur : Nat) (out : List Nat)
    (n : Nat) (hlt : br < to_read) (hcur : cur < s.nblocks) (ht : to_read < 2 ^ 32)
    (hn : n = min (to_read - br) cfg.BLOCK_SIZE) :
    read_loop cfg s to_read (fuel + 1) br cur out =
      read_loop cfg s to_read fuel (br + n)
        (if br + n < to_read then load16 (s.disk cur) (cfg.BLOCK_SIZE - sizeof_block_num_t)
         else cur)
        (out ++ memcpy_out (s.disk cur) n) := by
  have hsz : (if to_read - br > cfg.BLOCK_SIZE then cfg.BLOCK_SIZE else to_read - br) = n := by
    rw [hn]; split <;> omega
  have hrb : read_block s cur = some (s.disk cur) := by
    unfold read_block
    rw [if_pos hcur]
  have hu : u32 (br + n) = br + n := u32_of_lt (by omega)
  rw [read_loop, if_pos hlt, hrb]
  simp only [hsz, hu]

theorem full_block_byte (C : Block) (buf : List Nat) (bw B b2 j : Nat) (hB : 2 ≤ B)
    (hj : j < B) :
    store16 (memcpy_in C 0 buf bw B) (B - sizeof_block_num_t) b2 j =
      if j = B - 2 then b2 % 256
      else if j = B - 1 then b2 / 256 % 256
      else buf.getD (bw + j) 0 := by
  unfold store16 memcpy_in sizeof_block_num_t
  by_cases hj2 : j = B - 2
  · rw [if_pos hj2, if_pos hj2]
  · rw [if_neg hj2, if_neg hj2]
    by_cases hj1 : j = B - 1
    · rw [if_pos (by omega), if_pos hj1]
    · rw [if_neg (by omega), if_neg hj1, if_pos ⟨by omega, by omega⟩]
      congr 1

theorem copied_byte (C : Block) (buf : List Nat) (bw n j : Nat) (hj : j < n) :
    memcpy_in C 0 buf bw n j = buf.getD (bw + j) 0 := by
  unfold memcpy_in
  rw [if_pos ⟨by omega, by omega⟩]
  congr 1

theorem aligned_post_more (cfg : Config) (junk : Block) (buf : List Nat) (count : Nat)
    (pool : List Nat) (hB : 2 ≤ cfg.BLOCK_SIZE) (hc : count < 2 ^ 32) (hnd : pool.Nodup)
    (h16 : ∀ b ∈ pool, b < 65536) (k : Nat) (w w1 wf : WriteState) (b : Nat) (rest : List Nat)
    (hd : pool.drop k = b :: rest)
    (h0 : w.current_block_offset = 0) (hbw : w.bytes_written = k * cfg.BLOCK_SIZE)
    (hlt : k * cfg.BLOCK_SIZE < count) (hfree : w.fs.free = b :: rest)
    (hcur : w.current_data_block = 0 ∨ w.current_data_block ∉ b :: rest)
    (hstep : write_step cfg junk buf count w = .ok w1)
    (hbig : count - k * cfg.BLOCK_SIZE > cfg.BLOCK_SIZE)
    (hpost : aligned_post cfg buf count pool (k + 1) w1 wf) :
    aligned_post cfg buf count pool k w wf := by
  have hk1 : (k + 1) * cfg.BLOCK_SIZE = k * cfg.BLOCK_SIZE + cfg.BLOCK_SIZE := by ring
  have hk1lt : (k + 1) * cfg.BLOCK_SIZE < count := by
    rw [hk1]; clear hcur hpost; omega
  have hminB : min (count - k * cfg.BLOCK_SIZE) cfg.BLOCK_SIZE = cfg.BLOCK_SIZE :=
    Nat.min_eq_right (Nat.le_of_lt hbig)
  have hsum : k * cfg.BLOCK_SIZE + cfg.BLOCK_SIZE < 2 ^ 32 := by
    clear hcur hpost; omega
  have hrem : ∀ fR, count - k * cfg.BLOCK_SIZE ≤ fR + 1 →
      count - (k + 1) * cfg.BLOCK_SIZE ≤ fR := by
    intro fR h
    rw [hk1]; clear hcur hpost; omega
  have hnle : ¬ count - k * cfg.BLOCK_SIZE ≤ cfg.BLOCK_SIZE := Nat.not_le.mpr hbig
  unfold aligned_post at hpost ⊢
  rw [hd]
  obtain ⟨hpk, hrest, hgetD, hbmem⟩ := drop_cons_facts pool k b rest hd
  have hndk : (b :: rest).Nodup := hd ▸ List.Nodup.sublist (List.drop_sublist k pool) hnd
  have hbrest : b ∉ rest := (List.nodup_cons.mp hndk).1
  have hcb : w.current_data_block = 0 ∨ w.current_data_block ≠ b := by
    rcases hcur with h1 | h1
    · exact Or.inl h1
    · exact Or.inr (fun e => h1 (e ▸ List.mem_cons_self _ _))
  obtain ⟨hb0, hbn, hf1, hn1, hcd1, hcur1, hbw1, hoff1, hino1, hdb, hdprev, hframe1⟩ :=
    write_step_aligned cfg junk buf count w w1 b rest h0 hfree hcb hstep
  have hb16 := h16 b hbmem
  have hmin : min (count - w.bytes_written) cfg.BLOCK_SIZE = cfg.BLOCK_SIZE := by
    rw [hbw]; exact hminB
  rw [hmin] at hbw1 hoff1 hdb
  rw [hbw, u32_of_lt hsum, ← hk1] at hbw1
  rw [Nat.mod_self] at hoff1
  obtain ⟨hnf, hcdf, ⟨b2, hpk2, hb20, hinof, hdf, hread⟩, hframe, hchain, _⟩ := hpost
  have hgetD2 : pool.getD (k + 1) 0 = b2 := by
    simp [List.getD_eq_getElem?_getD, hpk2]
  have hb216 := h16 b2 (List.getElem?_mem hpk2)
  refine ⟨by rw [hnf, hn1], by rw [hcdf, hcd1], ⟨b, hpk, hb0, ?_, ?_, ?_⟩, ?_, ?_,
    fun hle => absurd hle hnle⟩
  · rw [hinof, if_neg (by rw [hcur1]; exact hb0), hino1]
  · intro hc0
    have hcnb : w.current_data_block ≠ b := by
      rcases hcb with h1 | h1
      · exact absurd h1 hc0
      · exact h1
    have hcnr : w.current_data_block ∉ pool.drop (k + 1) := by
      rcases hcur with h1 | h1
      · exact absurd h1 hc0
      · rw [hrest]
        exact fun e => h1 (List.mem_cons_of_mem _ e)
    rw [hframe _ hcnr (fun _ => by rw [hcur1]; exact hcnb), hdprev hc0]
  · intro s2 out fR hs2n hs2d hfR
    have hfinal : s2.disk b = store16 (w1.fs.disk b)
        (cfg.BLOCK_SIZE - sizeof_block_num_t) b2 := by
      rw [hs2d b hbmem, ← hcur1]
      exact hdf (by rw [hcur1]; exact hb0)
    have hnext : load16 (s2.disk b) (cfg.BLOCK_SIZE - sizeof_block_num_t) = b2 := by
      rw [hfinal, load16_store16, Nat.mod_eq_of_lt hb216]
    have hchunk : memcpy_out (s2.disk b) cfg.BLOCK_SIZE
        = (List.range' (k * cfg.BLOCK_SIZE) cfg.BLOCK_SIZE).map
            (appended_byte cfg buf count pool) := by
      apply memcpy_out_eq_map
      intro j hj
      rw [appended_byte_at cfg buf count pool k j hj, if_pos hk1lt, hgetD2,
        hfinal, hdb, full_block_byte _ _ _ _ _ _ hB hj, hbw]
    have hrange : List.range' (k * cfg.BLOCK_SIZE) (count - k * cfg.BLOCK_SIZE)
        = List.range' (k * cfg.BLOCK_SIZE) cfg.BLOCK_SIZE
          ++ List.range' ((k + 1) * cfg.BLOCK_SIZE)
              (count - (k + 1) * cfg.BLOCK_SIZE) := by
      rw [hk1, Nat.sub_add_eq]
      exact range_split _ _ _ (Nat.le_of_lt hbig)
    have hbs2 : b < s2.nblocks := by rw [hs2n, hnf, hn1]; exact hbn
    cases fR with
    | zero => exact absurd (Nat.lt_of_lt_of_le hbig hfR) (Nat.not_lt_zero _)
    | succ fR =>
      have hrec := hread s2 (out ++ memcpy_out (s2.disk b) cfg.BLOCK_SIZE) fR hs2n hs2d
        (hrem fR hfR)
      rw [read_loop_step cfg s2 count fR (k * cfg.BLOCK_SIZE) b out cfg.BLOCK_SIZE hlt hbs2 hc
        hminB.symm, ← hk1, if_pos hk1lt, hnext, hrec, hrange, List.map_append, hchunk,
        List.append_assoc]
  · intro d hdn hdc
    have hdb2 : d ≠ b := by
      intro e
      apply hdn
      rw [e]
      exact List.mem_cons_self _ _
    rw [hframe d (by rw [hrest]; exact fun e => hdn (List.mem_cons_of_mem _ e))
      (fun _ => by rw [hcur1]; exact hdb2), hframe1 d hdb2 hdc]
  · intro t ht1 ht2
    by_cases htk : t = k
    · subst htk
      rw [hgetD, hgetD2, ← hcur1, hdf (by rw [hcur1]; exact hb0), load16_store16,
        Nat.mod_eq_of_lt hb216]
    · exact hchain t (Nat.lt_of_le_of_ne ht1 (Ne.symm htk)) ht2

theorem aligned_post_last (cfg : Config) (junk : Block) (buf : List Nat) (count : Nat)
    (pool : List Nat) (hc : count < 2 ^ 32) (hnd : pool.Nodup)
    (h16 : ∀ b ∈ pool, b < 65536) (k : Nat) (w w1 wf : WriteState) (b : Nat) (rest : List Nat)
    (hd : pool.drop k = b :: rest)
    (h0 : w.current_block_offset = 0) (hbw : w.bytes_written = k * cfg.BLOCK_SIZE)
    (hlt : k * cfg.BLOCK_SIZE < count) (hfree : w.fs.free = b :: rest)
    (hcur : w.current_data_block = 0 ∨ w.current_data_block ∉ b :: rest)
    (hstep : write_step cfg junk buf count w = .ok w1)
    (hbig : ¬ count - k * cfg.BLOCK_SIZE > cfg.BLOCK_SIZE) (fuel : Nat)
    (h : write_loop cfg junk buf count fuel w1 = some (.ok wf)) :
    aligned_post cfg buf count pool k w wf := by
  have hk1 : (k + 1) * cfg.BLOCK_SIZE = k * cfg.BLOCK_SIZE + cfg.BLOCK_SIZE := by ring
  have hle : count - k * cfg.BLOCK_SIZE ≤ cfg.BLOCK_SIZE := Nat.le_of_not_gt hbig
  have hminL : min (count - k * cfg.BLOCK_SIZE) cfg.BLOCK_SIZE = count - k * cfg.BLOCK_SIZE :=
    Nat.min_eq_left hle
  have hcnt : k * cfg.BLOCK_SIZE + (count - k * cfg.BLOCK_SIZE) = count :=
    Nat.add_sub_of_le (Nat.le_of_lt hlt)
  have hk1ge : ¬ (k + 1) * cfg.BLOCK_SIZE < count := by
    rw [hk1]; clear hcur; omega
  unfold aligned_post
  rw [hd]
  obtain ⟨hpk, hrest, hgetD, hbmem⟩ := drop_cons_facts pool k b rest hd
  have hndk : (b :: rest).Nodup := hd ▸ List.Nodup.sublist (List.drop_sublist k pool) hnd
  have hbrest : b ∉ rest := (List.nodup_cons.mp hndk).1
  have hcb : w.current_data_block = 0 ∨ w.current_data_block ≠ b := by
    rcases hcur with h1 | h1
    · exact Or.inl h1
    · exact Or.inr (fun e => h1 (e ▸ List.mem_cons_self _ _))
  obtain ⟨hb0, hbn, hf1, hn1, hcd1, hcur1, hbw1, hoff1, hino1, hdb, hdprev, hframe1⟩ :=
    write_step_aligned cfg junk buf count w w1 b rest h0 hfree hcb hstep
  have hb16 := h16 b hbmem
  have hmin : min (count - w.bytes_written) cfg.BLOCK_SIZE
      = count - k * cfg.BLOCK_SIZE := by
    rw [hbw]; exact hminL
  rw [hmin] at hbw1 hdb
  rw [hbw, hcnt, u32_of_lt hc] at hbw1
  have hend : ¬ w1.bytes_written < count := by rw [hbw1]; exact Nat.lt_irrefl _
  rw [write_loop_done cfg junk buf count fuel w1 hend] at h
  have hwf : w1 = wf := by
    have := Option.some.inj h
    exact Except.ok.inj this
  subst hwf
  refine ⟨hn1, hcd1, ⟨b, hpk, hb0, hino1, hdprev, ?_⟩, ?_, ?_,
    fun _ => by rw [hcur1, hgetD]⟩
  · intro s2 out fR hs2n hs2d hfR
    have hchunk : memcpy_out (s2.disk b) (count - k * cfg.BLOCK_SIZE)
        = (List.range' (k * cfg.BLOCK_SIZE) (count - k * cfg.BLOCK_SIZE)).map
            (appended_byte cfg buf count pool) := by
      apply memcpy_out_eq_map
      intro j hj
      rw [appended_byte_at cfg buf count pool k j (Nat.lt_of_lt_of_le hj hle), if_neg hk1ge,
        hs2d b hbmem, hdb, copied_byte _ _ _ _ _ hj, hbw]
    have hbs2 : b < s2.nblocks := by rw [hs2n, hn1]; exact hbn
    cases fR with
    | zero => exact absurd hfR (Nat.not_le.mpr (Nat.sub_pos_of_lt hlt))
    | succ fR =>
      rw [read_loop_step cfg s2 count fR (k * cfg.BLOCK_SIZE) b out
        (count - k * cfg.BLOCK_SIZE) hlt hbs2 hc hminL.symm, hcnt, if_neg (Nat.lt_irrefl _),
        read_loop_done cfg s2 count fR count b _ (Nat.lt_irrefl _), hchunk]
  · intro d hdn hdc
    have hdb2 : d ≠ b := by
      intro e
      apply hdn
      rw [e]
      exact List.mem_cons_self _ _
    exact hframe1 d hdb2 hdc
  · intro t ht1 ht2
    have hmono : (k + 1) * cfg.BLOCK_SIZE ≤ (t + 1) * cfg.BLOCK_SIZE :=
      Nat.mul_le_mul_right _ (Nat.succ_le_succ ht1)
    exact absurd (Nat.lt_of_le_of_lt hmono ht2) hk1ge

/-- The append loop from a block boundary, with the blocks it takes from the
free pool `pool` in order, and what `read_loop` then reads back from them. -/
theorem write_read_aligned (cfg : Config) (junk : Block) (buf : List Nat) (count : Nat)
    (pool : List Nat) (hB : 2 ≤ cfg.BLOCK_SIZE) (hc : count < 2 ^ 32) (hnd : pool.Nodup)
    (h16 : ∀ b ∈ pool, b < 65536) :
    ∀ (fuel k : Nat) (w wf : WriteState),
      w.current_block_offset = 0 → w.bytes_written = k * cfg.BLOCK_SIZE →
      k * cfg.BLOCK_SIZE < count → w.fs.free = pool.drop k →
      (w.current_data_block = 0 ∨ w.current_data_block ∉ pool.drop k) →
      write_loop cfg junk buf count fuel w = some (.ok wf) →
      aligned_post cfg buf count pool k w wf := by
  intro fuel
  induction fuel with
  | zero =>
    intro k w wf h0 hbw hlt hfree hcur h
    unfold write_loop at h
    rw [if_pos (by omega)] at h
    cases h
  | succ fuel ih =>
    intro k w wf h0 hbw hlt hfree hcur h
    unfold write_loop at h
    rw [if_pos (by omega)] at h
    cases hstep : write_step cfg junk buf count w with
    | error e => rw [hstep] at h; cases h
    | ok w1 =>
      rw [hstep] at h
      dsimp only at h
      cases hd : pool.drop k with
      | nil =>
        rw [hd] at hfree
        simp [write_step, write_prepare, h0, allocate_block, hfree] at hstep
      | cons b rest =>
        rw [hd] at hfree hcur
        by_cases hbig : count - k * cfg.BLOCK_SIZE > cfg.BLOCK_SIZE
        · obtain ⟨hpk, hrest, hgetD, hbmem⟩ := drop_cons_facts pool k b rest hd
          have hndk : (b :: rest).Nodup :=
            hd ▸ List.Nodup.sublist (List.drop_sublist k pool) hnd
          have hbrest : b ∉ rest := (List.nodup_cons.mp hndk).1
          have hcb : w.current_data_block = 0 ∨ w.current_data_block ≠ b := by
            rcases hcur with h1 | h1
            · exact Or.inl h1
            · exact Or.inr (fun e => h1 (e ▸ List.mem_cons_self _ _))
          obtain ⟨_, _, hf1, _, _, hcur1, hbw1, hoff1, _, _, _, _⟩ :=
            write_step_aligned cfg junk buf count w w1 b rest h0 hfree hcb hstep
          have hk1 : (k + 1) * cfg.BLOCK_SIZE = k * cfg.BLOCK_SIZE + cfg.BLOCK_SIZE := by ring
          have hmin : min (count - w.bytes_written) cfg.BLOCK_SIZE = cfg.BLOCK_SIZE := by
            rw [hbw]; omega
          rw [hmin] at hbw1 hoff1
          rw [hbw, u32_of_lt (by omega), ← hk1] at hbw1
          rw [Nat.mod_self] at hoff1
          exact aligned_post_more cfg junk buf count pool hB hc hnd h16 k w w1 wf b rest hd h0
            hbw hlt hfree hcur hstep hbig
            (ih (k + 1) w1 wf hoff1 hbw1 (by omega) (by rw [hf1, hrest])
              (Or.inr (by rw [hcur1, hrest]; exact hbrest)) h)
        · exact aligned_post_last cfg junk buf count pool hc hnd h16 k w w1 wf b rest hd h0
            hbw hlt hfree hcur hstep hbig fuel h

/-- A successful run of the loop from a block boundary has taken a block from
the pool for every chunk. -/
theorem write_loop_pool_length (cfg : Config) (junk : Block) (buf : List Nat) (count : Nat)
    (pool : List Nat) (hc : count < 2 ^ 32) (hnd : pool.Nodup) :
    ∀ (fuel k : Nat) (w wf : WriteState),
      w.current_block_offset = 0 → w.bytes_written = k * cfg.BLOCK_SIZE →
      k * cfg.BLOCK_SIZE < count → w.fs.free = pool.drop k →
      (w.current_data_block = 0 ∨ w.current_data_block ∉ pool.drop k) →
      write_loop cfg junk buf count fuel w = some (.ok wf) →
      ∀ t, k ≤ t → t * cfg.BLOCK_SIZE < count → t < pool.length := by
  intro fuel
  induction fuel with
  | zero =>
    intro k w wf h0 hbw hlt hfree hcur h
    unfold write_loop at h
    rw [if_pos (by omega)] at h
    cases h
  | succ fuel ih =>
    intro k w wf h0 hbw hlt hfree hcur h t ht1 ht2
    unfold write_loop at h
    rw [if_pos (by omega)] at h
    cases hstep : write_step cfg junk buf count w with
    | error e => rw [hstep] at h; cases h
    | ok w1 =>
      rw [hstep] at h
      dsimp only at h
      cases hd : pool.drop k with
      | nil =>
        rw [hd] at hfree
        simp [write_step, write_prepare, h0, allocate_block, hfree] at hstep
      | cons b rest =>
        rw [hd] at hfree hcur
        have hkl : k < pool.length := by
          by_contra hn
          rw [List.drop_eq_nil_of_le (by omega)] at hd
          cases hd
        by_cases htk : t = k
        · rw [htk]; exact hkl
        · obtain ⟨hpk, hrest, _, _⟩ := drop_cons_facts pool k b rest hd
          have hndk : (b :: rest).Nodup :=
            hd ▸ List.Nodup.sublist (List.drop_sublist k pool) hnd
          have hbrest : b ∉ rest := (List.nodup_cons.mp hndk).1
          have hcb : w.current_data_block = 0 ∨ w.current_data_block ≠ b := by
            rcases hcur with h1 | h1
            · exact Or.inl h1
            · exact Or.inr (fun e => h1 (e ▸ List.mem_cons_self _ _))
          obtain ⟨_, _, hf1, _, _, hcur1, hbw1, hoff1, _, _, _, _⟩ :=
            write_step_aligned cfg junk buf count w w1 b rest h0 hfree hcb hstep
          have hk1 : (k + 1) * cfg.BLOCK_SIZE = k * cfg.BLOCK_SIZE + cfg.BLOCK_SIZE := by ring
          have hmono : (k + 1) * cfg.BLOCK_SIZE ≤ t * cfg.BLOCK_SIZE :=
            Nat.mul_le_mul_right _ (by omega)
          have hmin : min (count - w.bytes_written) cfg.BLOCK_SIZE = cfg.BLOCK_SIZE := by
            rw [hbw]; omega
          rw [hmin] at hbw1 hoff1
          rw [hbw, u32_of_lt (by omega), ← hk1] at hbw1
          rw [Nat.mod_self] at hoff1
          exact ih (k + 1) w1 wf hoff1 hbw1 (by omega) (by rw [hf1, hrest])
            (Or.inr (by rw [hcur1, hrest]; exact hbrest)) h t (by omega) ht2

theorem write_finish_disk (cfg : Config) (fb : Nat) (w : WriteState) (s1 : FS)
    (h : write_finish cfg fb w = some (E_SUCCESS, s1)) :
    inode_slot w.num_blocks + sizeof_block_num_t ≤ cfg.BLOCK_SIZE ∧
    s1.disk fb = store32 (store16 w.file_inode_data (inode_slot w.num_blocks)
      w.current_data_block) 0 w.current_size := by
  unfold write_finish at h
  split at h
  · cases h
  · rename_i hs
    dsimp only at h
    split at h
    · cases h
    · rename_i fs1 hw
      have hw2 := write_block_some _ _ _ _ hw
      cases h
      refine ⟨by omega, ?_⟩
      rw [hw2.2.2.2.2]
      simp

theorem non_final_block_iff (B len k : Nat) (hB : 0 < B) (hlen : 0 < len) :
    k + 1 < ceil_div len B ↔ (k + 1) * B < len := by
  unfold ceil_div
  have h1 : k + 1 < (len + B - 1) / B ↔ (k + 2) * B ≤ len + B - 1 := by
    rw [show k + 1 < (len + B - 1) / B ↔ k + 2 ≤ (len + B - 1) / B from Iff.rfl,
      Nat.le_div_iff_mul_le hB]
  have h2 : (k + 2) * B = (k + 1) * B + B := by ring
  rw [h1, h2]
  omega

/-- C20: for a regular file that is fresh (stored size 0, head 0) and one
successful `jfs_write` of `buf` with `0 < len(buf) ≤ MAX_FILE_SIZE` (and below
`2^16`, the range of `count`), on a device whose free pool lists distinct block
numbers below `2^16` and contains neither the metadata block nor the current
directory block, a following `jfs_read` with capacity at least `len(buf)`
succeeds with count `len(buf)` and returns `r` of that length with `r[i] =
buf[i]` at every index, except that in every block `k = i / BLOCK_SIZE` that is
not the last one (`k + 1 < ceil(len / BLOCK_SIZE)`) the bytes at offsets
`BLOCK_SIZE - 2` and `BLOCK_SIZE - 1` are the low and high byte of the number
of the next data block.  That number is the `(k + 1)`-th block of the free
pool, and it is what the trailer of block `k` holds on the device.  Hence
`r = buf` when `len(buf) ≤ BLOCK_SIZE`. -/
theorem single_append_read_back (cfg : Config) (junk : Block) (s s1 : FS) (name : Name)
    (buf : List Nat) (i cap : Nat)
    (hB : 2 ≤ cfg.BLOCK_SIZE)
    (hlen0 : 0 < buf.length) (hlenmax : buf.length ≤ cfg.MAX_FILE_SIZE)
    (hlen16 : buf.length < 65536)
    (hio : s.current_dir < s.nblocks)
    (hfind : find_entry cfg (s.disk s.current_dir) name (max_entries cfg) 0 = some i)
    (hkind : s.disk s.current_dir (i * entry_size cfg + 1) = 0)
    (hfb : load16 (s.disk s.current_dir) (i * entry_size cfg + 2 + cfg.MAX_NAME_LENGTH)
      < s.nblocks)
    (hsize : load32 (s.disk (load16 (s.disk s.current_dir)
      (i * entry_size cfg + 2 + cfg.MAX_NAME_LENGTH))) 0 = 0)
    (hhead : load16 (s.disk (load16 (s.disk s.current_dir)
      (i * entry_size cfg + 2 + cfg.MAX_NAME_LENGTH))) 4 = 0)
    (hnd : s.free.Nodup) (h16 : ∀ b ∈ s.free, b < 65536)
    (hfbfree : load16 (s.disk s.current_dir) (i * entry_size cfg + 2 + cfg.MAX_NAME_LENGTH)
      ∉ s.free)
    (hcdfree : s.current_dir ∉ s.free)
    (hfbcd : load16 (s.disk s.current_dir) (i * entry_size cfg + 2 + cfg.MAX_NAME_LENGTH)
      ≠ s.current_dir)
    (hres : jfs_write cfg junk s name buf buf.length = some (E_SUCCESS, s1))
    (hcap : buf.length ≤ cap) :
    ∃ r, jfs_read cfg s1 name cap = some (E_SUCCESS, r, buf.length) ∧
      r.length = buf.length ∧
      (∀ x, x < buf.length →
        r.getD x 0 =
          if x / cfg.BLOCK_SIZE + 1 < ceil_div buf.length cfg.BLOCK_SIZE then
            if x % cfg.BLOCK_SIZE = cfg.BLOCK_SIZE - 2 then
              s.free.getD (x / cfg.BLOCK_SIZE + 1) 0 % 256
            else if x % cfg.BLOCK_SIZE = cfg.BLOCK_SIZE - 1 then
              s.free.getD (x / cfg.BLOCK_SIZE + 1) 0 / 256 % 256
            else buf.getD x 0
          else buf.getD x 0) ∧
      (∀ k, k + 1 < ceil_div buf.length cfg.BLOCK_SIZE →
        next_block cfg s1 (s.free.getD k 0) = s.free.getD (k + 1) 0) ∧
      (buf.length ≤ cfg.BLOCK_SIZE → r = buf) := by
  have hB0 : 0 < cfg.BLOCK_SIZE := by omega
  rw [jfs_write_regular cfg junk s name buf buf.length i hlen0 hio hfind hkind hfb] at hres
  have hreadreg := jfs_read_regular cfg s1 name cap i
  obtain ⟨fb, hfbdef⟩ : ∃ fb, load16 (s.disk s.current_dir)
      (i * entry_size cfg + 2 + cfg.MAX_NAME_LENGTH) = fb := ⟨_, rfl⟩
  rw [hfbdef] at hfb hsize hhead hfbfree hfbcd hres
  unfold write_body at hres
  rw [hsize, Nat.zero_add, u32_of_lt (by omega), if_neg (by omega)] at hres
  cases hl : write_loop cfg junk buf buf.length buf.length (write_start cfg s (s.disk fb)) with
  | none => rw [hl] at hres; cases hres
  | some res =>
    cases res with
    | error e =>
      rw [hl] at hres
      have hre : e = (E_SUCCESS, s1) := Option.some.inj hres
      subst hre
      rcases write_loop_error cfg junk buf buf.length _ _ _ _ hl with h | h <;> cases h
    | ok wf =>
      rw [hl] at hres
      dsimp only at hres
      have hnb0 : (write_start cfg s (s.disk fb)).num_blocks
          = ceil_div (write_start cfg s (s.disk fb)).current_size cfg.BLOCK_SIZE := by
        show u32 (load32 (s.disk fb) 0 + cfg.BLOCK_SIZE - 1) / cfg.BLOCK_SIZE
          = ceil_div (load32 (s.disk fb) 0) cfg.BLOCK_SIZE
        rw [hsize, ceil_div, Nat.zero_add,
          Nat.div_eq_of_lt (by omega : cfg.BLOCK_SIZE - 1 < cfg.BLOCK_SIZE)]
        unfold u32
        exact Nat.div_eq_of_lt (Nat.lt_of_le_of_lt (Nat.mod_le _ _) (by omega))
      have hst : (write_start cfg s (s.disk fb)).bytes_written = 0 ∧
          (write_start cfg s (s.disk fb)).current_size = load32 (s.disk fb) 0 ∧
          (write_start cfg s (s.disk fb)).current_block_offset
            = (write_start cfg s (s.disk fb)).current_size % cfg.BLOCK_SIZE ∧
          (write_start cfg s (s.disk fb)).num_blocks
            = ceil_div (write_start cfg s (s.disk fb)).current_size cfg.BLOCK_SIZE :=
        ⟨rfl, rfl, rfl, hnb0⟩
      have hw0cur : (write_start cfg s (s.disk fb)).current_data_block = 0 := hhead
      have hw0off : (write_start cfg s (s.disk fb)).current_block_offset = 0 := by
        rw [hst.2.2.1, hst.2.1, hsize, Nat.zero_mod]
      have hpost :=
        write_read_aligned cfg junk buf buf.length s.free hB (by omega) hnd h16 buf.length 0
          (write_start cfg s (s.disk fb)) wf hw0off (by rw [hst.1, Nat.zero_mul])
          (by rw [Nat.zero_mul]; exact hlen0) rfl (Or.inl hw0cur) hl
      unfold aligned_post at hpost
      obtain ⟨hnf, hcdf, ⟨b0, hp0, hb00, hino, _, hread⟩, hframe, hchain, hlast⟩ := hpost
      rw [if_pos hw0cur] at hino
      have hsz := write_loop_ok_size cfg junk buf buf.length (by omega) buf.length
        (write_start cfg s (s.disk fb)) wf (by rw [hst.1]; omega)
        (by rw [hst.1, hst.2.1, hsize]; omega) hl
      have hinv := write_loop_ok_inv cfg junk buf buf.length hB0 (by omega) buf.length
        (write_start cfg s (s.disk fb)) wf (by rw [hst.1]; omega)
        (by rw [hst.1, hst.2.1, hsize]; omega) hst.2.2.1 hst.2.2.2 hl
      have hcs : wf.current_size = buf.length := by
        rw [hsz.2.1, hst.1, hst.2.1, hsize]; omega
      have hnb : wf.num_blocks = ceil_div buf.length cfg.BLOCK_SIZE := by rw [hinv.2, hcs]
      have hnb1 : 1 ≤ wf.num_blocks := by
        rw [hnb]; unfold ceil_div
        exact (Nat.one_le_div_iff hB0).mpr (by omega)
      have hnbl : wf.num_blocks ≤ buf.length := by
        rw [hnb]; exact ceil_div_le_self _ _ hB0
      have hslot : inode_slot wf.num_blocks = 4 + (wf.num_blocks - 1) * 2 := by
        unfold inode_slot sizeof_block_num_t
        have : wf.num_blocks + (2 ^ 32 - 1) = (wf.num_blocks - 1) + 2 ^ 32 := by omega
        rw [this, u32, Nat.add_mod_right, Nat.mod_eq_of_lt (by omega)]
      have hfin := write_finish_success cfg fb wf s1 hres
      have hfd := write_finish_disk cfg fb wf s1 hres
      have hb016 : b0 < 65536 := h16 b0 (List.getElem?_mem hp0)
      have hgetD0 : s.free.getD 0 0 = b0 := by simp [List.getD_eq_getElem?_getD, hp0]
      -- the new inode: size and head
      have hnewsize : load32 (s1.disk fb) 0 = buf.length := by
        rw [hfin.2.1, hcs]; exact u32_of_lt (by omega)
      have hnewhead : load16 (s1.disk fb) 4 = b0 := by
        rw [hfd.2, hino, hslot]
        by_cases h1 : wf.num_blocks = 1
        · have hle : buf.length - 0 * cfg.BLOCK_SIZE ≤ cfg.BLOCK_SIZE := by
            rw [Nat.zero_mul, Nat.sub_zero]
            by_contra hgt
            have := (non_final_block_iff cfg.BLOCK_SIZE buf.length 0 hB0 hlen0).mpr
              (by omega)
            rw [← hnb, h1] at this
            omega
          rw [hlast hle, hgetD0, h1]
          simp only [load16, store32, store16]
          simp
          omega
        · simp only [load16, store32, store16]
          have e1 : ¬ (4 = 4 + (wf.num_blocks - 1) * 2) := by omega
          have e2 : ¬ (4 = 4 + (wf.num_blocks - 1) * 2 + 1) := by omega
          have e3 : ¬ (4 + 1 = 4 + (wf.num_blocks - 1) * 2) := by omega
          have e4 : ¬ (4 + 1 = 4 + (wf.num_blocks - 1) * 2 + 1) := by omega
          simp [e1, e2, e3, e4]
          omega
      -- the directory block is unchanged
      have hcd1 : s1.current_dir = s.current_dir := by
        rw [hfin.2.2.2.1, hcdf]; rfl
      have hnb1' : s1.nblocks = s.nblocks := by
        rw [hfin.2.2.1, hnf]; rfl
      have hdir : s1.disk s.current_dir = s.disk s.current_dir := by
        rw [hfin.2.2.2.2.2 _ (Ne.symm hfbcd)]
        exact hframe _ hcdfree (fun hne => absurd hw0cur hne)
      have hrd := hread s1 [] buf.length (by rw [hfin.2.2.1])
        (fun d hd => hfin.2.2.2.2.2 d (fun e => hfbfree (e ▸ hd)))
        (by rw [Nat.zero_mul]; omega)
      simp only [Nat.zero_mul, Nat.sub_zero, List.nil_append] at hrd
      rw [← List.range_eq_range'] at hrd
      have hjr := hreadreg _ (by rw [hcd1, hnb1']; exact hio) (by rw [hcd1, hdir]; exact hfind)
        (by rw [hcd1, hdir]; exact hkind) (by rw [hcd1, hdir, hfbdef, hnb1']; exact hfb)
        (by
          rw [hcd1, hdir, hfbdef, hnewsize, hnewhead, Nat.min_eq_right hcap]
          exact hrd)
      simp only [if_true] at hjr
      refine ⟨_, hjr, by simp, ?_, ?_, ?_⟩
      · intro x hx
        rw [List.getD_eq_getElem?_getD, List.getElem?_map, List.getElem?_range hx]
        simp only [Option.map_some', Option.getD_some]
        unfold appended_byte
        by_cases hnf2 : x / cfg.BLOCK_SIZE + 1 < ceil_div buf.length cfg.BLOCK_SIZE
        · rw [if_pos hnf2,
            if_pos ((non_final_block_iff cfg.BLOCK_SIZE buf.length _ hB0 hlen0).mp hnf2)]
        · rw [if_neg hnf2, if_neg (fun h =>
            hnf2 ((non_final_block_iff cfg.BLOCK_SIZE buf.length _ hB0 hlen0).mpr h))]
      · intro k hk
        have hk2 := (non_final_block_iff cfg.BLOCK_SIZE buf.length k hB0 hlen0).mp hk
        have hkl : k < s.free.length :=
          write_loop_pool_length cfg junk buf buf.length s.free (by omega) hnd
            buf.length 0 (write_start cfg s (s.disk fb)) wf hw0off
            (by rw [hst.1, Nat.zero_mul]) (by rw [Nat.zero_mul]; exact hlen0) rfl
            (Or.inl hw0cur) hl k (Nat.zero_le _) (by
              have : k * cfg.BLOCK_SIZE ≤ (k + 1) * cfg.BLOCK_SIZE :=
                Nat.mul_le_mul_right _ (by omega)
              omega)
        have hmemk : s.free.getD k 0 ∈ s.free := by
          rw [List.getD_eq_getElem?_getD, List.getElem?_eq_getElem hkl]
          exact List.getElem_mem _
        have hfbk : s.free.getD k 0 ≠ fb := fun e => hfbfree (e ▸ hmemk)
        unfold next_block
        rw [hfin.2.2.2.2.2 _ hfbk]
        exact hchain k (Nat.zero_le _) hk2
      · intro hle
        apply List.ext_getElem
        · simp
        · intro x h1 h2
          simp only [List.getElem_map, List.getElem_range]
          have hx : x < buf.length := h2
          unfold appended_byte
          have hnot : ¬ (x / cfg.BLOCK_SIZE + 1) * cfg.BLOCK_SIZE < buf.length := by
            have : 1 * cfg.BLOCK_SIZE ≤ (x / cfg.BLOCK_SIZE + 1) * cfg.BLOCK_SIZE :=
              Nat.mul_le_mul_right _ (Nat.le_add_left 1 _)
            omega
          rw [if_neg hnot, List.getD_eq_getElem?_getD, List.getElem?_eq_getElem hx]
          rfl

/-- Witness for C20: the bytes `0 .. 69` appended to the fresh file `a.txt` on
the 64-byte device; the read returns 70 bytes that are the bytes written except
at indices 62 and 63, which hold the number 4 of the second data block. -/
theorem single_append_read_back_witness :
    ∃ r, jfs_read cfg64 fs_seq70 name_a 70 = some (E_SUCCESS, r, 70) ∧
      r.length = 70 ∧ r.getD 61 0 = 61 ∧ r.getD 62 0 = 4 ∧ r.getD 63 0 = 0 ∧
      r.getD 64 0 = 64 ∧ next_block cfg64 fs_seq70 3 = 4 :=
  have h := single_append_read_back cfg64 junk0 fs_a fs_seq70 name_a seq70 0 70
    (by decide) (by decide) (by decide) (by decide) (by decide) (by decide) (by decide)
    (by decide) (by decide) (by decide) (by decide) (by decide) (by decide) (by decide)
    (by decide) (result_of_code _ fs_a E_SUCCESS (by decide)) (by decide)
  match h with
  | ⟨r, h1, h2, h3, h4, _⟩ =>
    ⟨r, h1, h2, (h3 61 (by decide)).trans (by decide), (h3 62 (by decide)).trans (by decide),
      (h3 63 (by decide)).trans (by decide), (h3 64 (by decide)).trans (by decide),
      h4 0 (by decide)⟩

/-! ## Preservation of the state invariant -/

theorem inode_ok_mono (cfg : Config) (sized : Prop) (role : Nat → Nat) (free free1 : List Nat)
    (ib : Block) (hsub : ∀ x, x ∈ free1 → x ∈ free) (h : inode_ok cfg sized role free ib) :
    inode_ok cfg sized role free1 ib :=
  ⟨h.1, fun hne => ⟨(h.2 hne).1, fun hm => (h.2 hne).2 (hsub _ hm)⟩⟩

/-- The invariant survives every change that keeps the cursor, shrinks the
free pool and leaves the directory and metadata blocks alone. -/
theorem inv_frame (cfg : Config) (sized : Prop) (s s1 : FS) (role : Nat → Nat)
    (h : Inv cfg sized s role)
    (hcd : s1.current_dir = s.current_dir) (hsub : List.Sublist s1.free s.free)
    (hdisk : ∀ d, role d ≠ 0 → s1.disk d = s.disk d) : Inv cfg sized s1 role where
  role_zero := h.role_zero
  role_root := h.role_root
  role_cur := by rw [hcd]; exact h.role_cur
  free_nodup := List.Nodup.sublist hsub h.free_nodup
  free_role := fun b hb => h.free_role b (hsub.subset hb)
  dirs := fun d hd => by
    rw [hdisk d (by rw [hd]; decide)]
    exact h.dirs d hd
  inodes := fun f hf => by
    rw [hdisk f (by rw [hf]; decide)]
    exact inode_ok_mono cfg sized role s.free s1.free _ (fun x hx => hsub.subset hx) (h.inodes f hf)
  refs := fun d d1 i i1 hd hd1 hi hi1 => by
    rw [hdisk d (by rw [hd]; decide), hdisk d1 (by rw [hd1]; decide)]
    exact h.refs d d1 i i1 hd hd1 hi hi1

/-- The invariant survives a move of the cursor to a directory block. -/
theorem inv_chdir (cfg : Config) (sized : Prop) (s : FS) (role : Nat → Nat) (t : Nat)
    (h : Inv cfg sized s role) (ht : role t = 1) :
    Inv cfg sized { s with current_dir := t } role where
  role_zero := h.role_zero
  role_root := h.role_root
  role_cur := ht
  free_nodup := h.free_nodup
  free_role := h.free_role
  dirs := h.dirs
  inodes := h.inodes
  refs := h.refs

theorem setb_flag_facts (cfg : Config) (bd : Block) (i0 : Nat) :
    (∀ i, setb bd (i0 * entry_size cfg) 0 (i * entry_size cfg) = bd (i * entry_size cfg) ∨
      setb bd (i0 * entry_size cfg) 0 (i * entry_size cfg) = 0) ∧
    (∀ i t, 1 ≤ t → t < entry_size cfg →
      setb bd (i0 * entry_size cfg) 0 (i * entry_size cfg + t)
        = bd (i * entry_size cfg + t)) := by
  constructor
  · intro i
    unfold setb
    by_cases e : i * entry_size cfg = i0 * entry_size cfg
    · right; rw [if_pos e]
    · left; rw [if_neg e]
  · intro i t h1 h2
    unfold setb
    by_cases e : i = i0
    · rw [e, if_neg (by omega)]
    · rw [if_neg]
      have := slot_disjoint (entry_size cfg) i i0 t 0 e h2 (by omega)
      rw [Nat.add_zero] at this
      exact this

/-- Two blocks that agree on the bytes of slot `i` after its used flag have
the same kind byte, name field and target there. -/
theorem slot_fields_eq (cfg : Config) (bd bd1 : Block) (i : Nat)
    (h : ∀ t, 1 ≤ t → t < entry_size cfg →
      bd1 (i * entry_size cfg + t) = bd (i * entry_size cfg + t)) :
    bd1 (i * entry_size cfg + 1) = bd (i * entry_size cfg + 1) ∧
    (∀ k, k < cfg.MAX_NAME_LENGTH →
      bd1 (i * entry_size cfg + 2 + k) = bd (i * entry_size cfg + 2 + k)) ∧
    slot_target cfg bd1 i = slot_target cfg bd i := by
  have hes : entry_size cfg = 1 + 1 + cfg.MAX_NAME_LENGTH + 2 := rfl
  refine ⟨h 1 (le_refl _) (by omega), ?_, ?_⟩
  · intro k hk
    rw [Nat.add_assoc, h (2 + k) (by omega) (by omega)]
  · have e1 : i * entry_size cfg + 2 + cfg.MAX_NAME_LENGTH
        = i * entry_size cfg + (2 + cfg.MAX_NAME_LENGTH) := by omega
    have e2 : i * entry_size cfg + 2 + cfg.MAX_NAME_LENGTH + 1
        = i * entry_size cfg + (2 + cfg.MAX_NAME_LENGTH + 1) := by omega
    unfold slot_target load16
    rw [e2, e1, h (2 + cfg.MAX_NAME_LENGTH) (by omega) (by omega),
      h (2 + cfg.MAX_NAME_LENGTH + 1) (by omega) (by omega)]

/-- A directory block stays well formed when used flags are cleared, the
other bytes of its slots are kept, and the targets of the slots that remain
used keep their use. -/
theorem dir_ok_update (cfg : Config) (role role1 : Nat → Nat) (d : Nat) (bd bd1 : Block)
    (h : dir_ok cfg role d bd)
    (hflag : ∀ i, i < max_entries cfg →
      bd1 (i * entry_size cfg) = bd (i * entry_size cfg) ∨ bd1 (i * entry_size cfg) = 0)
    (hfields : ∀ i t, 1 ≤ t → t < entry_size cfg →
      bd1 (i * entry_size cfg + t) = bd (i * entry_size cfg + t))
    (hrole : ∀ i, i < max_entries cfg → bd1 (i * entry_size cfg) ≠ 0 →
      role1 (slot_target cfg bd i) = role (slot_target cfg bd i)) :
    dir_ok cfg role1 d bd1 := by
  have hused : ∀ i, i < max_entries cfg → bd1 (i * entry_size cfg) ≠ 0 →
      bd (i * entry_size cfg) ≠ 0 := by
    intro i hi hne
    rcases hflag i hi with e | e
    · rw [← e]; exact hne
    · exact absurd e hne
  refine ⟨?_, ?_, ?_⟩
  · intro i hi
    rcases hflag i hi with e | e
    · rw [e]; exact h.1 i hi
    · exact Or.inl e
  · intro i j hi hj hij hui huj
    rw [strncmp_eq0_congr cfg.MAX_NAME_LENGTH _ (fun k => bd (i * entry_size cfg + 2 + k)) _
      (fun k => bd (j * entry_size cfg + 2 + k))
      (fun k hk => (slot_fields_eq cfg bd bd1 i (hfields i)).2.1 k hk)
      (fun k hk => (slot_fields_eq cfg bd bd1 j (hfields j)).2.1 k hk)]
    exact h.2.1 i j hi hj hij (hused i hi hui) (hused j hj huj)
  · intro i hi hui
    obtain ⟨hk, _, ht⟩ := slot_fields_eq cfg bd bd1 i (hfields i)
    rw [ht, hk, hrole i hi hui]
    exact h.2.2 i hi (hused i hi hui)

/-- The invariant survives the removal of a used slot of the current
directory whose target block is returned to the free pool. -/
theorem inv_remove (cfg : Config) (sized : Prop) (s s2 : FS) (role : Nat → Nat) (i0 : Nat)
    (h : Inv cfg sized s role) (hi0 : i0 < max_entries cfg)
    (hused : s.disk s.current_dir (i0 * entry_size cfg) ≠ 0)
    (hcd : s2.current_dir = s.current_dir)
    (hfree : s2.free = slot_target cfg (s.disk s.current_dir) i0 :: s.free)
    (hdisk : s2.disk = fun x =>
      if x = s.current_dir then setb (s.disk s.current_dir) (i0 * entry_size cfg) 0
      else s.disk x) :
    Inv cfg sized s2
      (fun x => if x = slot_target cfg (s.disk s.current_dir) i0 then 0 else role x) := by
  obtain ⟨hne_cd, hne_1, hkind⟩ := (h.dirs _ h.role_cur).2.2 i0 hi0 hused
  generalize htgt : slot_target cfg (s.disk s.current_dir) i0 = tgt at *
  have hrt : role tgt ≠ 0 := by
    rcases hkind with ⟨_, e⟩ | ⟨_, e⟩ <;> rw [e] <;> decide
  have h16 : tgt < 65536 := by rw [← htgt]; exact load16_lt _ _
  have hrole1 : ∀ x v, v ≠ 0 → (if x = tgt then 0 else role x) = v → x ≠ tgt ∧ role x = v := by
    intro x v hv hx
    by_cases e : x = tgt
    · rw [if_pos e] at hx; exact absurd hx.symm hv
    · rw [if_neg e] at hx; exact ⟨e, hx⟩
  have hrole0 : ∀ x, role x = 0 → (if x = tgt then 0 else role x) = 0 := by
    intro x hx
    by_cases e : x = tgt
    · rw [if_pos e]
    · rw [if_neg e]; exact hx
  have hblock : ∀ d, (∀ i, s2.disk d (i * entry_size cfg) = s.disk d (i * entry_size cfg) ∨
        s2.disk d (i * entry_size cfg) = 0) ∧
      (∀ i t, 1 ≤ t → t < entry_size cfg →
        s2.disk d (i * entry_size cfg + t) = s.disk d (i * entry_size cfg + t)) := by
    intro d
    rw [hdisk]
    by_cases e : d = s.current_dir
    · simp only [if_pos e, e]
      exact setb_flag_facts cfg _ i0
    · simp only [if_neg e]
      exact ⟨fun i => Or.inl trivial, fun _ _ _ _ => trivial⟩
  have hused2 : ∀ d i, s2.disk d (i * entry_size cfg) ≠ 0 →
      s.disk d (i * entry_size cfg) ≠ 0 := by
    intro d i hne
    rcases (hblock d).1 i with e | e
    · rw [← e]; exact hne
    · exact absurd e hne
  have hclear : s2.disk s.current_dir (i0 * entry_size cfg) = 0 := by
    rw [hdisk]
    simp only [if_true, setb]
  refine ⟨hrole0 0 h.role_zero, ?_, ?_, ?_, ?_, ?_, ?_, ?_⟩
  · show (if 1 = tgt then 0 else role 1) = 1
    rw [if_neg (Ne.symm hne_1)]; exact h.role_root
  · show (if s2.current_dir = tgt then 0 else role s2.current_dir) = 1
    rw [hcd, if_neg (Ne.symm hne_cd)]; exact h.role_cur
  · rw [hfree]
    exact List.nodup_cons.mpr ⟨fun hm => hrt (h.free_role tgt hm).1, h.free_nodup⟩
  · intro b hb
    rw [hfree] at hb
    rcases List.mem_cons.mp hb with e | e
    · exact ⟨by rw [e]; exact if_pos rfl, by rw [e]; exact h16⟩
    · exact ⟨hrole0 b (h.free_role b e).1, (h.free_role b e).2⟩
  · intro d hd
    obtain ⟨hdt, hd1⟩ := hrole1 d 1 (by decide) hd
    refine dir_ok_update cfg role _ d (s.disk d) (s2.disk d) (h.dirs d hd1)
      (fun i _ => (hblock d).1 i) (hblock d).2 ?_
    intro i hi hui
    show (if slot_target cfg (s.disk d) i = tgt then 0 else role (slot_target cfg (s.disk d) i))
      = role (slot_target cfg (s.disk d) i)
    rw [if_neg]
    intro e
    have := h.refs d s.current_dir i i0 hd1 h.role_cur hi hi0 (hused2 d i hui) hused
      (by rw [e, htgt])
    rw [this.1, this.2] at hui
    exact hui hclear
  · intro f hf
    obtain ⟨hft, hf2⟩ := hrole1 f 2 (by decide) hf
    have hfc : f ≠ s.current_dir := by
      intro e
      rw [e, h.role_cur] at hf2
      exact absurd hf2 (by decide)
    have hsame : s2.disk f = s.disk f := by
      rw [hdisk]; simp only [if_neg hfc]
    rw [hsame, hfree]
    obtain ⟨a1, a3⟩ := h.inodes f hf2
    refine ⟨a1, fun hne => ⟨hrole0 _ (a3 hne).1, ?_⟩⟩
    intro hm
    rcases List.mem_cons.mp hm with e | e
    · exact hrt (e ▸ (a3 hne).1)
    · exact (a3 hne).2 e
  · intro d d1 i i1 hd hd1 hi hi1 hu hu1 ht
    obtain ⟨_, hdr⟩ := hrole1 d 1 (by decide) hd
    obtain ⟨_, hd1r⟩ := hrole1 d1 1 (by decide) hd1
    rw [(slot_fields_eq cfg _ _ i ((hblock d).2 i)).2.2,
      (slot_fields_eq cfg _ _ i1 ((hblock d1).2 i1)).2.2] at ht
    exact h.refs d d1 i i1 hdr hd1r hi hi1 (hused2 d i hu) (hused2 d1 i1 hu1) ht

theorem put_entry_other_fields (cfg : Config) (bd : Block) (j kind : Nat) (name : Name)
    (b i : Nat) (hij : i ≠ j) :
    put_entry cfg bd j kind name b (i * entry_size cfg) = bd (i * entry_size cfg) ∧
    ∀ t, 1 ≤ t → t < entry_size cfg →
      put_entry cfg bd j kind name b (i * entry_size cfg + t) = bd (i * entry_size cfg + t) := by
  have hes : entry_size cfg = 1 + 1 + cfg.MAX_NAME_LENGTH + 2 := rfl
  refine ⟨?_, fun t _ ht => put_entry_other cfg bd j kind name b i t hij ht⟩
  have := put_entry_other cfg bd j kind name b i 0 hij (by omega)
  rw [Nat.add_zero] at this
  exact this

theorem slot_target_put_self (cfg : Config) (bd : Block) (j kind : Nat) (name : Name)
    (b : Nat) (hb : b < 65536) :
    slot_target cfg (put_entry cfg bd j kind name b) j = b := by
  unfold slot_target
  rw [put_entry_target, Nat.mod_eq_of_lt hb]

theorem no_hit_name (cfg : Config) (bd : Block) (name : Name) (i : Nat)
    (hu : bd (i * entry_size cfg) ≠ 0) (hn : ¬ slot_hit cfg bd name i) :
    strncmp_eq0 (fun k => bd (i * entry_size cfg + 2 + k)) (padded name) cfg.MAX_NAME_LENGTH
      = false := by
  rw [strncmp_eq0_padded]
  cases hc : strncmp_eq0 (fun k => bd (i * entry_size cfg + 2 + k)) (cstr name)
      cfg.MAX_NAME_LENGTH with
  | false => rfl
  | true => exact absurd ⟨hu, hc⟩ hn

/-- A well-formed directory block stays well formed when a slot is filled in
with a name no used slot carries and a target that has the use its kind byte
names. -/
theorem dir_ok_put (cfg : Config) (role role1 : Nat → Nat) (d : Nat) (bd : Block)
    (j kind : Nat) (name : Name) (b : Nat)
    (h : dir_ok cfg role d bd)
    (hnohit : ∀ i, i < max_entries cfg → ¬ slot_hit cfg bd name i)
    (hb16 : b < 65536) (hbd : b ≠ d) (hb1 : b ≠ 1)
    (hk : (kind = 1 ∧ role1 b = 1) ∨ (kind = 0 ∧ role1 b = 2))
    (hrole : ∀ i, i < max_entries cfg → i ≠ j → bd (i * entry_size cfg) ≠ 0 →
      role1 (slot_target cfg bd i) = role (slot_target cfg bd i)) :
    dir_ok cfg role1 d (put_entry cfg bd j kind name b) := by
  have hother := put_entry_other_fields cfg bd j kind name b
  have hname : ∀ i, i ≠ j → ∀ k, k < cfg.MAX_NAME_LENGTH →
      put_entry cfg bd j kind name b (i * entry_size cfg + 2 + k)
        = bd (i * entry_size cfg + 2 + k) :=
    fun i hij => (slot_fields_eq cfg bd _ i (hother i hij).2).2.1
  have hself : ∀ k, k < cfg.MAX_NAME_LENGTH →
      put_entry cfg bd j kind name b (j * entry_size cfg + 2 + k) = padded name k :=
    fun k hk => put_entry_name cfg bd j kind name b k hk
  refine ⟨?_, ?_, ?_⟩
  · intro i hi
    by_cases e : i = j
    · right; rw [e]; exact put_entry_flag cfg bd j kind name b
    · rw [(hother i e).1]; exact h.1 i hi
  · intro i i1 hi hi1 hne hui hui1
    by_cases e : i = j
    · have e1 : i1 ≠ j := fun e1 => hne (e.trans e1.symm)
      rw [(hother i1 e1).1] at hui1
      rw [strncmp_eq0_congr cfg.MAX_NAME_LENGTH _ (padded name) _
        (fun k => bd (i1 * entry_size cfg + 2 + k))
        (fun k hk => by rw [e]; exact hself k hk) (fun k hk => hname i1 e1 k hk),
        strncmp_eq0_symm]
      exact no_hit_name cfg bd name i1 hui1 (hnohit i1 hi1)
    · rw [(hother i e).1] at hui
      by_cases e1 : i1 = j
      · rw [strncmp_eq0_congr cfg.MAX_NAME_LENGTH _ (fun k => bd (i * entry_size cfg + 2 + k)) _
          (padded name) (fun k hk => hname i e k hk)
          (fun k hk => by rw [e1]; exact hself k hk)]
        exact no_hit_name cfg bd name i hui (hnohit i hi)
      · rw [(hother i1 e1).1] at hui1
        rw [strncmp_eq0_congr cfg.MAX_NAME_LENGTH _ (fun k => bd (i * entry_size cfg + 2 + k)) _
          (fun k => bd (i1 * entry_size cfg + 2 + k)) (fun k hk => hname i e k hk)
          (fun k hk => hname i1 e1 k hk)]
        exact h.2.1 i i1 hi hi1 hne hui hui1
  · intro i hi hui
    by_cases e : i = j
    · rw [e, slot_target_put_self cfg bd j kind name b hb16, put_entry_kind]
      exact ⟨hbd, hb1, hk⟩
    · rw [(hother i e).1] at hui
      obtain ⟨hkd, _, ht⟩ := slot_fields_eq cfg bd _ i (hother i e).2
      rw [ht, hkd, hrole i hi e hui]
      exact h.2.2 i hi hui

theorem dir_ok_zero (cfg : Config) (role : Nat → Nat) (d : Nat) : dir_ok cfg role d zero_block :=
  ⟨fun _ _ => Or.inl rfl, fun _ _ _ _ _ hu _ => absurd rfl hu, fun _ _ hu => absurd rfl hu⟩

theorem inode_ok_zero (cfg : Config) (sized : Prop) (role : Nat → Nat) (free : List Nat) :
    inode_ok cfg sized role free zero_block :=
  ⟨fun _ => ⟨Nat.zero_le _, ⟨fun _ => rfl, fun _ => rfl⟩⟩, fun hne => absurd rfl hne⟩

/-- The invariant survives a creation: a block other than 0 is taken from the
head of the free pool and zeroed, and a slot of the current directory is
filled in with a name no used slot carries. -/
theorem inv_create (cfg : Config) (sized : Prop) (s : FS) (role : Nat → Nat) (j kind : Nat)
    (name : Name) (b : Nat) (rest : List Nat) (h : Inv cfg sized s role)
    (hnohit : ∀ i, i < max_entries cfg → ¬ slot_hit cfg (s.disk s.current_dir) name i)
    (hfree : s.free = b :: rest) (hb0 : b ≠ 0) (hkind : kind = 0 ∨ kind = 1) :
    Inv cfg sized (created cfg s j kind name b rest)
      (fun x => if x = b then (if kind = 1 then 1 else 2) else role x) := by
  have hbm : b ∈ s.free := by rw [hfree]; exact List.mem_cons_self _ _
  obtain ⟨hrb, hb16⟩ := h.free_role b hbm
  have hnd : (b :: rest).Nodup := hfree ▸ h.free_nodup
  have hbrest : b ∉ rest := (List.nodup_cons.mp hnd).1
  have hrestsub : ∀ x, x ∈ rest → x ∈ s.free := by
    intro x hx; rw [hfree]; exact List.mem_cons_of_mem _ hx
  have hne_of_role : ∀ x, role x ≠ 0 → x ≠ b := by
    intro x hx e
    rw [e] at hx
    exact hx hrb
  have hb1 : b ≠ 1 := Ne.symm (hne_of_role 1 (by rw [h.role_root]; decide))
  have hbcd : b ≠ s.current_dir :=
    Ne.symm (hne_of_role _ (by rw [h.role_cur]; decide))
  have hnr : (if kind = 1 then 1 else 2) ≠ 0 := by split <;> decide
  have hrole_old : ∀ x, x ≠ b →
      (if x = b then (if kind = 1 then 1 else 2) else role x) = role x :=
    fun x hx => if_neg hx
  have hrole_new : (if b = b then (if kind = 1 then 1 else 2) else role b)
      = (if kind = 1 then 1 else 2) := if_pos rfl
  have hdisk_cd : (created cfg s j kind name b rest).disk s.current_dir
      = put_entry cfg (s.disk s.current_dir) j kind name b := by
    simp only [created, if_true]
  have hdisk_b : (created cfg s j kind name b rest).disk b = zero_block := by
    simp only [created, if_neg hbcd, if_true]
  have hdisk_other : ∀ m, m ≠ s.current_dir → m ≠ b →
      (created cfg s j kind name b rest).disk m = s.disk m := by
    intro m h1 h2
    simp only [created, if_neg h1, if_neg h2]
  have htgt_role : ∀ d i, role d = 1 → i < max_entries cfg →
      s.disk d (i * entry_size cfg) ≠ 0 → slot_target cfg (s.disk d) i ≠ b := by
    intro d i hd hi hu
    apply hne_of_role
    rcases ((h.dirs d hd).2.2 i hi hu).2.2 with ⟨_, e⟩ | ⟨_, e⟩ <;> rw [e] <;> decide
  have hk : (kind = 1 ∧ (if b = b then (if kind = 1 then 1 else 2) else role b) = 1) ∨
      (kind = 0 ∧ (if b = b then (if kind = 1 then 1 else 2) else role b) = 2) := by
    rw [hrole_new]
    rcases hkind with e | e
    · right; rw [e]; exact ⟨rfl, rfl⟩
    · left; rw [e]; exact ⟨rfl, rfl⟩
  -- every used slot of a directory block of the new state is the new slot or an old one
  have hcls : ∀ d i, (if d = b then (if kind = 1 then 1 else 2) else role d) = 1 →
      i < max_entries cfg →
      (created cfg s j kind name b rest).disk d (i * entry_size cfg) ≠ 0 →
      (d = s.current_dir ∧ i = j ∧
        slot_target cfg ((created cfg s j kind name b rest).disk d) i = b) ∨
      (role d = 1 ∧ (d = s.current_dir → i ≠ j) ∧ s.disk d (i * entry_size cfg) ≠ 0 ∧
        slot_target cfg ((created cfg s j kind name b rest).disk d) i
          = slot_target cfg (s.disk d) i) := by
    intro d i hd hi hu
    by_cases edb : d = b
    · rw [edb, hdisk_b] at hu
      exact absurd rfl hu
    · rw [hrole_old d edb] at hd
      by_cases edc : d = s.current_dir
      · rw [edc] at hu ⊢
        rw [hdisk_cd] at hu ⊢
        by_cases eij : i = j
        · left
          rw [eij]
          exact ⟨rfl, rfl, slot_target_put_self cfg _ j kind name b hb16⟩
        · right
          obtain ⟨hf, hfs⟩ := put_entry_other_fields cfg (s.disk s.current_dir) j kind name b i eij
          rw [hf] at hu
          exact ⟨h.role_cur, fun _ => eij, hu, (slot_fields_eq cfg _ _ i hfs).2.2⟩
      · right
        rw [hdisk_other d edc edb] at hu ⊢
        exact ⟨hd, fun e => absurd e edc, hu, rfl⟩
  refine ⟨?_, ?_, ?_, ?_, ?_, ?_, ?_, ?_⟩
  · show (if 0 = b then (if kind = 1 then 1 else 2) else role 0) = 0
    rw [if_neg (Ne.symm hb0)]; exact h.role_zero
  · show (if 1 = b then (if kind = 1 then 1 else 2) else role 1) = 1
    rw [if_neg (Ne.symm hb1)]; exact h.role_root
  · show (if s.current_dir = b then (if kind = 1 then 1 else 2) else role s.current_dir) = 1
    rw [if_neg (Ne.symm hbcd)]; exact h.role_cur
  · exact (List.nodup_cons.mp hnd).2
  · intro x hx
    have hxb : x ≠ b := fun e => hbrest (e ▸ hx)
    rw [hrole_old x hxb]
    exact h.free_role x (hrestsub x hx)
  · intro d hd
    by_cases edb : d = b
    · rw [edb, hdisk_b]; exact dir_ok_zero cfg _ b
    · rw [hrole_old d edb] at hd
      by_cases edc : d = s.current_dir
      · rw [edc, hdisk_cd]
        exact dir_ok_put cfg role _ s.current_dir _ j kind name b (h.dirs _ h.role_cur) hnohit
          hb16 hbcd hb1 hk
          (fun i hi _ hu => hrole_old _ (htgt_role _ i h.role_cur hi hu))
      · rw [hdisk_other d edc edb]
        exact dir_ok_update cfg role _ d (s.disk d) (s.disk d) (h.dirs d hd)
          (fun _ _ => Or.inl rfl) (fun _ _ _ _ => rfl)
          (fun i hi hu => hrole_old _ (htgt_role d i hd hi hu))
  · intro f hf
    by_cases efb : f = b
    · rw [efb, hdisk_b]; exact inode_ok_zero cfg sized _ _
    · rw [hrole_old f efb] at hf
      have hfc : f ≠ s.current_dir := by
        intro e
        rw [e, h.role_cur] at hf
        exact absurd hf (by decide)
      rw [hdisk_other f hfc efb]
      obtain ⟨a1, a3⟩ := h.inodes f hf
      refine ⟨a1, fun hne => ?_⟩
      have hhb : load16 (s.disk f) 4 ≠ b := fun e => (a3 hne).2 (e ▸ hbm)
      exact ⟨(hrole_old _ hhb).trans (a3 hne).1,
        fun hm => (a3 hne).2 (hrestsub _ hm)⟩
  · intro d d1 i i1 hd hd1 hi hi1 hu hu1 ht
    rcases hcls d i hd hi hu with ⟨c1, c2, c3⟩ | ⟨c1, c2, c3, c4⟩
    · rcases hcls d1 i1 hd1 hi1 hu1 with ⟨e1, e2, e3⟩ | ⟨e1, e2, e3, e4⟩
      · exact ⟨c1.trans e1.symm, c2.trans e2.symm⟩
      · rw [c3, e4] at ht
        exact absurd ht.symm (htgt_role d1 i1 e1 hi1 e3)
    · rcases hcls d1 i1 hd1 hi1 hu1 with ⟨e1, e2, e3⟩ | ⟨e1, e2, e3, e4⟩
      · rw [c4, e3] at ht
        exact absurd ht (htgt_role d i c1 hi c3)
      · rw [c4, e4] at ht
        exact h.refs d d1 i i1 c1 e1 hi hi1 c3 e3 ht

theorem allocate_block_sublist (s : FS) : List.Sublist (allocate_block s).2.free s.free := by
  unfold allocate_block
  split
  · exact List.Sublist.refl _
  · rename_i b rest heq
    rw [heq]
    exact List.sublist_cons_self _ _

theorem allocate_block_fresh (s : FS) (hnd : s.free.Nodup) (h : (allocate_block s).1 ≠ 0) :
    (allocate_block s).1 ∉ (allocate_block s).2.free := by
  unfold allocate_block at h ⊢
  split
  · rename_i heq
    simp [heq] at h
  · rename_i b rest heq
    rw [heq] at hnd
    exact (List.nodup_cons.mp hnd).1

theorem write_prepare_sublist (cfg : Config) (junk : Block) (w w1 : WriteState)
    (dbuf : Block) (h : write_prepare cfg junk w = .ok (w1, dbuf)) :
    List.Sublist w1.fs.free w.fs.free := by
  have hs := allocate_block_sublist w.fs
  unfold write_prepare at h
  dsimp only at h
  split at h
  · split at h
    · cases h
    · split at h
      · split at h
        · cases h
        · split at h
          · cases h
          · rename_i fs2 hw
            have hw2 := write_block_some _ _ _ _ hw
            cases h
            show List.Sublist fs2.free w.fs.free
            rw [hw2.2.2.1]
            exact hs
      · cases h
        exact hs
  · split at h
    · cases h
    · cases h
      exact List.Sublist.refl _

theorem write_prepare_error_frame (cfg : Config) (junk : Block) (w : WriteState) (e : Err)
    (fs : FS) (h : write_prepare cfg junk w = .error (e, fs)) :
    List.Sublist fs.free w.fs.free ∧ fs.disk = w.fs.disk ∧
      fs.current_dir = w.fs.current_dir := by
  have hs := allocate_block_sublist w.fs
  have hd := allocate_block_disk w.fs
  have hc := allocate_block_current_dir w.fs
  unfold write_prepare at h
  dsimp only at h
  split at h
  · split at h
    · cases h
      exact ⟨hs, hd, hc⟩
    · split at h
      · split at h
        · cases h
          exact ⟨hs, hd, hc⟩
        · split at h
          · cases h
            exact ⟨hs, hd, hc⟩
          · cases h
      · cases h
  · split at h
    · cases h
      exact ⟨List.Sublist.refl _, rfl, rfl⟩
    · cases h

/-- A successful first half of an iteration keeps the loop invariant; with
the clauses on the size it leaves a current block other than 0. -/
theorem write_prepare_good (cfg : Config) (junk : Block) (sized : Prop) (role : Nat → Nat)
    (w w1 : WriteState) (dbuf : Block) (h : write_prepare cfg junk w = .ok (w1, dbuf))
    (hg : write_good sized role w) :
    write_good sized role w1 ∧ (sized → w1.current_data_block ≠ 0) := by
  obtain ⟨hnd, hfr, hoff, hcur, hnone⟩ := hg
  have hs := allocate_block_sublist w.fs
  have hnd1 : (allocate_block w.fs).2.free.Nodup := List.Nodup.sublist hs hnd
  have hfr1 : ∀ b, b ∈ (allocate_block w.fs).2.free → role b = 0 ∧ b < 65536 :=
    fun b hb => hfr b (hs.subset hb)
  have hnot : ∀ x, x ∉ w.fs.free → x ∉ (allocate_block w.fs).2.free :=
    fun x hx hm => hx (hs.subset hm)
  unfold write_prepare at h
  dsimp only at h
  split at h
  · split at h
    · cases h
    · rename_i hb0
      have hbm := allocate_block_mem w.fs hb0
      have hbf := allocate_block_fresh w.fs hnd hb0
      have hbg := hfr _ hbm
      split at h
      · rename_i hprev
        split at h
        · cases h
        · split at h
          · cases h
          · rename_i fs2 hw
            have hw2 := write_block_some _ _ _ _ hw
            cases h
            obtain ⟨h1, h2, h3⟩ := (hcur hprev).2
            refine ⟨⟨?_, ?_, fun _ e => absurd e hb0,
              fun _ => ⟨⟨hbg.1, hbg.2, ?_⟩, h1, h2, ?_⟩, fun e => absurd e hb0⟩, fun _ => hb0⟩
            · show fs2.free.Nodup
              rw [hw2.2.2.1]; exact hnd1
            · show ∀ b, b ∈ fs2.free → role b = 0 ∧ b < 65536
              rw [hw2.2.2.1]; exact hfr1
            · show (allocate_block w.fs).1 ∉ fs2.free
              rw [hw2.2.2.1]; exact hbf
            · show load16 w.file_inode_data 4 ∉ fs2.free
              rw [hw2.2.2.1]; exact hnot _ h3
      · cases h
        have hl : load16 (store16 w.file_inode_data 4 (allocate_block w.fs).1) 4
            = (allocate_block w.fs).1 := by
          rw [load16_store16, Nat.mod_eq_of_lt hbg.2]
        refine ⟨⟨hnd1, hfr1, fun _ e => absurd e hb0,
          fun _ => ⟨⟨hbg.1, hbg.2, hbf⟩, ?_⟩, fun e => absurd e hb0⟩, fun _ => hb0⟩
        show load16 (store16 w.file_inode_data 4 (allocate_block w.fs).1) 4 ≠ 0 ∧
          role (load16 (store16 w.file_inode_data 4 (allocate_block w.fs).1) 4) = 0 ∧
          load16 (store16 w.file_inode_data 4 (allocate_block w.fs).1) 4
            ∉ (allocate_block w.fs).2.free
        rw [hl]
        exact ⟨hb0, hbg.1, hbf⟩
  · rename_i hoff0
    split at h
    · cases h
    · cases h
      exact ⟨⟨hnd, hfr, hoff, hcur, hnone⟩, fun hs e => hoff0 (hoff hs e)⟩

/-- A successful iteration keeps the loop invariant and the cursor and only
shrinks the free pool; with the clauses on the size it leaves a current block
other than 0. -/
theorem write_step_good (cfg : Config) (junk : Block) (buf : List Nat) (count : Nat)
    (sized : Prop) (role : Nat → Nat) (w w1 : WriteState)
    (h : write_step cfg junk buf count w = .ok w1)
    (hg : write_good sized role w) :
    write_good sized role w1 ∧ (sized → w1.current_data_block ≠ 0) ∧
      List.Sublist w1.fs.free w.fs.free := by
  unfold write_step at h
  split at h
  · cases h
  · rename_i wp dbuf hp
    obtain ⟨⟨g1, g2, g3, g4, g5⟩, hc⟩ := write_prepare_good cfg junk sized role w wp dbuf hp hg
    have hsub := write_prepare_sublist cfg junk w wp dbuf hp
    dsimp only at h
    split at h
    · cases h
    · rename_i fs1 hw
      have hw2 := write_block_some _ _ _ _ hw
      cases h
      refine ⟨⟨?_, ?_, fun hs e => absurd e (hc hs), fun hne => ?_, g5⟩, hc, ?_⟩
      · show fs1.free.Nodup
        rw [hw2.2.2.1]; exact g1
      · show ∀ b, b ∈ fs1.free → role b = 0 ∧ b < 65536
        rw [hw2.2.2.1]; exact g2
      · show (role wp.current_data_block = 0 ∧ wp.current_data_block < 65536 ∧
            wp.current_data_block ∉ fs1.free) ∧
          (load16 wp.file_inode_data 4 ≠ 0 ∧ role (load16 wp.file_inode_data 4) = 0 ∧
            load16 wp.file_inode_data 4 ∉ fs1.free)
        rw [hw2.2.2.1]; exact g4 hne
      · show List.Sublist fs1.free w.fs.free
        rw [hw2.2.2.1]; exact hsub

/-- An iteration that fails leaves the cursor, only shrinks the free pool,
and keeps every block that is neither the current block nor in the free
pool. -/
theorem write_step_error_frame (cfg : Config) (junk : Block) (buf : List Nat) (count : Nat)
    (w : WriteState) (e : Err) (fs : FS)
    (h : write_step cfg junk buf count w = .error (e, fs)) :
    fs.current_dir = w.fs.current_dir ∧ List.Sublist fs.free w.fs.free ∧
    ∀ d, w.current_data_block ≠ d → d ∉ w.fs.free → fs.disk d = w.fs.disk d := by
  unfold write_step at h
  split at h
  · rename_i e1 hp
    cases h
    obtain ⟨a1, a2, a3⟩ := write_prepare_error_frame cfg junk w e fs hp
    exact ⟨a3, a1, fun d _ _ => by rw [a2]⟩
  · rename_i wp dbuf hp
    dsimp only at h
    split at h
    · cases h
      exact ⟨(write_prepare_ok cfg junk w wp dbuf hp).2.2.2.2.2,
        write_prepare_sublist cfg junk w wp dbuf hp,
        fun d h1 h2 => (write_prepare_frame cfg junk d w wp dbuf hp h1 h2).1⟩
    · cases h

/-- The append loop keeps its invariant and the cursor and only shrinks the
free pool; with the clauses on the size, when it runs at least once it ends
with a current block other than 0. -/
theorem write_loop_good (cfg : Config) (junk : Block) (buf : List Nat) (count : Nat)
    (sized : Prop) (role : Nat → Nat) :
    ∀ (fuel : Nat) (w wf : WriteState), write_good sized role w →
      write_loop cfg junk buf count fuel w = some (.ok wf) →
      write_good sized role wf ∧ List.Sublist wf.fs.free w.fs.free ∧
      wf.fs.current_dir = w.fs.current_dir ∧
      (sized → w.bytes_written < count → wf.current_data_block ≠ 0) := by
  intro fuel
  induction fuel with
  | zero =>
    intro w wf hg h
    unfold write_loop at h
    split at h
    · cases h
    · rename_i hlt
      cases h
      exact ⟨hg, List.Sublist.refl _, rfl, fun _ hc => absurd hc hlt⟩
  | succ fuel ih =>
    intro w wf hg h
    unfold write_loop at h
    split at h
    · split at h
      · cases h
      · rename_i w1 hstep
        obtain ⟨g1, hc1, hs1⟩ := write_step_good cfg junk buf count sized role w w1 hstep hg
        obtain ⟨g2, hs2, hcd2, hc2⟩ := ih w1 wf g1 h
        have hcd1 := (write_step_ok cfg junk buf count w w1 hstep).2.2.2.2.2
        refine ⟨g2, hs2.trans hs1, hcd2.trans hcd1, fun hsz _ => ?_⟩
        by_cases hlt : w1.bytes_written < count
        · exact hc2 hsz hlt
        · -- the loop stops at `w1`
          have hstop : write_loop cfg junk buf count fuel w1 = some (.ok w1) := by
            cases fuel with
            | zero => unfold write_loop; rw [if_neg hlt]
            | succ n => unfold write_loop; rw [if_neg hlt]
          rw [hstop] at h
          have e : w1 = wf := Except.ok.inj (Option.some.inj h)
          rw [← e]
          exact hc1 hsz
    · rename_i hlt
      cases h
      exact ⟨hg, List.Sublist.refl _, rfl, fun _ hc => absurd hc hlt⟩

/-- A failing run of the append loop leaves the cursor, only shrinks the free
pool, and keeps every block that is neither the first current block nor in
the free pool. -/
theorem write_loop_error_frame (cfg : Config) (junk : Block) (buf : List Nat) (count : Nat) :
    ∀ (fuel : Nat) (w : WriteState) (e : Err) (fs : FS),
      write_loop cfg junk buf count fuel w = some (.error (e, fs)) →
      fs.current_dir = w.fs.current_dir ∧ List.Sublist fs.free w.fs.free ∧
      ∀ d, w.current_data_block ≠ d → d ∉ w.fs.free → fs.disk d = w.fs.disk d := by
  intro fuel
  induction fuel with
  | zero =>
    intro w e fs h
    unfold write_loop at h
    split at h <;> cases h
  | succ fuel ih =>
    intro w e fs h
    unfold write_loop at h
    split at h
    · split at h
      · rename_i e1 hstep
        have e2 : e1 = (e, fs) := Except.error.inj (Option.some.inj h)
        rw [e2] at hstep
        exact write_step_error_frame cfg junk buf count w e fs hstep
      · rename_i w1 hstep
        obtain ⟨a1, a2, a3⟩ := ih w1 e fs h
        have hok := write_step_ok cfg junk buf count w w1 hstep
        have hsub : List.Sublist w1.fs.free w.fs.free := by
          unfold write_step at hstep
          split at hstep
          · cases hstep
          · rename_i wp dbuf hp
            dsimp only at hstep
            split at hstep
            · cases hstep
            · rename_i fs1 hw
              cases hstep
              show List.Sublist fs1.free w.fs.free
              rw [(write_block_some _ _ _ _ hw).2.2.1]
              exact write_prepare_sublist cfg junk w wp dbuf hp
        refine ⟨a1.trans hok.2.2.2.2.2, a2.trans hsub, fun d h1 h2 => ?_⟩
        obtain ⟨f1, f2, f3⟩ := write_step_frame cfg junk buf count d w w1 hstep h1 h2
        rw [a3 d f2 f3, f1]
    · cases h

/-- The invariant survives the rewrite of a metadata block with a well-formed
content. -/
theorem inv_inode (cfg : Config) (sized : Prop) (s s1 : FS) (role : Nat → Nat) (fb : Nat)
    (h : Inv cfg sized s role) (hfb : role fb = 2) (hcd : s1.current_dir = s.current_dir)
    (hfree : s1.free = s.free) (hdisk : ∀ m, m ≠ fb → s1.disk m = s.disk m)
    (hok : inode_ok cfg sized role s.free (s1.disk fb)) : Inv cfg sized s1 role where
  role_zero := h.role_zero
  role_root := h.role_root
  role_cur := by rw [hcd]; exact h.role_cur
  free_nodup := by rw [hfree]; exact h.free_nodup
  free_role := by rw [hfree]; exact h.free_role
  dirs := fun d hd => by
    rw [hdisk d (fun e => by rw [e, hfb] at hd; exact absurd hd (by decide))]
    exact h.dirs d hd
  inodes := fun f hf => by
    rw [hfree]
    by_cases e : f = fb
    · rw [e]; exact hok
    · rw [hdisk f e]; exact h.inodes f hf
  refs := fun d d1 i i1 hd hd1 hi hi1 => by
    rw [hdisk d (fun e => by rw [e, hfb] at hd; exact absurd hd (by decide)),
      hdisk d1 (fun e => by rw [e, hfb] at hd1; exact absurd hd1 (by decide))]
    exact h.refs d d1 i i1 hd hd1 hi hi1

/-- The head a metadata block stores after the final statements of
`jfs_write`: the last current block when the store of the block number lands
on bytes 4 and 5, the head of the metadata buffer otherwise. -/
theorem finish_head (inode : Block) (nb cur size : Nat) :
    load16 (store32 (store16 inode (inode_slot nb) cur) 0 size) 4 = cur % 65536 ∨
    load16 (store32 (store16 inode (inode_slot nb) cur) 0 size) 4 = load16 inode 4 := by
  unfold inode_slot sizeof_block_num_t
  generalize u32 (nb + (2 ^ 32 - 1)) = v
  by_cases hv : v = 0
  · left
    rw [hv]
    have : load16 (store32 (store16 inode (4 + 0 * 2) cur) 0 size) 4
        = load16 (store16 inode 4 cur) 4 := by
      simp [load16, store32]
    rw [this, load16_store16]
  · right
    have h1 : ¬ (4 = 4 + v * 2) := by omega
    have h2 : ¬ (4 = 4 + v * 2 + 1) := by omega
    have h3 : ¬ (4 + 1 = 4 + v * 2) := by omega
    have h4 : ¬ (4 + 1 = 4 + v * 2 + 1) := by omega
    simp [load16, store32, store16, h1, h2, h3, h4]

/-- The invariant survives the part of `jfs_write` that follows the read of
the metadata block, whatever the outcome. -/
theorem write_body_inv (cfg : Config) (junk : Block) (sized : Prop) (s : FS)
    (role : Nat → Nat) (fb : Nat) (buf : List Nat) (count : Nat) (r : Err × FS)
    (hmax : sized → cfg.MAX_FILE_SIZE + 65535 < 2 ^ 32) (hcount : count < 65536)
    (hpos : 0 < count) (h : Inv cfg sized s role) (hfb : role fb = 2)
    (hr : write_body cfg junk s fb (s.disk fb) buf count = some r) :
    Inv cfg sized r.2 role := by
  obtain ⟨hsized, hhead⟩ := h.inodes fb hfb
  have hw0 : write_good sized role (write_start cfg s (s.disk fb)) := by
    refine ⟨h.free_nodup, h.free_role, fun hs e => ?_, fun hne => ?_, fun e => e⟩
    · show load32 (s.disk fb) 0 % cfg.BLOCK_SIZE = 0
      rw [(hsized hs).2.mpr e, Nat.zero_mod]
    · exact ⟨⟨(hhead hne).1, load16_lt _ _, (hhead hne).2⟩, hne, (hhead hne).1, (hhead hne).2⟩
  have hframe0 : ∀ d, role d ≠ 0 →
      (write_start cfg s (s.disk fb)).current_data_block ≠ d ∧
        d ∉ (write_start cfg s (s.disk fb)).fs.free := by
    intro d hd
    refine ⟨fun e => ?_, fun hm => hd (h.free_role d hm).1⟩
    have e1 : load16 (s.disk fb) 4 = d := e
    by_cases hz : load16 (s.disk fb) 4 = 0
    · rw [← e1, hz] at hd
      exact hd h.role_zero
    · rw [← e1] at hd
      exact hd (hhead hz).1
  unfold write_body at hr
  split at hr
  · cases hr
    exact h
  · rename_i hsize
    cases hl : write_loop cfg junk buf count count (write_start cfg s (s.disk fb)) with
    | none => rw [hl] at hr; cases hr
    | some res =>
      cases res with
      | error e =>
        rw [hl] at hr
        have he : e = r := Option.some.inj hr
        obtain ⟨e1, fs⟩ := e
        obtain ⟨a1, a2, a3⟩ := write_loop_error_frame cfg junk buf count count _ e1 fs hl
        rw [← he]
        exact inv_frame cfg sized s fs role h a1 a2
          (fun d hd => a3 d (hframe0 d hd).1 (hframe0 d hd).2)
      | ok wf =>
        rw [hl] at hr
        dsimp only at hr
        obtain ⟨⟨g1, g2, g3, g4, g5⟩, hsub, hcd, hcur⟩ :=
          write_loop_good cfg junk buf count sized role count _ wf hw0 hl
        have hinvf : Inv cfg sized wf.fs role :=
          inv_frame cfg sized s wf.fs role h hcd hsub
            (fun d hd => write_loop_frame cfg junk buf count d count _ wf
              (hframe0 d hd).1 (hframe0 d hd).2 hl)
        unfold write_finish at hr
        split at hr
        · cases hr
        · dsimp only at hr
          split at hr
          · cases hr
            exact hinvf
          · rename_i fs1 hw
            have hw2 := write_block_some _ _ _ _ hw
            cases hr
            refine inv_inode cfg sized wf.fs fs1 role fb hinvf hfb hw2.2.2.2.1 hw2.2.2.1
              (fun m hm => by rw [hw2.2.2.2.2]; exact if_neg hm) ?_
            have hdfb : fs1.disk fb = store32 (store16 wf.file_inode_data
                (inode_slot wf.num_blocks) wf.current_data_block) 0 wf.current_size := by
              rw [hw2.2.2.2.2]; exact if_pos rfl
            rw [hdfb]
            have hhd : load16 (store32 (store16 wf.file_inode_data
                (inode_slot wf.num_blocks) wf.current_data_block) 0 wf.current_size) 4 ≠ 0 →
                wf.current_data_block ≠ 0 ∧
                role (load16 (store32 (store16 wf.file_inode_data
                  (inode_slot wf.num_blocks) wf.current_data_block) 0 wf.current_size) 4) = 0 ∧
                load16 (store32 (store16 wf.file_inode_data
                  (inode_slot wf.num_blocks) wf.current_data_block) 0 wf.current_size) 4
                  ∉ wf.fs.free := by
              intro hne
              have hc0 : wf.current_data_block ≠ 0 := by
                intro e0
                rcases finish_head wf.file_inode_data wf.num_blocks wf.current_data_block
                  wf.current_size with e | e
                · rw [e, e0] at hne; exact hne rfl
                · rw [e, g5 e0] at hne; exact hne rfl
              obtain ⟨⟨c1, c2, c3⟩, c4, c5, c6⟩ := g4 hc0
              rcases finish_head wf.file_inode_data wf.num_blocks wf.current_data_block
                wf.current_size with e | e
              · rw [e, Nat.mod_eq_of_lt c2]
                exact ⟨hc0, c1, c3⟩
              · rw [e]
                exact ⟨hc0, c5, c6⟩
            refine ⟨fun hs => ?_, fun hne => (hhd hne).2⟩
            have hno : load32 (s.disk fb) 0 + count < 2 ^ 32 := by
              have h1 := (hsized hs).1
              have h2 := hmax hs
              clear hw0 hframe0 hhead hsize hhd hinvf g4 g5 g3 hcur hsized
              omega
            rw [u32_of_lt hno] at hsize
            have hsize1 := write_loop_ok_size cfg junk buf count
              (Nat.lt_of_lt_of_le hcount (by decide)) count
              (write_start cfg s (s.disk fb)) wf (Nat.zero_le _) hno hl
            have hcs : wf.current_size = load32 (s.disk fb) 0 + count := hsize1.2.1
            have hl32 : load32 (store32 (store16 wf.file_inode_data
                (inode_slot wf.num_blocks) wf.current_data_block) 0 wf.current_size) 0
                = load32 (s.disk fb) 0 + count := by
              rw [load32_store32, hcs]
              exact u32_of_lt hno
            have hc0 : wf.current_data_block ≠ 0 := hcur hs hpos
            obtain ⟨⟨_, c2, _⟩, c4, _, _⟩ := g4 hc0
            have hne : load16 (store32 (store16 wf.file_inode_data
                (inode_slot wf.num_blocks) wf.current_data_block) 0 wf.current_size) 4 ≠ 0 := by
              rcases finish_head wf.file_inode_data wf.num_blocks wf.current_data_block
                wf.current_size with e | e
              · rw [e, Nat.mod_eq_of_lt c2]; exact hc0
              · rw [e]; exact c4
            rw [hl32]
            exact ⟨Nat.le_of_not_gt hsize,
              fun e => absurd e (Nat.ne_of_gt (Nat.lt_of_lt_of_le hpos (Nat.le_add_left _ _))),
              fun e => absurd e hne⟩

/-- A slot the lookup loop stops at is a used slot of the directory. -/
theorem find_entry_used (cfg : Config) (bd : Block) (name : Name) (i : Nat)
    (h : find_entry cfg bd name (max_entries cfg) 0 = some i) :
    i < max_entries cfg ∧ bd (i * entry_size cfg) ≠ 0 := by
  obtain ⟨_, h2, h3, _⟩ := (find_entry_some_iff cfg bd name _ 0 i).mp h
  exact ⟨by rw [Nat.zero_add] at h2; exact h2, h3.1⟩

/-- The invariant survives `jfs_write`, whatever it returns. -/
theorem jfs_write_inv (cfg : Config) (junk : Block) (sized : Prop) (s : FS)
    (role : Nat → Nat) (name : Name) (buf : List Nat) (count : Nat) (r : Err × FS)
    (hmax : sized → cfg.MAX_FILE_SIZE + 65535 < 2 ^ 32) (hcount : count < 65536)
    (h : Inv cfg sized s role)
    (hr : jfs_write cfg junk s name buf count = some r) : Inv cfg sized r.2 role := by
  by_cases hc0 : count = 0
  · simp [jfs_write, hc0] at hr
    rw [← hr]; exact h
  by_cases hio : s.current_dir < s.nblocks
  swap
  · simp [jfs_write, hc0, read_block, hio] at hr
    rw [← hr]; exact h
  cases hfind : find_entry cfg (s.disk s.current_dir) name (max_entries cfg) 0 with
  | none =>
    simp [jfs_write, hc0, read_block, hio, hfind] at hr
    rw [← hr]; exact h
  | some i =>
    by_cases hkind : s.disk s.current_dir (i * entry_size cfg + 1) = 0
    swap
    · simp [jfs_write, hc0, read_block, hio, hfind, hkind] at hr
      rw [← hr]; exact h
    by_cases hfb : load16 (s.disk s.current_dir) (i * entry_size cfg + 2 + cfg.MAX_NAME_LENGTH)
        < s.nblocks
    swap
    · simp [jfs_write, hc0, read_block, hio, hfind, hkind, hfb] at hr
      rw [← hr]; exact h
    rw [jfs_write_regular cfg junk s name buf count i (Nat.pos_of_ne_zero hc0) hio hfind hkind
      hfb] at hr
    obtain ⟨hi, hu⟩ := find_entry_used cfg _ name i hfind
    have hrole : role (load16 (s.disk s.current_dir)
        (i * entry_size cfg + 2 + cfg.MAX_NAME_LENGTH)) = 2 := by
      rcases ((h.dirs _ h.role_cur).2.2 i hi hu).2.2 with ⟨e, _⟩ | ⟨_, e⟩
      · rw [hkind] at e; exact absurd e (by decide)
      · exact e
    exact write_body_inv cfg junk sized s role _ buf count r hmax hcount (Nat.pos_of_ne_zero hc0) h
      hrole hr

/-- The invariant survives `jfs_chdir`. -/
theorem jfs_chdir_inv (cfg : Config) (sized : Prop) (s : FS) (role : Nat → Nat)
    (n : Option Name) (h : Inv cfg sized s role) : Inv cfg sized (jfs_chdir cfg s n).2 role := by
  cases n with
  | none => exact inv_chdir cfg sized s role 1 h h.role_root
  | some name =>
    by_cases hio : s.current_dir < s.nblocks
    swap
    · simp only [jfs_chdir, read_block, hio, if_false]
      exact h
    cases hfind : find_entry cfg (s.disk s.current_dir) name (max_entries cfg) 0 with
    | none =>
      simp only [jfs_chdir, read_block, hio, if_true, hfind]
      exact h
    | some i =>
      obtain ⟨hi, hu⟩ := find_entry_used cfg _ name i hfind
      by_cases hkind : s.disk s.current_dir (i * entry_size cfg + 1) = 1
      · simp only [jfs_chdir, read_block, hio, if_true, hfind, hkind]
        refine inv_chdir cfg sized s role _ h ?_
        rcases ((h.dirs _ h.role_cur).2.2 i hi hu).2.2 with ⟨_, e⟩ | ⟨e, _⟩
        · exact e
        · rw [hkind] at e; exact absurd e (by decide)
      · simp only [jfs_chdir, read_block, hio, if_true, hfind, hkind, if_false]
        exact h

theorem jfs_remove_cases (cfg : Config) (s : FS) (name : Name) :
    (jfs_remove cfg s name).1 = E_SUCCESS ∨ (jfs_remove cfg s name).2 = s := by
  by_cases hio : s.current_dir < s.nblocks
  swap
  · right
    simp only [jfs_remove, read_block, hio, if_false]
  cases hfind : find_entry cfg (s.disk s.current_dir) name (max_entries cfg) 0 with
  | none =>
    right
    simp only [jfs_remove, read_block, hio, if_true, hfind]
  | some i =>
    by_cases hd : is_dir s (load16 (s.disk s.current_dir)
        (i * entry_size cfg + 2 + cfg.MAX_NAME_LENGTH)) = true
    · right
      simp only [jfs_remove, read_block, hio, if_true, hfind, hd]
    · left
      simp only [jfs_remove, read_block, hio, if_true, hfind, hd, write_block, release_block]
      simp

theorem jfs_rmdir_cases (cfg : Config) (s : FS) (name : Name) :
    (jfs_rmdir cfg s name).1 = E_SUCCESS ∨ (jfs_rmdir cfg s name).2 = s := by
  by_cases hio : s.current_dir < s.nblocks
  swap
  · right
    simp only [jfs_rmdir, read_block, hio, if_false]
  cases hfind : find_entry cfg (s.disk s.current_dir) name (max_entries cfg) 0 with
  | none =>
    right
    simp only [jfs_rmdir, read_block, hio, if_true, hfind]
  | some i =>
    by_cases hk : s.disk s.current_dir (i * entry_size cfg + 1) = 1
    swap
    · right
      simp [jfs_rmdir, read_block, hio, hfind, hk]
    by_cases hb : load16 (s.disk s.current_dir)
        (i * entry_size cfg + 2 + cfg.MAX_NAME_LENGTH) < s.nblocks
    swap
    · right
      simp [jfs_rmdir, read_block, hio, hfind, hk, hb]
    by_cases he : dir_is_empty cfg (s.disk (load16 (s.disk s.current_dir)
        (i * entry_size cfg + 2 + cfg.MAX_NAME_LENGTH))) (max_entries cfg) 0 = true
    · left
      simp [jfs_rmdir, read_block, hio, hfind, hk, hb, he, write_block, release_block]
    · right
      simp [jfs_rmdir, read_block, hio, hfind, hk, hb, he]

/-- The invariant survives `jfs_remove`. -/
theorem jfs_remove_inv (cfg : Config) (sized : Prop) (s : FS) (role : Nat → Nat) (name : Name)
    (h : Inv cfg sized s role) : ∃ role1, Inv cfg sized (jfs_remove cfg s name).2 role1 := by
  rcases jfs_remove_cases cfg s name with hc | hc
  · obtain ⟨_, i, hfind, a1, _, a3, a4⟩ :=
      jfs_remove_success cfg s (jfs_remove cfg s name).2 name (Prod.ext hc rfl)
    obtain ⟨hi, hu⟩ := find_entry_used cfg _ name i hfind
    exact ⟨_, inv_remove cfg sized s _ role i h hi hu a1 a3 a4⟩
  · rw [hc]; exact ⟨role, h⟩

/-- The invariant survives `jfs_rmdir`. -/
theorem jfs_rmdir_inv (cfg : Config) (sized : Prop) (s : FS) (role : Nat → Nat) (name : Name)
    (h : Inv cfg sized s role) : ∃ role1, Inv cfg sized (jfs_rmdir cfg s name).2 role1 := by
  rcases jfs_rmdir_cases cfg s name with hc | hc
  · obtain ⟨_, i, hfind, a1, _, a3, a4⟩ :=
      jfs_rmdir_success cfg s (jfs_rmdir cfg s name).2 name (Prod.ext hc rfl)
    obtain ⟨hi, hu⟩ := find_entry_used cfg _ name i hfind
    exact ⟨_, inv_remove cfg sized s _ role i h hi hu a1 a3 a4⟩
  · rw [hc]; exact ⟨role, h⟩

/-- The outcomes of `jfs_creat`: a failure that leaves the state or only takes
the head of the free pool, or the success that fills in a slot. -/
theorem jfs_creat_cases (cfg : Config) (s : FS) (name : Name) :
    ((jfs_creat cfg s name).1 ≠ E_SUCCESS ∧
      ((jfs_creat cfg s name).2 = s ∨
        ∃ b rest, s.free = b :: rest ∧ (jfs_creat cfg s name).2 = { s with free := rest })) ∨
    ∃ j b rest, s.current_dir < s.nblocks ∧
      find_entry cfg (s.disk s.current_dir) name (max_entries cfg) 0 = none ∧
      first_free cfg (s.disk s.current_dir) (max_entries cfg) 0 = some j ∧
      s.free = b :: rest ∧ b ≠ 0 ∧ b < s.nblocks ∧
      jfs_creat cfg s name = (E_SUCCESS, created cfg s j 0 name b rest) := by
  by_cases hlen : strlen name ≤ cfg.MAX_NAME_LENGTH
  swap
  · left
    have hgt : strlen name > cfg.MAX_NAME_LENGTH := Nat.lt_of_not_le hlen
    simp [jfs_creat, hgt]
  have hlen1 : ¬ strlen name > cfg.MAX_NAME_LENGTH := Nat.not_lt.mpr hlen
  by_cases hio : s.current_dir < s.nblocks
  swap
  · left
    simp [jfs_creat, hlen1, read_block, hio]
  cases hnew : find_entry cfg (s.disk s.current_dir) name (max_entries cfg) 0 with
  | some i =>
    left
    obtain ⟨_, h2, h3, _⟩ := (find_entry_some_iff cfg _ name _ 0 i).mp hnew
    have hscan : creat_scan cfg (s.disk s.current_dir) name (max_entries cfg) 0 none
        = .error E_EXISTS :=
      creat_scan_exists cfg _ name i h3.1 h3.2 _ 0 none (Nat.zero_le _) h2
    simp [jfs_creat, hlen1, read_block, hio, hscan]
  | none =>
    have hno := (find_entry_none_iff cfg _ name _ 0).mp hnew
    have hscan : creat_scan cfg (s.disk s.current_dir) name (max_entries cfg) 0 none
        = .ok (first_free cfg (s.disk s.current_dir) (max_entries cfg) 0) :=
      creat_scan_no_hit cfg _ name _ 0 none hno
    cases hslot : first_free cfg (s.disk s.current_dir) (max_entries cfg) 0 with
    | none =>
      left
      rw [hslot] at hscan
      simp [jfs_creat, hlen1, read_block, hio, hscan]
    | some j =>
      rw [hslot] at hscan
      cases hfree : s.free with
      | nil =>
        left
        simp [jfs_creat, hlen1, read_block, hio, hscan, allocate_block, hfree]
      | cons b rest =>
        by_cases hb0 : b = 0
        · left
          simp [jfs_creat, hlen1, read_block, hio, hscan, allocate_block, hfree, hb0]
        by_cases hbn : b < s.nblocks
        · right
          exact ⟨j, b, rest, hio, rfl, rfl, rfl, hb0, hbn,
            jfs_creat_success cfg s name j b rest hlen hio hnew hslot hfree hb0 hbn⟩
        · left
          simp [jfs_creat, hlen1, read_block, hio, hscan, allocate_block, hfree, hb0, write_block, hbn]

/-- The outcomes of `jfs_mkdir`: a failure that leaves the state or only takes
the head of the free pool, or the success that fills in a slot. -/
theorem jfs_mkdir_cases (cfg : Config) (s : FS) (name : Name)
    (hbin : ∀ i, i < max_entries cfg → s.disk s.current_dir (i * entry_size cfg) = 0 ∨
      s.disk s.current_dir (i * entry_size cfg) = 1) :
    ((jfs_mkdir cfg s name).1 ≠ E_SUCCESS ∧
      ((jfs_mkdir cfg s name).2 = s ∨
        ∃ b rest, s.free = b :: rest ∧ (jfs_mkdir cfg s name).2 = { s with free := rest })) ∨
    ∃ j b rest, s.current_dir < s.nblocks ∧
      find_entry cfg (s.disk s.current_dir) name (max_entries cfg) 0 = none ∧
      first_free cfg (s.disk s.current_dir) (max_entries cfg) 0 = some j ∧
      s.free = b :: rest ∧ b ≠ 0 ∧ b < s.nblocks ∧
      jfs_mkdir cfg s name = (E_SUCCESS, created cfg s j 1 name b rest) := by
  by_cases hlen : strlen name ≤ cfg.MAX_NAME_LENGTH
  swap
  · left
    have hgt : strlen name > cfg.MAX_NAME_LENGTH := Nat.lt_of_not_le hlen
    simp [jfs_mkdir, hgt]
  have hlen1 : ¬ strlen name > cfg.MAX_NAME_LENGTH := Nat.not_lt.mpr hlen
  by_cases hio : s.current_dir < s.nblocks
  swap
  · left
    simp [jfs_mkdir, hlen1, read_block, hio]
  cases hnew : find_entry cfg (s.disk s.current_dir) name (max_entries cfg) 0 with
  | some i =>
    left
    obtain ⟨_, h2, h3, _⟩ := (find_entry_some_iff cfg _ name _ 0 i).mp hnew
    have hscan : mkdir_scan cfg (s.disk s.current_dir) name (max_entries cfg) 0 none
        = .error E_EXISTS :=
      mkdir_scan_exists cfg _ name i
        ((hbin i (by rw [Nat.zero_add] at h2; exact h2)).resolve_left h3.1) h3.2 _ 0 none
        (Nat.zero_le _) h2
    simp [jfs_mkdir, hlen1, read_block, hio, hscan]
  | none =>
    have hno := (find_entry_none_iff cfg _ name _ 0).mp hnew
    have hscan : mkdir_scan cfg (s.disk s.current_dir) name (max_entries cfg) 0 none
        = .ok (first_free cfg (s.disk s.current_dir) (max_entries cfg) 0) :=
      mkdir_scan_no_hit cfg _ name _ 0 none hno
    cases hslot : first_free cfg (s.disk s.current_dir) (max_entries cfg) 0 with
    | none =>
      left
      rw [hslot] at hscan
      simp [jfs_mkdir, hlen1, read_block, hio, hscan]
    | some j =>
      rw [hslot] at hscan
      cases hfree : s.free with
      | nil =>
        left
        simp [jfs_mkdir, hlen1, read_block, hio, hscan, allocate_block, hfree]
      | cons b rest =>
        by_cases hb0 : b = 0
        · left
          simp [jfs_mkdir, hlen1, read_block, hio, hscan, allocate_block, hfree, hb0]
        by_cases hbn : b < s.nblocks
        · right
          exact ⟨j, b, rest, hio, rfl, rfl, rfl, hb0, hbn,
            jfs_mkdir_success cfg s name j b rest hlen hio hnew hslot hfree hb0 hbn⟩
        · left
          simp [jfs_mkdir, hlen1, read_block, hio, hscan, allocate_block, hfree, hb0, write_block, hbn]

/-- The invariant survives `jfs_creat`. -/
theorem jfs_creat_inv (cfg : Config) (sized : Prop) (s : FS) (role : Nat → Nat) (name : Name)
    (h : Inv cfg sized s role) : ∃ role1, Inv cfg sized (jfs_creat cfg s name).2 role1 := by
  rcases jfs_creat_cases cfg s name with ⟨_, hc | ⟨b, rest, hf, hc⟩⟩ |
      ⟨j, b, rest, _, hnew, _, hfree, hb0, _, hc⟩
  · rw [hc]; exact ⟨role, h⟩
  · rw [hc]
    exact ⟨role, inv_frame cfg sized s _ role h rfl
      (by rw [hf]; exact List.sublist_cons_self _ _) (fun _ _ => rfl)⟩
  · rw [hc]
    exact ⟨_, inv_create cfg sized s role j 0 name b rest h
      (fun i hi => (find_entry_none_iff cfg _ name _ 0).mp hnew i (Nat.zero_le _)
        (by rw [Nat.zero_add]; exact hi)) hfree hb0 (Or.inl rfl)⟩

/-- The invariant survives `jfs_mkdir`. -/
theorem jfs_mkdir_inv (cfg : Config) (sized : Prop) (s : FS) (role : Nat → Nat) (name : Name)
    (h : Inv cfg sized s role) : ∃ role1, Inv cfg sized (jfs_mkdir cfg s name).2 role1 := by
  rcases jfs_mkdir_cases cfg s name (h.dirs _ h.role_cur).1 with
      ⟨_, hc | ⟨b, rest, hf, hc⟩⟩ | ⟨j, b, rest, _, hnew, _, hfree, hb0, _, hc⟩
  · rw [hc]; exact ⟨role, h⟩
  · rw [hc]
    exact ⟨role, inv_frame cfg sized s _ role h rfl
      (by rw [hf]; exact List.sublist_cons_self _ _) (fun _ _ => rfl)⟩
  · rw [hc]
    exact ⟨_, inv_create cfg sized s role j 1 name b rest h
      (fun i hi => (find_entry_none_iff cfg _ name _ 0).mp hnew i (Nat.zero_le _)
        (by rw [Nat.zero_add]; exact hi)) hfree hb0 (Or.inr rfl)⟩

/-! ## Reachable states -/

/-- The mounted fresh device satisfies the invariant. -/
theorem mount_inv (cfg : Config) (sized : Prop) (s : FS) (bfs_ret : Int)
    (h : fresh_device s) :
    Inv cfg sized (jfs_mount bfs_ret s).2 (fun x => if x = 1 then 1 else 0) := by
  obtain ⟨hz, hnd, hfr⟩ := h
  have hroot : s.disk 1 = zero_block := funext hz
  have hrole : ∀ d v, v ≠ 0 → (if d = 1 then 1 else 0) = v → d = 1 ∧ v = 1 := by
    intro d v hv hd
    by_cases e : d = 1
    · rw [if_pos e] at hd; exact ⟨e, hd.symm⟩
    · rw [if_neg e] at hd; exact absurd hd.symm hv
  refine ⟨rfl, rfl, rfl, hnd, fun b hb => ⟨if_neg (hfr b hb).1, (hfr b hb).2⟩, ?_, ?_, ?_⟩
  · intro d hd
    obtain ⟨e, _⟩ := hrole d 1 (by decide) hd
    rw [e]
    show dir_ok cfg _ 1 (s.disk 1)
    rw [hroot]
    exact dir_ok_zero cfg _ 1
  · intro f hf
    exact absurd (hrole f 2 (by decide) hf).2 (by decide)
  · intro d d1 i i1 hd _ _ _ hu _ _
    obtain ⟨e, _⟩ := hrole d 1 (by decide) hd
    rw [e] at hu
    have : (jfs_mount bfs_ret s).2.disk 1 (i * entry_size cfg) = 0 := hz _
    exact absurd this hu

/-- Every call keeps the invariant. -/
theorem step_inv (cfg : Config) (junk : Block) (sized : Prop) (s s1 : FS) (role : Nat → Nat)
    (op : Op) (hmax : sized → cfg.MAX_FILE_SIZE + 65535 < 2 ^ 32) (h : Inv cfg sized s role)
    (hs : step cfg junk s op = some s1) : ∃ role1, Inv cfg sized s1 role1 := by
  cases op with
  | mkdir name =>
    have e : (jfs_mkdir cfg s name).2 = s1 := Option.some.inj hs
    rw [← e]; exact jfs_mkdir_inv cfg sized s role name h
  | creat name =>
    have e : (jfs_creat cfg s name).2 = s1 := Option.some.inj hs
    rw [← e]; exact jfs_creat_inv cfg sized s role name h
  | rmdir name =>
    have e : (jfs_rmdir cfg s name).2 = s1 := Option.some.inj hs
    rw [← e]; exact jfs_rmdir_inv cfg sized s role name h
  | remove name =>
    have e : (jfs_remove cfg s name).2 = s1 := Option.some.inj hs
    rw [← e]; exact jfs_remove_inv cfg sized s role name h
  | write name buf count =>
    cases hw : jfs_write cfg junk s name buf (count % 65536) with
    | none =>
      have hs1 : (jfs_write cfg junk s name buf (count % 65536)).map Prod.snd = some s1 := hs
      rw [hw] at hs1
      cases hs1
    | some r =>
      have hs1 : (jfs_write cfg junk s name buf (count % 65536)).map Prod.snd = some s1 := hs
      rw [hw] at hs1
      have e : r.2 = s1 := Option.some.inj hs1
      rw [← e]
      exact ⟨role, jfs_write_inv cfg junk sized s role name buf _ r hmax
        (Nat.mod_lt _ (by decide)) h hw⟩
  | read name cap =>
    cases hrd : jfs_read cfg s name cap with
    | none =>
      have hs1 : (jfs_read cfg s name cap).map (fun _ => s) = some s1 := hs
      rw [hrd] at hs1
      cases hs1
    | some r =>
      have hs1 : (jfs_read cfg s name cap).map (fun _ => s) = some s1 := hs
      rw [hrd] at hs1
      have e : s = s1 := Option.some.inj hs1
      rw [← e]; exact ⟨role, h⟩
  | stat name buf =>
    have e : s = s1 := Option.some.inj hs
    rw [← e]; exact ⟨role, h⟩
  | ls =>
    have e : s = s1 := Option.some.inj hs
    rw [← e]; exact ⟨role, h⟩
  | chdir name =>
    have e : (jfs_chdir cfg s name).2 = s1 := Option.some.inj hs
    rw [← e]; exact ⟨role, jfs_chdir_inv cfg sized s role name h⟩

/-- Every sequence of calls keeps the invariant. -/
theorem run_inv (cfg : Config) (junk : Block) (sized : Prop)
    (hmax : sized → cfg.MAX_FILE_SIZE + 65535 < 2 ^ 32) :
    ∀ (ops : List Op) (s s1 : FS) (role : Nat → Nat), Inv cfg sized s role →
      run cfg junk s ops = some s1 → ∃ role1, Inv cfg sized s1 role1 := by
  intro ops
  induction ops with
  | nil =>
    intro s s1 role h hr
    have e : s = s1 := Option.some.inj hr
    rw [← e]; exact ⟨role, h⟩
  | cons op ops ih =>
    intro s s1 role h hr
    unfold run at hr
    cases hst : step cfg junk s op with
    | none => rw [hst] at hr; cases hr
    | some s2 =>
      rw [hst] at hr
      obtain ⟨role2, h2⟩ := step_inv cfg junk sized s s2 role op hmax h hst
      exact ih s2 s1 role2 h2 hr

theorem run_append (cfg : Config) (junk : Block) :
    ∀ (ops : List Op) (s s1 : FS) (op : Op), run cfg junk s ops = some s1 →
      run cfg junk s (ops ++ [op]) = step cfg junk s1 op := by
  intro ops
  induction ops with
  | nil =>
    intro s s1 op hr
    have e : s = s1 := Option.some.inj hr
    rw [← e]
    show (match step cfg junk s op with
      | none => none
      | some s2 => run cfg junk s2 []) = step cfg junk s op
    cases step cfg junk s op <;> rfl
  | cons o ops ih =>
    intro s s1 op hr
    unfold run at hr
    show (match step cfg junk s o with
      | none => none
      | some s2 => run cfg junk s2 (ops ++ [op])) = step cfg junk s1 op
    cases hst : step cfg junk s o with
    | none => rw [hst] at hr; cases hr
    | some s2 =>
      rw [hst] at hr
      exact ih s2 s1 op hr

theorem run_getD (cfg : Config) (junk : Block) (s d : FS) (ops : List Op)
    (h : (run cfg junk s ops).isSome = true) :
    run cfg junk s ops = some ((run cfg junk s ops).getD d) := by
  cases hr : run cfg junk s ops with
  | none => rw [hr] at h; cases h
  | some s1 => rfl

/-- C17: in every state reached from a mounted fresh device (zero-filled root
block, free pool of distinct block numbers below `2^16` other than the root)
by any sequence of `jfs_mkdir`, `jfs_creat`, `jfs_rmdir`, `jfs_remove`,
`jfs_write`, `jfs_read`, `jfs_stat`, `jfs_ls` and `jfs_chdir` calls that
return, the current directory block holds no two used slots whose names
compare equal over `MAX_NAME_LENGTH` bytes; and the state any further call
leaves satisfies the predicate again. -/
theorem names_unique_reachable (cfg : Config) (junk : Block) (s0 s : FS) (bfs_ret : Int)
    (ops : List Op) (hdev : fresh_device s0)
    (hrun : run cfg junk (jfs_mount bfs_ret s0).2 ops = some s) :
    names_unique cfg (s.disk s.current_dir) ∧
    ∀ op s1, step cfg junk s op = some s1 → names_unique cfg (s1.disk s1.current_dir) := by
  obtain ⟨role, h⟩ := run_inv cfg junk False (fun hf => absurd hf id) ops _ s _
    (mount_inv cfg False s0 bfs_ret hdev) hrun
  refine ⟨(h.dirs _ h.role_cur).2.1, fun op s1 hs => ?_⟩
  obtain ⟨role1, h1⟩ := step_inv cfg junk False s s1 role op (fun hf => absurd hf id) h hs
  exact (h1.dirs _ h1.role_cur).2.1

/-- Witness for C17: the demonstration run on the 16-block device. -/
theorem names_unique_reachable_witness :
    names_unique cfg64 (fs_demo.disk fs_demo.current_dir) ∧
    ∀ op s1, step cfg64 junk0 fs_demo op = some s1 →
      names_unique cfg64 (s1.disk s1.current_dir) :=
  names_unique_reachable cfg64 junk0 fs0 fs_demo 0 ops_demo
    ⟨fun _ => rfl, by decide, by decide⟩
    (run_getD cfg64 junk0 _ fs0 ops_demo (by decide))

theorem dir_walk_role (cfg : Config) (sized : Prop) (s : FS) (role : Nat → Nat)
    (h : Inv cfg sized s role) :
    ∀ (path : List Nat) (d d1 : Nat), role d = 1 → dir_walk cfg s d path = some d1 →
      role d1 = 1 := by
  intro path
  induction path with
  | nil =>
    intro d d1 hd hw
    have e : d = d1 := Option.some.inj hw
    rw [← e]; exact hd
  | cons i path ih =>
    intro d d1 hd hw
    unfold dir_walk at hw
    split at hw
    · rename_i hc
      refine ih _ d1 ?_ hw
      rcases ((h.dirs d hd).2.2 i hc.1 hc.2.1).2.2 with ⟨_, e⟩ | ⟨e, _⟩
      · exact e
      · rw [hc.2.2] at e; exact absurd e (by decide)
    · cases hw

/-- C18: in every state `s` reached from a mounted fresh device by calls of
the interface (with a size ceiling that keeps `size + count` within `unsigned
int`): (1) every used slot of kind 0 of the current directory, and of every
directory reached from the root along used slots of kind 1, points to a
metadata block whose stored size is 0 exactly when its stored head (bytes 4
and 5) is 0; (2) a successful `jfs_creat` leaves the name in a slot of kind 0
whose metadata block stores size 0 and head 0; (3) every `jfs_write` that
returns, with success or with an error, leaves the metadata block of the file
it targets with size 0 exactly when its head is 0. -/
theorem size_zero_iff_head_zero (cfg : Config) (junk : Block) (s0 s : FS) (bfs_ret : Int)
    (ops : List Op)
    (hmax : cfg.MAX_FILE_SIZE + 65535 < 2 ^ 32) (hdev : fresh_device s0)
    (hrun : run cfg junk (jfs_mount bfs_ret s0).2 ops = some s) :
    (∀ d, (d = s.current_dir ∨ ∃ path, dir_walk cfg s 1 path = some d) →
      ∀ i, i < max_entries cfg → s.disk d (i * entry_size cfg) ≠ 0 →
      s.disk d (i * entry_size cfg + 1) = 0 →
      (load32 (s.disk (slot_target cfg (s.disk d) i)) 0 = 0 ↔
        load16 (s.disk (slot_target cfg (s.disk d) i)) 4 = 0)) ∧
    (∀ name s1, jfs_creat cfg s name = (E_SUCCESS, s1) →
      ∃ j, find_entry cfg (s1.disk s1.current_dir) name (max_entries cfg) 0 = some j ∧
        s1.disk s1.current_dir (j * entry_size cfg + 1) = 0 ∧
        load32 (s1.disk (slot_target cfg (s1.disk s1.current_dir) j)) 0 = 0 ∧
        load16 (s1.disk (slot_target cfg (s1.disk s1.current_dir) j)) 4 = 0) ∧
    (∀ name buf count e s1 i, count < 65536 →
      jfs_write cfg junk s name buf count = some (e, s1) →
      find_entry cfg (s.disk s.current_dir) name (max_entries cfg) 0 = some i →
      s.disk s.current_dir (i * entry_size cfg + 1) = 0 →
      (load32 (s1.disk (slot_target cfg (s.disk s.current_dir) i)) 0 = 0 ↔
        load16 (s1.disk (slot_target cfg (s.disk s.current_dir) i)) 4 = 0)) := by
  obtain ⟨role, h⟩ := run_inv cfg junk True (fun _ => hmax) ops _ s _
    (mount_inv cfg True s0 bfs_ret hdev) hrun
  have hfiled : ∀ d, role d = 1 → ∀ i, i < max_entries cfg →
      s.disk d (i * entry_size cfg) ≠ 0 → s.disk d (i * entry_size cfg + 1) = 0 →
      role (slot_target cfg (s.disk d) i) = 2 := by
    intro d hd i hi hu hk
    rcases ((h.dirs d hd).2.2 i hi hu).2.2 with ⟨e, _⟩ | ⟨_, e⟩
    · rw [hk] at e; exact absurd e (by decide)
    · exact e
  have hfile := hfiled _ h.role_cur
  have hdir : ∀ d, (d = s.current_dir ∨ ∃ path, dir_walk cfg s 1 path = some d) →
      role d = 1 := by
    intro d hd
    rcases hd with e | ⟨path, e⟩
    · rw [e]; exact h.role_cur
    · exact dir_walk_role cfg True s role h path 1 d h.role_root e
  refine ⟨fun d hd i hi hu hk => ((h.inodes _ (hfiled d (hdir d hd) i hi hu hk)).1 trivial).2,
    ?_, ?_⟩
  · intro name s1 hc
    rcases jfs_creat_cases cfg s name with ⟨hne, _⟩ | ⟨j, b, rest, _, hnew, hslot, hfree, _, _, hc1⟩
    · rw [hc] at hne
      exact absurd rfl hne
    · have hs1 : s1 = created cfg s j 0 name b rest := by
        rw [hc] at hc1
        exact (Prod.mk.inj hc1).2
      have hbm : b ∈ s.free := by rw [hfree]; exact List.mem_cons_self _ _
      obtain ⟨hrb, hb16⟩ := h.free_role b hbm
      have hbcd : b ≠ s.current_dir := by
        intro e
        rw [e, h.role_cur] at hrb
        exact absurd hrb (by decide)
      have hcd : (created cfg s j 0 name b rest).disk (created cfg s j 0 name b rest).current_dir
          = put_entry cfg (s.disk s.current_dir) j 0 name b := by
        simp only [created, if_true]
      have hdb : (created cfg s j 0 name b rest).disk b = zero_block := by
        simp only [created, if_neg hbcd, if_true]
      rw [hs1, hcd]
      refine ⟨j, find_entry_put cfg _ j 0 name b hnew hslot, put_entry_kind cfg _ j 0 name b,
        ?_, ?_⟩
      · rw [slot_target_put_self cfg _ j 0 name b hb16, hdb]; rfl
      · rw [slot_target_put_self cfg _ j 0 name b hb16, hdb]; rfl
  · intro name buf count e s1 i hcount hw hfind hk
    obtain ⟨hi, hu⟩ := find_entry_used cfg _ name i hfind
    have h1 := jfs_write_inv cfg junk True s role name buf count (e, s1) (fun _ => hmax)
      hcount h hw
    exact ((h1.inodes _ (hfile i hi hu hk)).1 trivial).2

/-- Witness for C18: on the 16-block device, the metadata block 2 of `a.txt`
after `jfs_creat` (size 0, head 0) and after the append of 100 bytes (size 100,
head 3). -/
theorem size_zero_iff_head_zero_witness :
    (load32 (fs_a.disk 2) 0 = 0 ↔ load16 (fs_a.disk 2) 4 = 0) ∧
    (load32 (fs_x100.disk 2) 0 = 0 ↔ load16 (fs_x100.disk 2) 4 = 0) :=
  have h := size_zero_iff_head_zero cfg64 junk0 fs0 fs_a 0 [.creat name_a] (by decide)
    ⟨fun _ => rfl, by decide, by decide⟩ rfl
  ⟨h.1 1 (Or.inr ⟨[], rfl⟩) 0 (by decide) (by decide) (by decide),
    h.2.2 name_a x100 100 E_SUCCESS fs_x100 0 (by decide)
      (result_of_code _ fs_a E_SUCCESS (by decide)) (by decide) (by decide)⟩

/-! ## Allocation exhaustion during an append -/

/-- C21: runs of the code on the 16-block device without free blocks.  An
append of 30 bytes to the 100-byte file `a.txt` (data blocks 3 and 4) returns
`E_DISK_FULL` after its first chunk of 28 bytes was written; the metadata
block 2 and the directory block 1 keep all their 64 bytes, the cursor stays,
and `jfs_stat` still reports size 100; but the chunk went into the head block
3 and covers its trailer, which now holds 30840 instead of 4, so `jfs_read`
with capacity 200, which returned `E_SUCCESS` and count 100 before the call,
now fails with `-1` and leaves the count 200.  When the exhaustion hits at the
first chunk (an append to a file of 64 bytes), `jfs_read` returns what it
returned before. -/
theorem disk_full_after_partial_append :
    fs_p3_x100.free = [] ∧
    code_of (jfs_write cfg64 junk0 fs_p3_x100 name_a x30 30) = some E_DISK_FULL ∧
    (List.range 64).map (fs_p3_full.disk 2) = (List.range 64).map (fs_p3_x100.disk 2) ∧
    (List.range 64).map (fs_p3_full.disk 1) = (List.range 64).map (fs_p3_x100.disk 1) ∧
    fs_p3_full.current_dir = fs_p3_x100.current_dir ∧
    jfs_stat cfg64 fs_p3_full name_a stats0 = jfs_stat cfg64 fs_p3_x100 name_a stats0 ∧
    (jfs_stat cfg64 fs_p3_full name_a stats0).2.file_size = 100 ∧
    load16 (fs_p3_x100.disk 3) 62 = 4 ∧ load16 (fs_p3_full.disk 3) 62 = 30840 ∧
    (jfs_read cfg64 fs_p3_x100 name_a 200).map (fun r => (r.1, r.2.2))
      = some (E_SUCCESS, 100) ∧
    (jfs_read cfg64 fs_p3_full name_a 200).map (fun r => (r.1, r.2.2))
      = some (E_MINUS_ONE, 200) ∧
    code_of (jfs_write cfg64 junk0 fs_p2_x64 name_a x30 30) = some E_DISK_FULL ∧
    jfs_read cfg64 (state_after (jfs_write cfg64 junk0 fs_p2_x64 name_a x30 30) fs_p2_x64)
      name_a 200 = jfs_read cfg64 fs_p2_x64 name_a 200 := by
  decide

theorem write_prepare_error_nblocks (cfg : Config) (junk : Block) (w : WriteState) (e : Err)
    (fs : FS) (h : write_prepare cfg junk w = .error (e, fs)) :
    fs.nblocks = w.fs.nblocks := by
  have hn := allocate_block_nblocks w.fs
  unfold write_prepare at h
  dsimp only at h
  split at h
  · split at h
    · cases h
      exact hn
    · split at h
      · split at h
        · cases h
          exact hn
        · split at h
          · cases h
            exact hn
          · cases h
      · cases h
  · split at h
    · cases h
      rfl
    · cases h

theorem write_step_error_nblocks (cfg : Config) (junk : Block) (buf : List Nat) (count : Nat)
    (w : WriteState) (e : Err) (fs : FS)
    (h : write_step cfg junk buf count w = .error (e, fs)) :
    fs.nblocks = w.fs.nblocks := by
  unfold write_step at h
  split at h
  · rename_i e1 hp
    cases h
    exact write_prepare_error_nblocks cfg junk w e fs hp
  · rename_i wp dbuf hp
    dsimp only at h
    split at h
    · cases h
      exact (write_prepare_ok cfg junk w wp dbuf hp).2.2.2.2.1
    · cases h

theorem write_loop_error_nblocks (cfg : Config) (junk : Block) (buf : List Nat) (count : Nat) :
    ∀ (fuel : Nat) (w : WriteState) (e : Err) (fs : FS),
      write_loop cfg junk buf count fuel w = some (.error (e, fs)) →
      fs.nblocks = w.fs.nblocks := by
  intro fuel
  induction fuel with
  | zero =>
    intro w e fs h
    unfold write_loop at h
    split at h <;> cases h
  | succ fuel ih =>
    intro w e fs h
    unfold write_loop at h
    split at h
    · split at h
      · rename_i e1 hstep
        have e2 : e1 = (e, fs) := Except.error.inj (Option.some.inj h)
        rw [e2] at hstep
        exact write_step_error_nblocks cfg junk buf count w e fs hstep
      · rename_i w1 hstep
        exact (ih w1 e fs h).trans (write_step_ok cfg junk buf count w w1 hstep).2.2.2.2.1
    · cases h

/-- In a state that satisfies the invariant, a `jfs_write` that returns
`E_DISK_FULL` found the name in a slot of kind 0 and leaves the cursor, the
size of the device and every directory and metadata block as they were. -/
theorem jfs_write_disk_full (cfg : Config) (junk : Block) (sized : Prop) (s s1 : FS)
    (role : Nat → Nat) (name : Name) (buf : List Nat) (count : Nat)
    (h : Inv cfg sized s role)
    (hw : jfs_write cfg junk s name buf count = some (E_DISK_FULL, s1)) :
    s1.current_dir = s.current_dir ∧ s1.nblocks = s.nblocks ∧
    (∀ d, role d ≠ 0 → s1.disk d = s.disk d) ∧ s.current_dir < s.nblocks ∧
    ∃ i, find_entry cfg (s.disk s.current_dir) name (max_entries cfg) 0 = some i ∧
      s.disk s.current_dir (i * entry_size cfg + 1) = 0 ∧
      role (slot_target cfg (s.disk s.current_dir) i) = 2 := by
  by_cases hc0 : count = 0
  · simp [jfs_write, hc0] at hw
  by_cases hio : s.current_dir < s.nblocks
  swap
  · simp [jfs_write, hc0, read_block, hio] at hw
  cases hfind : find_entry cfg (s.disk s.current_dir) name (max_entries cfg) 0 with
  | none => simp [jfs_write, hc0, read_block, hio, hfind] at hw
  | some i =>
    by_cases hkind : s.disk s.current_dir (i * entry_size cfg + 1) = 0
    swap
    · simp [jfs_write, hc0, read_block, hio, hfind, hkind] at hw
    by_cases hfb : load16 (s.disk s.current_dir) (i * entry_size cfg + 2 + cfg.MAX_NAME_LENGTH)
        < s.nblocks
    swap
    · simp [jfs_write, hc0, read_block, hio, hfind, hkind, hfb] at hw
    rw [jfs_write_regular cfg junk s name buf count i (Nat.pos_of_ne_zero hc0) hio hfind hkind
      hfb] at hw
    obtain ⟨hi, hu⟩ := find_entry_used cfg _ name i hfind
    have hrole : role (slot_target cfg (s.disk s.current_dir) i) = 2 := by
      rcases ((h.dirs _ h.role_cur).2.2 i hi hu).2.2 with ⟨e, _⟩ | ⟨_, e⟩
      · rw [hkind] at e; exact absurd e (by decide)
      · exact e
    have hfbdef : load16 (s.disk s.current_dir) (i * entry_size cfg + 2 + cfg.MAX_NAME_LENGTH)
        = slot_target cfg (s.disk s.current_dir) i := rfl
    rw [hfbdef] at hw
    have hrole0 := hrole
    generalize slot_target cfg (s.disk s.current_dir) i = fb at hw hrole
    refine ⟨?_, ?_, ?_, hio, i, rfl, hkind, hrole0⟩ <;>
    · obtain ⟨_, hhead⟩ := h.inodes fb hrole
      have hframe0 : ∀ d, role d ≠ 0 →
          (write_start cfg s (s.disk fb)).current_data_block ≠ d ∧
            d ∉ (write_start cfg s (s.disk fb)).fs.free := by
        intro d hd
        refine ⟨fun e => ?_, fun hm => hd (h.free_role d hm).1⟩
        have e1 : load16 (s.disk fb) 4 = d := e
        by_cases hz : load16 (s.disk fb) 4 = 0
        · rw [← e1, hz] at hd
          exact hd h.role_zero
        · rw [← e1] at hd
          exact hd (hhead hz).1
      unfold write_body at hw
      split at hw
      · cases hw
      · cases hl : write_loop cfg junk buf count count (write_start cfg s (s.disk fb)) with
        | none => rw [hl] at hw; cases hw
        | some res =>
          cases res with
          | error e =>
            rw [hl] at hw
            have he : e = (E_DISK_FULL, s1) := Option.some.inj hw
            rw [he] at hl
            obtain ⟨a1, _, a3⟩ :=
              write_loop_error_frame cfg junk buf count count _ E_DISK_FULL s1 hl
            have a4 := write_loop_error_nblocks cfg junk buf count count _ E_DISK_FULL s1 hl
            first
              | exact a1
              | exact a4
              | exact fun d hd => a3 d (hframe0 d hd).1 (hframe0 d hd).2
          | ok wf =>
            rw [hl] at hw
            dsimp only at hw
            rcases write_finish_code cfg fb wf _ hw with e | e <;> cases e

/-- What a `jfs_write` that returns `E_DISK_FULL` leaves untouched, in every
state reached from a mounted fresh device by calls of the interface: the
cursor, the directory block, the metadata block of the file, and with them the
result of `jfs_stat`. -/
theorem disk_full_keeps_metadata (cfg : Config) (junk : Block) (s0 s s1 : FS) (bfs_ret : Int)
    (ops : List Op) (name : Name) (buf : List Nat) (count : Nat)
    (hdev : fresh_device s0)
    (hrun : run cfg junk (jfs_mount bfs_ret s0).2 ops = some s)
    (hw : jfs_write cfg junk s name buf count = some (E_DISK_FULL, s1)) :
    s1.current_dir = s.current_dir ∧ s1.nblocks = s.nblocks ∧
    s1.disk s.current_dir = s.disk s.current_dir ∧
    (∃ i, find_entry cfg (s.disk s.current_dir) name (max_entries cfg) 0 = some i ∧
      s1.disk (slot_target cfg (s.disk s.current_dir) i)
        = s.disk (slot_target cfg (s.disk s.current_dir) i)) ∧
    ∀ st, jfs_stat cfg s1 name st = jfs_stat cfg s name st := by
  obtain ⟨role, h⟩ := run_inv cfg junk False (fun hf => absurd hf id) ops _ s _
    (mount_inv cfg False s0 bfs_ret hdev) hrun
  obtain ⟨hcd, hnb, hdisk, hio, i, hfind, hkind, hrole⟩ :=
    jfs_write_disk_full cfg junk False s s1 role name buf count h hw
  have hdcd : s1.disk s.current_dir = s.disk s.current_dir :=
    hdisk _ (by rw [h.role_cur]; decide)
  have hdfb : s1.disk (slot_target cfg (s.disk s.current_dir) i)
      = s.disk (slot_target cfg (s.disk s.current_dir) i) :=
    hdisk _ (by rw [hrole]; decide)
  refine ⟨hcd, hnb, hdcd, ⟨i, hfind, hdfb⟩, fun st => ?_⟩
  have hfb : load16 (s.disk s.current_dir) (i * entry_size cfg + 2 + cfg.MAX_NAME_LENGTH)
      = slot_target cfg (s.disk s.current_dir) i := rfl
  simp only [jfs_stat, read_block, hcd, hnb, hdcd, hio, if_true, hfind, hkind, hfb, hdfb]

/-- The statement of `disk_full_keeps_metadata` on the 16-block device without
free blocks, for the append of 30 bytes to the 100-byte file. -/
theorem disk_full_keeps_metadata_on_device :
    fs_p3_full.current_dir = fs_p3_x100.current_dir ∧
    fs_p3_full.nblocks = fs_p3_x100.nblocks ∧
    fs_p3_full.disk fs_p3_x100.current_dir = fs_p3_x100.disk fs_p3_x100.current_dir ∧
    (∃ i, find_entry cfg64 (fs_p3_x100.disk fs_p3_x100.current_dir) name_a
        (max_entries cfg64) 0 = some i ∧
      fs_p3_full.disk (slot_target cfg64 (fs_p3_x100.disk fs_p3_x100.current_dir) i)
        = fs_p3_x100.disk (slot_target cfg64 (fs_p3_x100.disk fs_p3_x100.current_dir) i)) ∧
    ∀ st, jfs_stat cfg64 fs_p3_full name_a st = jfs_stat cfg64 fs_p3_x100 name_a st :=
  disk_full_keeps_metadata cfg64 junk0 fs_p3 fs_p3_x100 fs_p3_full 0
    [.creat name_a, .write name_a x100 100] name_a x30 30
    ⟨fun _ => rfl, by decide, by decide⟩ rfl
    (result_of_code _ fs_p3_x100 E_DISK_FULL (by decide))

end JFS
